import Mathlib

/-!
Verification of the circuit-simulation core (graph builder, MNA assembly,
Gaussian-elimination solvers, DC fixed-point loop, AC sweep, transient loop).

Shallow embedding conventions:
* JavaScript numbers are modelled by `ℝ`; machine floating point is out of
  scope, the arithmetic is modelled exactly.
* The source keys ports by the string `id + ":" + portIndex`; component ids are
  generated by the host as base-36 alphanumeric strings (never containing a
  colon), so the key is modelled by the injective pair `(id, portIndex)`.
* JavaScript `Map` objects (insertion-ordered, `set` replaces in place) are
  modelled by association lists with a `set` that replaces in place.
* `x || d` on numbers (which substitutes `d` for `undefined`, `0` and other
  falsy values) is modelled by `jsOr` on `Option ℝ`.
* Dense matrices and vectors are modelled as total functions `ℕ → ℕ → ℝ`
  (resp. `ℕ → ℝ`); out-of-range cells are never read by the loops, which all
  run over explicit index ranges exactly as the source does.
-/

/-- Port key: the source's template string id + colon + portIndex, modelled as a pair. -/
abbrev PortKey := String × ℕ

/-- Association-list lookup, mirroring JavaScript Map.get. -/
def lookupA {α β : Type} [DecidableEq α] : List (α × β) → α → Option β
  | [], _ => none
  | e :: t, k => if e.1 = k then some e.2 else lookupA t k

/-- Association-list update, mirroring JavaScript Map.set: replaces the value
in place when the key is present, otherwise appends at the end. -/
def setA {α β : Type} [DecidableEq α] : List (α × β) → α → β → List (α × β)
  | [], k, v => [(k, v)]
  | e :: t, k, v => if e.1 = k then (k, v) :: t else e :: setA t k v

theorem lookupA_setA_self {α β : Type} [DecidableEq α] (l : List (α × β)) (k : α) (v : β) :
    lookupA (setA l k v) k = some v := by
  induction l with
  | nil => simp [setA, lookupA]
  | cons e t ih =>
      by_cases h : e.1 = k
      · simp [setA, h, lookupA]
      · simp [setA, h, lookupA, ih]

theorem lookupA_setA_ne {α β : Type} [DecidableEq α] (l : List (α × β)) {k k' : α} (v : β)
    (h : k' ≠ k) : lookupA (setA l k v) k' = lookupA l k' := by
  have hk : ¬ (k = k') := fun h' => h h'.symm
  induction l with
  | nil => simp [setA, lookupA, hk]
  | cons e t ih =>
      by_cases he : e.1 = k
      · subst he
        simp [setA, if_pos rfl, lookupA, hk, if_neg hk]
      · simp only [setA, if_neg he, lookupA, ih]

theorem lookupA_isSome_setA {α β : Type} [DecidableEq α] (l : List (α × β)) (k k' : α) (v : β) :
    (lookupA (setA l k v) k').isSome ↔ k' = k ∨ (lookupA l k').isSome := by
  by_cases h : k' = k
  · subst h; simp [lookupA_setA_self]
  · simp [lookupA_setA_ne l v h, h]

/-- The component kinds of the simulator. -/
inductive ComponentType where
  | RESISTOR | VOLTAGE_SOURCE | AC_SOURCE | GROUND | CAPACITOR | INDUCTOR
  | DIODE | LED | OPAMP | AND_GATE | OR_GATE | NOT_GATE | NAND_GATE
  | NOR_GATE | XOR_GATE | VOLTMETER | AMMETER
  deriving DecidableEq, Repr

open ComponentType

/-- A circuit component. Only the fields read by the solver are modelled
(`position`, `rotation`, `label`, `zIndex`, `maxCurrent` are never read by the
three entry points). `waveform` is kept as a raw string, as the runtime value
of the TypeScript union type. -/
structure CircuitComponent where
  id : String
  type : ComponentType
  value : ℝ
  frequency : Option ℝ := none
  waveform : Option String := none
  dcBias : Option ℝ := none
  dutyCycle : Option ℝ := none
  inputImpedance : Option ℝ := none
  inputCount : Option ℕ := none

/-- A wire, connecting two ports. -/
structure Wire where
  wfrom : PortKey
  wto : PortKey
  deriving DecidableEq

/-- JavaScript `c.inputCount || 2` (0 and undefined are falsy). -/
def inputCountOr2 (c : CircuitComponent) : ℕ :=
  match c.inputCount with
  | none => 2
  | some n => if n = 0 then 2 else n

def isGate5 (t : ComponentType) : Bool :=
  t = AND_GATE ∨ t = OR_GATE ∨ t = NAND_GATE ∨ t = NOR_GATE ∨ t = XOR_GATE

/-- The port keys registered for a component by `buildGraph` (source lines
130-152), in insertion order. -/
def validPorts (c : CircuitComponent) : List PortKey :=
  [(c.id, 0)]
  ++ (if c.type ≠ GROUND ∧ c.type ≠ NOT_GATE ∧ ¬(isGate5 c.type ∨ c.type = OPAMP) then
        [(c.id, 1)] else [])
  ++ (if isGate5 c.type then
        (List.range (inputCountOr2 c)).map (fun i => (c.id, i)) ++ [(c.id, inputCountOr2 c)]
      else [])
  ++ (if c.type = OPAMP then [(c.id, 1), (c.id, 2)] else [])
  ++ (if c.type = NOT_GATE then [(c.id, 1)] else [])

/-- Adjacency map from port keys to neighbour lists. -/
abbrev Adj := List (PortKey × List PortKey)

/-- Register every valid port of every component with an empty neighbour list. -/
def adjInit (components : List CircuitComponent) : Adj :=
  components.foldl (fun a c => (validPorts c).foldl (fun a k => setA a k []) a) []

/-- `if (!adj.has(k)) adj.set(k, [])`. -/
def adjEnsure (a : Adj) (k : PortKey) : Adj :=
  match lookupA a k with
  | some _ => a
  | none => setA a k []

/-- `adj.get(k)?.push(n)`: appends `n` to `k`'s neighbour list (no-op when the
key is absent, which never happens after `adjEnsure`). -/
def adjPush (a : Adj) (k n : PortKey) : Adj :=
  match lookupA a k with
  | some l => setA a k (l ++ [n])
  | none => a

/-- One wire: ensure both endpoints exist, then push each onto the other's list. -/
def adjWire (a : Adj) (w : Wire) : Adj :=
  let a1 := adjEnsure (adjEnsure a w.wfrom) w.wto
  adjPush (adjPush a1 w.wfrom w.wto) w.wto w.wfrom

def buildAdj (components : List CircuitComponent) (wires : List Wire) : Adj :=
  wires.foldl adjWire (adjInit components)

/-- `adj.get(curr) || []`. -/
def nbrs (a : Adj) (k : PortKey) : List PortKey :=
  (lookupA a k).getD []

/-- All keys together with every entry of every neighbour list; the universe
used to bound the BFS fuel. -/
def univList (a : Adj) : List PortKey :=
  a.foldr (fun e acc => e.1 :: e.2 ++ acc) []

/-- Source inner loop over the neighbours of a popped key: each not-yet-visited
neighbour is marked visited and appended to the queue. -/
def pushFresh (vq : List PortKey × List PortKey) (ns : List PortKey) :
    List PortKey × List PortKey :=
  ns.foldl (fun vq n => if n ∈ vq.1 then vq else (vq.1 ++ [n], vq.2 ++ [n])) vq

/-- Breadth-first search collecting one connected group, with structural fuel
(the fuel is chosen below so that the queue always empties before it runs out;
`bfs_no_truncation` proves the fuel sufficient). Returns the group in pop
order and the final visited list. -/
def bfsAux (a : Adj) : ℕ → List PortKey → List PortKey → List PortKey × List PortKey
  | 0, visited, _ => ([], visited)
  | _ + 1, visited, [] => ([], visited)
  | fuel + 1, visited, c :: rest =>
      let vq := pushFresh (visited, rest) (nbrs a c)
      let gv := bfsAux a fuel vq.1 vq.2
      (c :: gv.1, gv.2)

/-- Number of universe elements not yet visited. -/
def unseen (a : Adj) (visited : List PortKey) : ℕ :=
  ((univList a).filter (fun k => k ∉ visited)).length

/-- Fuel sufficient for any BFS over `a`. -/
def bfsFuel (a : Adj) : ℕ := (univList a).length + 2

/-- First component with the given id, mirroring `components.find`. -/
def findComp (components : List CircuitComponent) (id : String) : Option CircuitComponent :=
  components.find? (fun c => c.id = id)

/-- Whether a popped key makes its group a ground group (source lines 176-178). -/
def isGroundKey (components : List CircuitComponent) (k : PortKey) : Bool :=
  match findComp components k.1 with
  | some c => c.type = GROUND
  | none => false

/-- State of the outer grouping loop: visited set, port→node map, next node id. -/
structure BuildState where
  visited : List PortKey
  pm : List (PortKey × ℕ)
  nc : ℕ

/-- Process one key of the adjacency map (source loop lines 165-195). -/
def buildStep (components : List CircuitComponent) (a : Adj) (st : BuildState) (k : PortKey) :
    BuildState :=
  if k ∈ st.visited then st
  else
    let gv := bfsAux a (bfsFuel a) (st.visited ++ [k]) [k]
    let isG := gv.1.any (isGroundKey components)
    if isG then ⟨gv.2, gv.1.foldl (fun m p => setA m p 0) st.pm, st.nc⟩
    else ⟨gv.2, gv.1.foldl (fun m p => setA m p st.nc) st.pm, st.nc + 1⟩

structure Graph where
  portToNode : List (PortKey × ℕ)
  numNodes : ℕ

/-- The grouping pass `buildGraph` (source lines 123-197). -/
def buildGraph (components : List CircuitComponent) (wires : List Wire) : Graph :=
  let a := buildAdj components wires
  let st := (a.map (·.1)).foldl (buildStep components a) ⟨[], [], 1⟩
  ⟨st.pm, st.nc - 1⟩

/-! ### Numeric layer: matrices, vectors, complex numbers, Gaussian elimination -/

noncomputable section

/-- JavaScript `x || d` for an optional numeric property (`undefined` and `0`
are falsy). -/
def jsOr (o : Option ℝ) (d : ℝ) : ℝ :=
  match o with
  | none => d
  | some v => if v = 0 then d else v

abbrev Mat := ℕ → ℕ → ℝ
abbrev Vec := ℕ → ℝ

/-- Pointwise cell overwrite (JavaScript `M[i][j] = v`). -/
def mset {α : Type} (M : ℕ → ℕ → α) (i j : ℕ) (v : α) : ℕ → ℕ → α :=
  fun a b => if a = i ∧ b = j then v else M a b

/-- Pointwise cell increment (JavaScript `M[i][j] += v`). -/
def madd (M : Mat) (i j : ℕ) (v : ℝ) : Mat := mset M i j (M i j + v)

def vset {α : Type} (V : ℕ → α) (i : ℕ) (v : α) : ℕ → α :=
  fun a => if a = i then v else V a

def vadd (V : Vec) (i : ℕ) (v : ℝ) : Vec := vset V i (V i + v)

theorem mset_eval {α : Type} (M : ℕ → ℕ → α) (i j a b : ℕ) (v : α) :
    mset M i j v a b = if a = i ∧ b = j then v else M a b := rfl

theorem vset_eval {α : Type} (V : ℕ → α) (i a : ℕ) (v : α) :
    vset V i v a = if a = i then v else V a := rfl

theorem madd_eval (M : Mat) (i j a b : ℕ) (v : ℝ) :
    madd M i j v a b = if a = i ∧ b = j then M i j + v else M a b := rfl

theorem vadd_eval (V : Vec) (i a : ℕ) (v : ℝ) :
    vadd V i v a = if a = i then V i + v else V a := rfl

/-- Row of greatest absolute value in column `i`, scanning rows `i+1..n-1` and
keeping the earlier row on ties — exactly the source's running-maximum loop
(source lines 81-89), since the running maximum always equals `|M best i|`. -/
def pivotRow (M : Mat) (n i : ℕ) : ℕ :=
  (List.range' (i + 1) (n - (i + 1))).foldl
    (fun best k => if |M k i| > |M best i| then k else best) i

def rowSwap {α : Type} (M : ℕ → ℕ → α) (i j : ℕ) : ℕ → ℕ → α :=
  fun a b => if a = i then M j b else if a = j then M i b else M a b

def vecSwap {α : Type} (V : ℕ → α) (i j : ℕ) : ℕ → α :=
  fun a => if a = i then V j else if a = j then V i else V a

/-- Forward elimination at column `i` (source lines 81-102): pivot search, row
swap, singular-pivot skip, then elimination of rows `i+1..n-1` over columns
`i..n-1`.  Each eliminated row uses the pre-update factor `M[k][i]/M[i][i]` and
the unchanged pivot row, so the simultaneous update below equals the source's
sequential one. -/
def elimStep (n : ℕ) (s : Mat × Vec) (i : ℕ) : Mat × Vec :=
  let p := pivotRow s.1 n i
  let M := rowSwap s.1 i p
  let V := vecSwap s.2 i p
  if |M i i| < 1e-12 then (M, V)
  else
    (fun a b => if i < a ∧ a < n ∧ i ≤ b ∧ b < n then M a b - M a i / M i i * M i b else M a b,
     fun a => if i < a ∧ a < n then V a - M a i / M i i * V i else V a)

/-- Back-substitution at row `i` (source lines 104-111); a degenerate pivot
leaves the unknown at its initial 0. -/
def backStep (n : ℕ) (M : Mat) (V : Vec) (x : Vec) (i : ℕ) : Vec :=
  if |M i i| < 1e-12 then x
  else vset x i ((V i - ((List.range' (i + 1) (n - (i + 1))).map (fun j => M i j * x j)).sum) / M i i)

/-- Gaussian elimination with partial pivoting on real matrices
(`MatrixSolver.solve`, source lines 74-114). -/
def MatrixSolver.solve (n : ℕ) (A : Mat) (B : Vec) : Vec :=
  let fe := (List.range n).foldl (elimStep n) (A, B)
  ((List.range n).reverse).foldl (backStep n fe.1 fe.2) (fun _ => 0)

/-- The source's complex-number helper class. -/
structure Cpx where
  re : ℝ
  im : ℝ

namespace Cpx

def add (x y : Cpx) : Cpx := ⟨x.re + y.re, x.im + y.im⟩

def sub (x y : Cpx) : Cpx := ⟨x.re - y.re, x.im - y.im⟩

def mul (x y : Cpx) : Cpx := ⟨x.re * y.re - x.im * y.im, x.re * y.im + x.im * y.re⟩

/-- Division guarding a zero denominator (source lines 15-22). -/
def div (x y : Cpx) : Cpx :=
  let den := y.re * y.re + y.im * y.im
  if den = 0 then ⟨0, 0⟩
  else ⟨(x.re * y.re + x.im * y.im) / den, (x.im * y.re - x.re * y.im) / den⟩

def magnitude (x : Cpx) : ℝ := Real.sqrt (x.re ^ 2 + x.im ^ 2)

end Cpx

instance : Zero Cpx := ⟨⟨0, 0⟩⟩

instance : One Cpx := ⟨⟨1, 0⟩⟩

instance : Add Cpx := ⟨Cpx.add⟩

instance : Sub Cpx := ⟨Cpx.sub⟩

instance : Mul Cpx := ⟨Cpx.mul⟩

theorem Cpx.ext_iff {x y : Cpx} : x = y ↔ x.re = y.re ∧ x.im = y.im := by
  cases x; cases y; simp

abbrev CMat := ℕ → ℕ → Cpx
abbrev CVec := ℕ → Cpx

def cmadd (M : CMat) (i j : ℕ) (v : Cpx) : CMat := mset M i j (Cpx.add (M i j) v)

def cvadd (V : CVec) (i : ℕ) (v : Cpx) : CVec := vset V i (Cpx.add (V i) v)

def cPivotRow (M : CMat) (n i : ℕ) : ℕ :=
  (List.range' (i + 1) (n - (i + 1))).foldl
    (fun best k => if (M k i).magnitude > (M best i).magnitude then k else best) i

/-- Complex forward elimination at column `i` (source lines 38-59). -/
def cElimStep (n : ℕ) (s : CMat × CVec) (i : ℕ) : CMat × CVec :=
  let p := cPivotRow s.1 n i
  let M := rowSwap s.1 i p
  let V := vecSwap s.2 i p
  if (M i i).magnitude < 1e-12 then (M, V)
  else
    (fun a b => if i < a ∧ a < n ∧ i ≤ b ∧ b < n then
        Cpx.sub (M a b) (Cpx.mul (Cpx.div (M a i) (M i i)) (M i b)) else M a b,
     fun a => if i < a ∧ a < n then
        Cpx.sub (V a) (Cpx.mul (Cpx.div (M a i) (M i i)) (V i)) else V a)

/-- Complex back-substitution at row `i` (source lines 61-68). -/
def cBackStep (n : ℕ) (M : CMat) (V : CVec) (x : CVec) (i : ℕ) : CVec :=
  if (M i i).magnitude < 1e-12 then x
  else vset x i
    (Cpx.div (Cpx.sub (V i) (((List.range' (i + 1) (n - (i + 1))).map
      (fun j => Cpx.mul (M i j) (x j))).sum)) (M i i))

/-- Gaussian elimination with partial pivoting on complex matrices
(`ComplexMatrixSolver.solve`, source lines 31-71). -/
def ComplexMatrixSolver.solve (n : ℕ) (A : CMat) (B : CVec) : CVec :=
  let fe := (List.range n).foldl (cElimStep n) (A, B)
  ((List.range n).reverse).foldl (cBackStep n fe.1 fe.2) (fun _ => (0 : Cpx))

/-! ### Result data model -/

inductive SimulationMode where
  | INTERACTIVE | TRANSIENT | AC_SWEEP
  deriving DecidableEq, Repr

structure SimulationConfig where
  timeStep : ℝ
  stopTime : ℝ
  startFreq : ℝ
  stopFreq : ℝ
  points : ℕ

structure SimNode where
  id : ℕ
  voltage : ℝ
  phase : ℝ
  componentIds : List String

/-- One plot point: `x` plus the `N1..Nn` node values keyed by node id. -/
structure DataPoint where
  x : ℝ
  ys : List (ℕ × ℝ)

structure SimulationResult where
  nodes : List SimNode
  nodeVoltages : List (ℕ × (ℝ × ℝ))
  componentCurrents : List (String × ℝ)
  error : Option String := none
  frequency : ℝ
  mode : SimulationMode
  plotData : Option (List DataPoint) := none

end

/-! ### Correctness of the graph builder -/

/-- One-step adjacency in the built port graph. -/
def adjStep (a : Adj) (x y : PortKey) : Prop := y ∈ nbrs a x

/-- Reachability in the built port graph. -/
def AdjStar (a : Adj) : PortKey → PortKey → Prop := Relation.ReflTransGen (adjStep a)

/-- Wire-level adjacency: the two ports of one wire, in either direction. -/
def wAdj (wires : List Wire) (x y : PortKey) : Prop :=
  ∃ w ∈ wires, (w.wfrom = x ∧ w.wto = y) ∨ (w.wfrom = y ∧ w.wto = x)

/-- Two ports joined by a chain of wires (the claim's connectivity notion). -/
def chainConnected (wires : List Wire) : PortKey → PortKey → Prop :=
  Relation.ReflTransGen (wAdj wires)

theorem pushFresh_spec (ns : List PortKey) :
    ∀ v q : List PortKey, ∃ ex : List PortKey,
      pushFresh (v, q) ns = (v ++ ex, q ++ ex) ∧ ex.Nodup ∧
      (∀ x ∈ ex, x ∈ ns ∧ x ∉ v) ∧ (∀ x ∈ ns, x ∈ v ++ ex) := by
  induction ns with
  | nil => intro v q; exact ⟨[], by simp [pushFresh], by simp, by simp, by simp⟩
  | cons n t ih =>
      intro v q
      by_cases hn : n ∈ v
      · obtain ⟨ex, h1, h2, h3, h4⟩ := ih v q
        refine ⟨ex, ?_, h2, fun x hx => ⟨List.mem_cons_of_mem _ (h3 x hx).1, (h3 x hx).2⟩, ?_⟩
        · simpa [pushFresh, hn] using h1
        · intro x hx
          rcases List.mem_cons.1 hx with h | h
          · subst h; simp [hn]
          · exact h4 x h
      · obtain ⟨ex, h1, h2, h3, h4⟩ := ih (v ++ [n]) (q ++ [n])
        refine ⟨n :: ex, ?_, ?_, ?_, ?_⟩
        · have : pushFresh (v, q) (n :: t) = pushFresh (v ++ [n], q ++ [n]) t := by
            simp [pushFresh, hn]
          rw [this, h1]; simp
        · refine List.nodup_cons.2 ⟨fun hc => ?_, h2⟩
          exact (h3 n hc).2 (by simp)
        · intro x hx
          rcases List.mem_cons.1 hx with h | h
          · subst h; exact ⟨by simp, hn⟩
          · obtain ⟨hxt, hxv⟩ := h3 x h
            exact ⟨by simp [hxt], fun hc => hxv (by simp [hc])⟩
        · intro x hx
          rcases List.mem_cons.1 hx with h | h
          · subst h; simp
          · have := h4 x h
            simp only [List.append_assoc, List.singleton_append] at this ⊢
            simpa using this
  
theorem unseen_mono (a : Adj) {v v' : List PortKey} (h : ∀ x ∈ v, x ∈ v') :
    unseen a v' ≤ unseen a v := by
  refine List.Sublist.length_le (List.monotone_filter_right _ ?_)
  intro x hx
  simp only [decide_eq_true_eq] at hx ⊢
  exact fun hc => hx (h x hc)

theorem unseen_strict (a : Adj) {v : List PortKey} {x : PortKey}
    (hu : x ∈ univList a) (hv : x ∉ v) : unseen a (v ++ [x]) < unseen a v := by
  have hsub : ((univList a).filter (fun k => k ∉ v ++ [x])).Sublist
      ((univList a).filter (fun k => k ∉ v)) := by
    refine List.monotone_filter_right _ ?_
    intro y hy
    simp only [decide_eq_true_eq, List.mem_append] at hy ⊢
    exact fun hc => hy (Or.inl hc)
  rcases Nat.lt_or_ge ((univList a).filter (fun k => k ∉ v ++ [x])).length
      ((univList a).filter (fun k => k ∉ v)).length with h | h
  · exact h
  · exfalso
    have heq := hsub.eq_of_length (Nat.le_antisymm hsub.length_le h)
    have hx1 : x ∈ (univList a).filter (fun k => k ∉ v) := by
      simp [List.mem_filter, hu, hv]
    have hx2 : x ∉ (univList a).filter (fun k => k ∉ v ++ [x]) := by
      simp [List.mem_filter]
    rw [heq] at hx2
    exact hx2 hx1

theorem unseen_append (a : Adj) (ex : List PortKey) :
    ∀ v : List PortKey, ex.Nodup → (∀ x ∈ ex, x ∈ univList a ∧ x ∉ v) →
      unseen a (v ++ ex) + ex.length ≤ unseen a v := by
  induction ex with
  | nil => intro v _ _; simp
  | cons x t ih =>
      intro v hnd hmem
      have hx := hmem x (by simp)
      have h1 : unseen a (v ++ [x]) < unseen a v := unseen_strict a hx.1 hx.2
      have h2 : unseen a ((v ++ [x]) ++ t) + t.length ≤ unseen a (v ++ [x]) := by
        refine ih (v ++ [x]) (List.nodup_cons.1 hnd).2 ?_
        intro y hy
        have hyy := hmem y (by simp [hy])
        refine ⟨hyy.1, ?_⟩
        simp only [List.mem_append, List.mem_singleton]
        rintro (hc | hc)
        · exact hyy.2 hc
        · exact (List.nodup_cons.1 hnd).1 (hc ▸ hy)
      have h3 : v ++ x :: t = (v ++ [x]) ++ t := by simp
      rw [h3]
      simp only [List.length_cons]
      omega

/-- The elements of every neighbour list belong to the fuel universe. -/
theorem nbrs_subset_univ (a : Adj) (k : PortKey) : ∀ y ∈ nbrs a k, y ∈ univList a := by
  intro y hy
  unfold nbrs at hy
  induction a with
  | nil => simp [lookupA] at hy
  | cons e t ih =>
      by_cases he : e.1 = k
      · simp only [lookupA, if_pos he, Option.getD_some] at hy
        simp only [univList, List.foldr_cons, List.mem_cons, List.mem_append]
        tauto
      · simp only [lookupA, if_neg he] at hy
        have := ih hy
        simp only [univList, List.foldr_cons] at this ⊢
        simp only [List.mem_cons, List.mem_append] at this ⊢
        tauto

/-- Generic induction workhorse for the fueled BFS: with enough fuel, the queue
always empties before the fuel runs out, and the stated facts hold. -/
theorem bfsAux_spec (a : Adj) : ∀ (fuel : ℕ) (v q : List PortKey),
    unseen a v + q.length < fuel →
    (∀ x ∈ v, x ∈ (bfsAux a fuel v q).2) ∧
    (∀ x ∈ q, x ∈ (bfsAux a fuel v q).1) ∧
    ((∀ x ∈ q, x ∈ v) → ∀ x, x ∈ (bfsAux a fuel v q).2 ↔ x ∈ v ∨ x ∈ (bfsAux a fuel v q).1) ∧
    ((∀ x ∈ q, x ∈ v) →
      ∀ u ∈ (bfsAux a fuel v q).1, ∀ y ∈ nbrs a u, y ∈ (bfsAux a fuel v q).2) ∧
    (∀ u ∈ (bfsAux a fuel v q).1, u ∈ q ∨ u ∉ v) := by
  intro fuel
  induction fuel with
  | zero => intro v q h; omega
  | succ fuel ih =>
      intro v q hfuel
      match q with
      | [] =>
          refine ⟨by simp [bfsAux], by simp [bfsAux], ?_, by simp [bfsAux], by simp [bfsAux]⟩
          intro _ x; simp [bfsAux]
      | c :: rest =>
          obtain ⟨ex, hpf, hnd, hex, hcov⟩ := pushFresh_spec (nbrs a c) v rest
          have hexu : ∀ x ∈ ex, x ∈ univList a ∧ x ∉ v := by
            intro x hx
            exact ⟨nbrs_subset_univ a c x (hex x hx).1, (hex x hx).2⟩
          have hstep : unseen a (v ++ ex) + (rest ++ ex).length < fuel := by
            have := unseen_append a ex v hnd hexu
            simp only [List.length_append]
            simp only [List.length_cons] at hfuel
            omega
          obtain ⟨ihv, ihq, ihcup, ihcl, ihfr⟩ := ih (v ++ ex) (rest ++ ex) hstep
          have hunfold : bfsAux a (fuel + 1) v (c :: rest) =
              ((c :: (bfsAux a fuel (v ++ ex) (rest ++ ex)).1),
                (bfsAux a fuel (v ++ ex) (rest ++ ex)).2) := by
            simp only [bfsAux, hpf]
          rw [hunfold]
          refine ⟨?_, ?_, ?_, ?_, ?_⟩
          · intro x hx
            exact ihv x (by simp [hx])
          · intro x hx
            rcases List.mem_cons.1 hx with h | h
            · simp [h]
            · simp only [List.mem_cons]
              exact Or.inr (ihq x (by simp [h]))
          · intro hq x
            have hq2 : ∀ y ∈ rest ++ ex, y ∈ v ++ ex := by
              intro y hy
              rcases List.mem_append.1 hy with h | h
              · exact List.mem_append.2 (Or.inl (hq y (by simp [h])))
              · exact List.mem_append.2 (Or.inr h)
            have := ihcup hq2 x
            constructor
            · intro hx
              rcases (this.1 hx : x ∈ v ++ ex ∨ _) with h | h
              · rcases List.mem_append.1 h with h2 | h2
                · exact Or.inl h2
                · exact Or.inr (by simp [ihq x (List.mem_append.2 (Or.inr h2))])
              · exact Or.inr (by simp [h])
            · intro hx
              rcases hx with h | h
              · exact this.2 (Or.inl (List.mem_append.2 (Or.inl h)))
              · rcases List.mem_cons.1 h with h2 | h2
                · subst h2
                  exact this.2 (Or.inl (List.mem_append.2 (Or.inl (hq x (by simp)))))
                · exact this.2 (Or.inr h2)
          · intro hq u hu y hy
            have hq2 : ∀ z ∈ rest ++ ex, z ∈ v ++ ex := by
              intro z hz
              rcases List.mem_append.1 hz with h | h
              · exact List.mem_append.2 (Or.inl (hq z (by simp [h])))
              · exact List.mem_append.2 (Or.inr h)
            rcases List.mem_cons.1 hu with h | h
            · subst h
              have : y ∈ v ++ ex := hcov y hy
              exact ihv y this
            · exact ihcl hq2 u h y hy
          · intro u hu
            rcases List.mem_cons.1 hu with h | h
            · subst h; simp
            · rcases ihfr u h with h2 | h2
              · rcases List.mem_append.1 h2 with h3 | h3
                · simp [h3]
                · exact Or.inr (hex u h3).2
              · right
                intro hc
                exact h2 (List.mem_append.2 (Or.inl hc))

/-- Closure of the BFS group under a step-closed predicate holding on the queue. -/
theorem bfsAux_pred (a : Adj) (P : PortKey → Prop)
    (hstep : ∀ x y, P x → y ∈ nbrs a x → P y) : ∀ (fuel : ℕ) (v q : List PortKey),
    (∀ x ∈ q, P x) → ∀ u ∈ (bfsAux a fuel v q).1, P u := by
  intro fuel
  induction fuel with
  | zero => intro v q _ u hu; simp [bfsAux] at hu
  | succ fuel ih =>
      intro v q hq u hu
      match q with
      | [] => simp [bfsAux] at hu
      | c :: rest =>
          obtain ⟨ex, hpf, _, hex, _⟩ := pushFresh_spec (nbrs a c) v rest
          have hunfold : bfsAux a (fuel + 1) v (c :: rest) =
              ((c :: (bfsAux a fuel (v ++ ex) (rest ++ ex)).1),
                (bfsAux a fuel (v ++ ex) (rest ++ ex)).2) := by
            simp only [bfsAux, hpf]
          rw [hunfold] at hu
          rcases List.mem_cons.1 hu with h | h
          · subst h; exact hq u (by simp)
          · refine ih (v ++ ex) (rest ++ ex) ?_ u h
            intro x hx
            rcases List.mem_append.1 hx with h2 | h2
            · exact hq x (by simp [h2])
            · exact hstep c x (hq c (by simp)) (hex x h2).1

theorem unseen_le (a : Adj) (v : List PortKey) : unseen a v ≤ (univList a).length :=
  List.Sublist.length_le (List.filter_sublist _)

theorem bfsFuel_ok (a : Adj) (v : List PortKey) :
    unseen a v + 1 < bfsFuel a := by
  have := unseen_le a v
  unfold bfsFuel
  omega

theorem lookupA_isSome_iff_mem_keys {α β : Type} [DecidableEq α] (l : List (α × β)) (k : α) :
    (lookupA l k).isSome ↔ k ∈ l.map (·.1) := by
  induction l with
  | nil => simp [lookupA]
  | cons e t ih =>
      have hsy : (k = e.1) ↔ (e.1 = k) := eq_comm
      by_cases he : e.1 = k
      · simp [lookupA, he]
      · simp [lookupA, he, ih, hsy]

theorem lookupA_mem {α β : Type} [DecidableEq α] {l : List (α × β)} {k : α} {v : β}
    (h : lookupA l k = some v) : (k, v) ∈ l := by
  induction l with
  | nil => simp [lookupA] at h
  | cons e t ih =>
      by_cases he : e.1 = k
      · simp only [lookupA, if_pos he] at h
        have h2 := Option.some.inj h
        have : e = (k, v) := Prod.ext he h2
        rw [← this]
        exact List.mem_cons_self _ _
      · simp only [lookupA, if_neg he] at h
        exact List.mem_cons_of_mem _ (ih h)

theorem setA_entries {α β : Type} [DecidableEq α] (P : β → Prop) (l : List (α × β)) (k : α)
    (v : β) (h : ∀ e ∈ l, P e.2) (hv : P v) : ∀ e ∈ setA l k v, P e.2 := by
  induction l with
  | nil => simpa [setA] using hv
  | cons e0 t ih =>
      by_cases he : e0.1 = k
      · intro e hemem
        simp only [setA, if_pos he] at hemem
        rcases List.mem_cons.1 hemem with h1 | h1
        · rw [h1]; exact hv
        · exact h e (List.mem_cons_of_mem _ h1)
      · intro e hemem
        simp only [setA, if_neg he] at hemem
        rcases List.mem_cons.1 hemem with h1 | h1
        · rw [h1]; exact h e0 (List.mem_cons_self _ _)
        · exact ih (fun e2 he2 => h e2 (List.mem_cons_of_mem _ he2)) e h1

theorem nbrs_setA (a : Adj) (k : PortKey) (l : List PortKey) (x : PortKey) :
    nbrs (setA a k l) x = if x = k then l else nbrs a x := by
  by_cases h : x = k
  · subst h; simp [nbrs, lookupA_setA_self]
  · simp [nbrs, lookupA_setA_ne a l h, h]

theorem nbrs_adjEnsure (a : Adj) (k x : PortKey) : nbrs (adjEnsure a k) x = nbrs a x := by
  unfold adjEnsure
  cases hk : lookupA a k with
  | some l => rfl
  | none =>
      rw [nbrs_setA]
      by_cases h : x = k
      · subst h; simp [nbrs, hk]
      · simp [h]

theorem isSome_adjEnsure_self (a : Adj) (k : PortKey) :
    (lookupA (adjEnsure a k) k).isSome := by
  unfold adjEnsure
  cases hk : lookupA a k with
  | some l => simp [hk]
  | none => simp [lookupA_setA_self]

theorem isSome_adjEnsure (a : Adj) (k x : PortKey) :
    (lookupA (adjEnsure a k) x).isSome ↔ x = k ∨ (lookupA a x).isSome := by
  unfold adjEnsure
  cases hk : lookupA a k with
  | some l =>
      by_cases h : x = k
      · subst h; simp [hk]
      · simp [h]
  | none => rw [lookupA_isSome_setA]

theorem isSome_adjPush (a : Adj) (k n x : PortKey) :
    (lookupA (adjPush a k n) x).isSome ↔ (lookupA a x).isSome := by
  unfold adjPush
  cases hk : lookupA a k with
  | some l =>
      by_cases h : x = k
      · subst h; simp [lookupA_setA_self, hk]
      · simp [lookupA_setA_ne a _ h]
  | none => rfl

theorem mem_nbrs_adjPush (a : Adj) (k n : PortKey) (hk : (lookupA a k).isSome)
    (x u : PortKey) : u ∈ nbrs (adjPush a k n) x ↔ u ∈ nbrs a x ∨ (x = k ∧ u = n) := by
  unfold adjPush
  cases hl : lookupA a k with
  | none => rw [hl] at hk; simp at hk
  | some l =>
      rw [nbrs_setA]
      by_cases h : x = k
      · subst h
        simp [nbrs, hl]
      · simp [h]

theorem mem_nbrs_adjWire (a : Adj) (w : Wire) (x y : PortKey) :
    y ∈ nbrs (adjWire a w) x ↔
      y ∈ nbrs a x ∨ (x = w.wfrom ∧ y = w.wto) ∨ (x = w.wto ∧ y = w.wfrom) := by
  have hrw : adjWire a w =
      adjPush (adjPush (adjEnsure (adjEnsure a w.wfrom) w.wto) w.wfrom w.wto) w.wto w.wfrom :=
    rfl
  rw [hrw]
  have hdomf : (lookupA (adjEnsure (adjEnsure a w.wfrom) w.wto) w.wfrom).isSome := by
    rw [isSome_adjEnsure]
    exact Or.inr (isSome_adjEnsure_self a w.wfrom)
  have hdomt : (lookupA (adjEnsure (adjEnsure a w.wfrom) w.wto) w.wto).isSome :=
    isSome_adjEnsure_self _ w.wto
  have hdomt2 : (lookupA (adjPush (adjEnsure (adjEnsure a w.wfrom) w.wto) w.wfrom w.wto)
      w.wto).isSome := by
    rw [isSome_adjPush]; exact hdomt
  rw [mem_nbrs_adjPush _ _ _ hdomt2, mem_nbrs_adjPush _ _ _ hdomf,
    nbrs_adjEnsure, nbrs_adjEnsure]
  tauto

/-- All neighbour lists of the initial (component-ports) adjacency are empty. -/
theorem adjInit_entries (components : List CircuitComponent) :
    ∀ e ∈ adjInit components, e.2 = ([] : List PortKey) := by
  have inner : ∀ (ks : List PortKey) (a : Adj), (∀ e ∈ a, e.2 = ([] : List PortKey)) →
      ∀ e ∈ ks.foldl (fun a k => setA a k []) a, e.2 = [] := by
    intro ks
    induction ks with
    | nil => intro a h; simpa using h
    | cons k kt ihk =>
        intro a h
        exact ihk _ (setA_entries (fun l2 => l2 = ([] : List PortKey)) a k [] h rfl)
  have main : ∀ (cs : List CircuitComponent) (a : Adj),
      (∀ e ∈ a, e.2 = ([] : List PortKey)) →
      ∀ e ∈ cs.foldl (fun a c => (validPorts c).foldl (fun a k => setA a k []) a) a,
        e.2 = [] := by
    intro cs
    induction cs with
    | nil => intro a h; simpa using h
    | cons c t ih => intro a h; exact ih _ (inner (validPorts c) a h)
  exact main components [] (by simp)

theorem nbrs_adjInit (components : List CircuitComponent) (x : PortKey) :
    nbrs (adjInit components) x = [] := by
  unfold nbrs
  cases hl : lookupA (adjInit components) x with
  | none => rfl
  | some l =>
      have := adjInit_entries components (x, l) (lookupA_mem hl)
      simpa using this

theorem mem_nbrs_buildAdj (components : List CircuitComponent) (wires : List Wire)
    (x y : PortKey) : y ∈ nbrs (buildAdj components wires) x ↔ wAdj wires x y := by
  have key : ∀ (ws : List Wire) (a : Adj),
      y ∈ nbrs (ws.foldl adjWire a) x ↔ y ∈ nbrs a x ∨ wAdj ws x y := by
    intro ws
    induction ws with
    | nil => intro a; simp [wAdj]
    | cons w t ih =>
        intro a
        rw [List.foldl_cons, ih, mem_nbrs_adjWire]
        unfold wAdj
        simp only [List.mem_cons]
        constructor
        · rintro ((h | h) | ⟨w2, hw2, hcase⟩)
          · exact Or.inl h
          · exact Or.inr ⟨w, Or.inl rfl, by tauto⟩
          · exact Or.inr ⟨w2, Or.inr hw2, hcase⟩
        · rintro (h | ⟨w2, (hw2 | hw2), hcase⟩)
          · exact Or.inl (Or.inl h)
          · subst hw2; exact Or.inl (Or.inr (by tauto))
          · exact Or.inr ⟨w2, hw2, hcase⟩
  rw [buildAdj, key, nbrs_adjInit]
  simp

/-- The built adjacency is symmetric. -/
theorem adjSym_buildAdj (components : List CircuitComponent) (wires : List Wire) :
    ∀ x y, y ∈ nbrs (buildAdj components wires) x → x ∈ nbrs (buildAdj components wires) y := by
  intro x y h
  rw [mem_nbrs_buildAdj] at h ⊢
  obtain ⟨w, hw, hc⟩ := h
  exact ⟨w, hw, by tauto⟩

/-- Domain of the built adjacency: the valid component ports plus all wire endpoints. -/
theorem isSome_buildAdj (components : List CircuitComponent) (wires : List Wire) (k : PortKey) :
    (lookupA (buildAdj components wires) k).isSome ↔
      (∃ c ∈ components, k ∈ validPorts c) ∨ (∃ w ∈ wires, k = w.wfrom ∨ k = w.wto) := by
  have hwire : ∀ (ws : List Wire) (a : Adj),
      (lookupA (ws.foldl adjWire a) k).isSome ↔
        (lookupA a k).isSome ∨ (∃ w ∈ ws, k = w.wfrom ∨ k = w.wto) := by
    intro ws
    induction ws with
    | nil => intro a; simp
    | cons w t ih =>
        intro a
        rw [List.foldl_cons, ih]
        unfold adjWire
        rw [isSome_adjPush, isSome_adjPush, isSome_adjEnsure, isSome_adjEnsure]
        simp only [List.mem_cons]
        constructor
        · rintro ((h | h | h) | ⟨w2, hw2, hc⟩)
          · exact Or.inr ⟨w, Or.inl rfl, Or.inr h⟩
          · exact Or.inr ⟨w, Or.inl rfl, Or.inl h⟩
          · exact Or.inl h
          · exact Or.inr ⟨w2, Or.inr hw2, hc⟩
        · rintro (h | ⟨w2, (hw2 | hw2), hc⟩)
          · exact Or.inl (Or.inr (Or.inr h))
          · subst hw2; rcases hc with h | h
            · exact Or.inl (Or.inr (Or.inl h))
            · exact Or.inl (Or.inl h)
          · exact Or.inr ⟨w2, hw2, hc⟩
  have hinit : ∀ (cs : List CircuitComponent) (a : Adj),
      (lookupA (cs.foldl (fun a c => (validPorts c).foldl (fun a k => setA a k []) a) a)
          k).isSome ↔ (lookupA a k).isSome ∨ ∃ c ∈ cs, k ∈ validPorts c := by
    intro cs
    induction cs with
    | nil => intro a; simp
    | cons c t ih =>
        intro a
        rw [List.foldl_cons, ih]
        have hports : ∀ (ks : List PortKey) (a : Adj),
            (lookupA (ks.foldl (fun a k => setA a k []) a) k).isSome ↔
              (lookupA a k).isSome ∨ k ∈ ks := by
          intro ks
          induction ks with
          | nil => intro a; simp
          | cons k0 kt ihk =>
              intro a
              rw [List.foldl_cons, ihk, lookupA_isSome_setA]
              simp only [List.mem_cons]
              tauto
        rw [hports]
        simp only [List.mem_cons]
        constructor
        · rintro ((h | h) | ⟨c2, hc2, hk⟩)
          · exact Or.inl h
          · exact Or.inr ⟨c, Or.inl rfl, h⟩
          · exact Or.inr ⟨c2, Or.inr hc2, hk⟩
        · rintro (h | ⟨c2, (hc2 | hc2), hk⟩)
          · exact Or.inl (Or.inl h)
          · subst hc2; exact Or.inl (Or.inr hk)
          · exact Or.inr ⟨c2, hc2, hk⟩
  rw [buildAdj, hwire, adjInit, hinit]
  simp [lookupA]

theorem foldl_setA_lookup (g : List PortKey) :
    ∀ (pm : List (PortKey × ℕ)) (v : ℕ) (x : PortKey),
      lookupA (g.foldl (fun m p => setA m p v) pm) x =
        if x ∈ g then some v else lookupA pm x := by
  induction g with
  | nil => intro pm v x; simp
  | cons p t ih =>
      intro pm v x
      rw [List.foldl_cons, ih]
      by_cases hx : x ∈ t
      · simp [hx]
      · by_cases hxp : x = p
        · subst hxp; simp [hx, lookupA_setA_self]
        · simp [hx, hxp, lookupA_setA_ne pm v hxp]

theorem AdjStar_symm {a : Adj} (hsym : ∀ x y, y ∈ nbrs a x → x ∈ nbrs a y)
    {p q : PortKey} (h : AdjStar a p q) : AdjStar a q p :=
  Relation.ReflTransGen.symmetric (fun x y hxy => hsym x y hxy) h

/-- Invariant of the outer grouping loop. -/
structure BInv (components : List CircuitComponent) (a : Adj) (st : BuildState) : Prop where
  closed : ∀ x ∈ st.visited, ∀ y ∈ nbrs a x, y ∈ st.visited
  dom : ∀ x, (lookupA st.pm x).isSome ↔ x ∈ st.visited
  eqid : ∀ x ∈ st.visited, ∀ y ∈ nbrs a x, lookupA st.pm x = lookupA st.pm y
  bound : ∀ x n, lookupA st.pm x = some n → n = 0 ∨ (0 < n ∧ n < st.nc)
  ground : ∀ x ∈ st.visited,
    (lookupA st.pm x = some 0 ↔ ∃ y, AdjStar a x y ∧ isGroundKey components y = true)
  inj : ∀ x y n, lookupA st.pm x = some n → lookupA st.pm y = some n → n ≠ 0 → AdjStar a x y
  ncpos : 1 ≤ st.nc

theorem buildStep_inv (components : List CircuitComponent) (a : Adj)
    (hsym : ∀ x y, y ∈ nbrs a x → x ∈ nbrs a y) (st : BuildState) (k : PortKey)
    (h : BInv components a st) : BInv components a (buildStep components a st k) := by
  by_cases hk : k ∈ st.visited
  · simpa [buildStep, hk] using h
  obtain ⟨hv, hq, hcup, hcl, hfr⟩ := bfsAux_spec a (bfsFuel a) (st.visited ++ [k]) [k]
    (by simpa using bfsFuel_ok a (st.visited ++ [k]))
  have hqv : ∀ x ∈ [k], x ∈ st.visited ++ [k] := by simp
  set gv := bfsAux a (bfsFuel a) (st.visited ++ [k]) [k] with hgv
  have hkg : k ∈ gv.1 := hq k (by simp)
  have hcup' : ∀ x, x ∈ gv.2 ↔ x ∈ st.visited ∨ x ∈ gv.1 := by
    intro x
    rw [hcup hqv x]
    constructor
    · rintro (hx | hx)
      · rcases List.mem_append.1 hx with h2 | h2
        · exact Or.inl h2
        · simp only [List.mem_singleton] at h2
          exact Or.inr (h2 ▸ hkg)
      · exact Or.inr hx
    · rintro (hx | hx)
      · exact Or.inl (List.mem_append.2 (Or.inl hx))
      · exact Or.inr hx
  have hclosedg : ∀ u ∈ gv.1, ∀ y ∈ nbrs a u, y ∈ gv.2 := hcl hqv
  have hfresh : ∀ u ∈ gv.1, u ∉ st.visited := by
    intro u hu
    rcases hfr u hu with h2 | h2
    · simp only [List.mem_singleton] at h2
      exact h2 ▸ hk
    · intro hc
      exact h2 (List.mem_append.2 (Or.inl hc))
  have hreach : ∀ u ∈ gv.1, AdjStar a k u := by
    refine bfsAux_pred a (AdjStar a k) ?_ (bfsFuel a) (st.visited ++ [k]) [k] ?_
    · intro x y hx hy
      exact Relation.ReflTransGen.tail hx hy
    · intro x hx
      simp only [List.mem_singleton] at hx
      exact hx ▸ Relation.ReflTransGen.refl
  have hmutual : ∀ u ∈ gv.1, ∀ w ∈ gv.1, AdjStar a u w := by
    intro u hu w hw
    exact Relation.ReflTransGen.trans (AdjStar_symm hsym (hreach u hu)) (hreach w hw)
  have hchaing : ∀ u ∈ gv.1, ∀ y, AdjStar a u y → y ∈ gv.1 := by
    intro u hu y hstar
    induction hstar with
    | refl => exact hu
    | tail hrest hstep ih =>
        rcases (hcup' _).1 (hclosedg _ ih _ hstep) with h2 | h2
        · exfalso
          exact hfresh _ ih (h.closed _ h2 _ (hsym _ _ hstep))
        · exact h2
  have hncz : st.nc ≠ 0 := by have := h.ncpos; omega
  -- state after the step, in the two ground/non-ground branches
  by_cases hisg : gv.1.any (isGroundKey components) = true
  · have hstep : buildStep components a st k =
        ⟨gv.2, gv.1.foldl (fun m p => setA m p 0) st.pm, st.nc⟩ := by
      simp [buildStep, hk, ← hgv, hisg]
    rw [hstep]
    obtain ⟨u0, hu0, hu0g⟩ := List.any_eq_true.1 hisg
    constructor
    · intro x hx y hy
      rcases (hcup' x).1 hx with h2 | h2
      · exact (hcup' y).2 (Or.inl (h.closed x h2 y hy))
      · exact hclosedg x h2 y hy
    · intro x
      rw [foldl_setA_lookup]
      by_cases hx : x ∈ gv.1
      · simp [hx, (hcup' x).2 (Or.inr hx)]
      · simp only [hx, if_neg, not_false_iff, h.dom, hcup' x]
        tauto
    · intro x hx y hy
      rw [foldl_setA_lookup, foldl_setA_lookup]
      rcases (hcup' x).1 hx with h2 | h2
      · have hy2 : y ∈ st.visited := h.closed x h2 y hy
        have hxg : x ∉ gv.1 := fun hc => hfresh x hc h2
        have hyg : y ∉ gv.1 := fun hc => hfresh y hc hy2
        simp only [hxg, hyg, if_neg, not_false_iff]
        exact h.eqid x h2 y hy
      · rcases (hcup' y).1 (hclosedg x h2 y hy) with h3 | h3
        · exact absurd (h.closed y h3 x (hsym x y hy)) (hfresh x h2)
        · simp [h2, h3]
    · intro x n
      rw [foldl_setA_lookup]
      by_cases hx : x ∈ gv.1
      · simp only [hx, if_pos]
        intro hxn
        exact Or.inl (Option.some.inj hxn).symm
      · simp only [hx, if_neg, not_false_iff]
        exact h.bound x n
    · intro x hx
      rw [foldl_setA_lookup]
      by_cases hxg : x ∈ gv.1
      · simp only [hxg, if_pos, true_iff]
        exact ⟨u0, hmutual x hxg u0 hu0, hu0g⟩
      · have hx2 : x ∈ st.visited := by
          rcases (hcup' x).1 hx with h2 | h2
          · exact h2
          · exact absurd h2 hxg
        simp only [hxg, if_neg, not_false_iff]
        exact h.ground x hx2
    · intro x y n
      rw [foldl_setA_lookup, foldl_setA_lookup]
      by_cases hxg : x ∈ gv.1 <;> by_cases hyg : y ∈ gv.1
      · intro _ _ _; exact hmutual x hxg y hyg
      · simp only [hxg, hyg, if_pos, if_neg, not_false_iff]
        intro h1 h2 h3
        exact absurd (Option.some.inj h1).symm h3
      · simp only [hxg, hyg, if_pos, if_neg, not_false_iff]
        intro h1 h2 h3
        exact absurd (Option.some.inj h2).symm h3
      · simp only [hxg, hyg, if_neg, not_false_iff]
        exact h.inj x y n
    · exact h.ncpos
  · have hstep : buildStep components a st k =
        ⟨gv.2, gv.1.foldl (fun m p => setA m p st.nc) st.pm, st.nc + 1⟩ := by
      simp [buildStep, hk, ← hgv, hisg]
    rw [hstep]
    have hnog : ∀ u ∈ gv.1, isGroundKey components u = false := by
      intro u hu
      by_contra hc
      exact hisg (List.any_eq_true.2 ⟨u, hu, by simpa using hc⟩)
    constructor
    · intro x hx y hy
      rcases (hcup' x).1 hx with h2 | h2
      · exact (hcup' y).2 (Or.inl (h.closed x h2 y hy))
      · exact hclosedg x h2 y hy
    · intro x
      rw [foldl_setA_lookup]
      by_cases hx : x ∈ gv.1
      · simp [hx, (hcup' x).2 (Or.inr hx)]
      · simp only [hx, if_neg, not_false_iff, h.dom, hcup' x]
        tauto
    · intro x hx y hy
      rw [foldl_setA_lookup, foldl_setA_lookup]
      rcases (hcup' x).1 hx with h2 | h2
      · have hy2 : y ∈ st.visited := h.closed x h2 y hy
        have hxg : x ∉ gv.1 := fun hc => hfresh x hc h2
        have hyg : y ∉ gv.1 := fun hc => hfresh y hc hy2
        simp only [hxg, hyg, if_neg, not_false_iff]
        exact h.eqid x h2 y hy
      · rcases (hcup' y).1 (hclosedg x h2 y hy) with h3 | h3
        · exact absurd (h.closed y h3 x (hsym x y hy)) (hfresh x h2)
        · simp [h2, h3]
    · intro x n
      rw [foldl_setA_lookup]
      by_cases hx : x ∈ gv.1
      · simp only [hx, if_pos]
        intro hxn
        have : n = st.nc := (Option.some.inj hxn).symm
        subst this
        have hpos := h.ncpos
        exact Or.inr ⟨by omega, by omega⟩
      · simp only [hx, if_neg, not_false_iff]
        intro hxn
        rcases h.bound x n hxn with h2 | h2
        · exact Or.inl h2
        · exact Or.inr ⟨h2.1, by omega⟩
    · intro x hx
      rw [foldl_setA_lookup]
      by_cases hxg : x ∈ gv.1
      · simp only [hxg, if_pos]
        constructor
        · intro hc
          exact absurd (Option.some.inj hc) hncz
        · rintro ⟨y, hstar, hgr⟩
          exact absurd hgr (by simp [hnog y (hchaing x hxg y hstar)])
      · have hx2 : x ∈ st.visited := by
          rcases (hcup' x).1 hx with h2 | h2
          · exact h2
          · exact absurd h2 hxg
        simp only [hxg, if_neg, not_false_iff]
        exact h.ground x hx2
    · intro x y n
      rw [foldl_setA_lookup, foldl_setA_lookup]
      by_cases hxg : x ∈ gv.1 <;> by_cases hyg : y ∈ gv.1
      · intro _ _ _; exact hmutual x hxg y hyg
      · simp only [hxg, hyg, if_pos, if_neg, not_false_iff]
        intro h1 h2 h3
        have hn : n = st.nc := (Option.some.inj h1).symm
        rcases h.bound y n h2 with h4 | h4
        · exact absurd h4 h3
        · omega
      · simp only [hxg, hyg, if_pos, if_neg, not_false_iff]
        intro h1 h2 h3
        have hn : n = st.nc := (Option.some.inj h2).symm
        rcases h.bound x n h1 with h4 | h4
        · exact absurd h4 h3
        · omega
      · simp only [hxg, hyg, if_neg, not_false_iff]
        exact h.inj x y n
    · show 1 ≤ st.nc + 1
      omega

theorem BInv_init (components : List CircuitComponent) (a : Adj) :
    BInv components a ⟨[], [], 1⟩ := by
  constructor
  · intro x hx; simp at hx
  · intro x; simp [lookupA]
  · intro x hx; simp at hx
  · intro x n h; simp [lookupA] at h
  · intro x hx; simp at hx
  · intro x y n h; simp [lookupA] at h
  · exact le_refl 1

/-- The final state of the outer grouping loop. -/
def buildState (components : List CircuitComponent) (wires : List Wire) : BuildState :=
  let a := buildAdj components wires
  (a.map (·.1)).foldl (buildStep components a) ⟨[], [], 1⟩

theorem buildGraph_eq (components : List CircuitComponent) (wires : List Wire) :
    buildGraph components wires =
      ⟨(buildState components wires).pm, (buildState components wires).nc - 1⟩ := rfl

theorem buildState_inv (components : List CircuitComponent) (wires : List Wire) :
    BInv components (buildAdj components wires) (buildState components wires) := by
  have hsym := adjSym_buildAdj components wires
  have key : ∀ (keys : List PortKey) (st : BuildState),
      BInv components (buildAdj components wires) st →
      BInv components (buildAdj components wires)
        (keys.foldl (buildStep components (buildAdj components wires)) st) := by
    intro keys
    induction keys with
    | nil => intro st h; simpa using h
    | cons k t ih =>
        intro st h
        exact ih _ (buildStep_inv components _ hsym st k h)
  exact key _ _ (BInv_init components _)

theorem buildStep_visited_mono (components : List CircuitComponent) (a : Adj)
    (st : BuildState) (k : PortKey) :
    ∀ x ∈ st.visited, x ∈ (buildStep components a st k).visited := by
  intro x hx
  by_cases hk : k ∈ st.visited
  · simpa [buildStep, hk] using hx
  obtain ⟨hv, _, _, _, _⟩ := bfsAux_spec a (bfsFuel a) (st.visited ++ [k]) [k]
    (by simpa using bfsFuel_ok a (st.visited ++ [k]))
  have hx2 : x ∈ (bfsAux a (bfsFuel a) (st.visited ++ [k]) [k]).2 :=
    hv x (List.mem_append.2 (Or.inl hx))
  by_cases hisg : (bfsAux a (bfsFuel a) (st.visited ++ [k]) [k]).1.any
      (isGroundKey components) = true
  · simpa [buildStep, hk, hisg] using hx2
  · simpa [buildStep, hk, hisg] using hx2

theorem buildStep_self_visited (components : List CircuitComponent) (a : Adj)
    (st : BuildState) (k : PortKey) : k ∈ st.visited → k ∈ (buildStep components a st k).visited
    := by
  intro hx
  exact buildStep_visited_mono components a st k k hx

theorem buildStep_adds_key (components : List CircuitComponent) (a : Adj)
    (st : BuildState) (k : PortKey) : k ∈ (buildStep components a st k).visited := by
  by_cases hk : k ∈ st.visited
  · simp [buildStep, hk]
  obtain ⟨hv, hq, hcup, _, _⟩ := bfsAux_spec a (bfsFuel a) (st.visited ++ [k]) [k]
    (by simpa using bfsFuel_ok a (st.visited ++ [k]))
  have hk2 : k ∈ (bfsAux a (bfsFuel a) (st.visited ++ [k]) [k]).2 :=
    hv k (List.mem_append.2 (Or.inr (by simp)))
  by_cases hisg : (bfsAux a (bfsFuel a) (st.visited ++ [k]) [k]).1.any
      (isGroundKey components) = true
  · simpa [buildStep, hk, hisg] using hk2
  · simpa [buildStep, hk, hisg] using hk2

theorem buildState_covers (components : List CircuitComponent) (wires : List Wire) :
    ∀ k, (lookupA (buildAdj components wires) k).isSome →
      k ∈ (buildState components wires).visited := by
  have key : ∀ (keys : List PortKey) (st : BuildState) (k : PortKey), k ∈ keys →
      k ∈ (keys.foldl (buildStep components (buildAdj components wires)) st).visited := by
    intro keys
    induction keys with
    | nil => intro st k hk; simp at hk
    | cons k0 t ih =>
        intro st k hk
        rcases List.mem_cons.1 hk with h | h
        · subst h
          rw [List.foldl_cons]
          have base := buildStep_adds_key components (buildAdj components wires) st k
          have mono : ∀ (ks : List PortKey) (st2 : BuildState), k ∈ st2.visited →
              k ∈ (ks.foldl (buildStep components (buildAdj components wires)) st2).visited := by
            intro ks
            induction ks with
            | nil => intro st2 h2; exact h2
            | cons k1 t1 ih1 =>
                intro st2 h2
                exact ih1 _ (buildStep_visited_mono components _ st2 k1 k h2)
          exact mono t _ base
        · exact ih _ k h
  intro k hk
  rw [lookupA_isSome_iff_mem_keys] at hk
  exact key _ _ k hk

/-- Wire-chain connectivity coincides with reachability in the built adjacency. -/
theorem chainConnected_iff_AdjStar (components : List CircuitComponent) (wires : List Wire)
    (p q : PortKey) :
    chainConnected wires p q ↔ AdjStar (buildAdj components wires) p q := by
  constructor
  · intro h
    refine Relation.ReflTransGen.mono ?_ h
    intro x y hxy
    exact (mem_nbrs_buildAdj components wires x y).2 hxy
  · intro h
    refine Relation.ReflTransGen.mono ?_ h
    intro x y hxy
    exact (mem_nbrs_buildAdj components wires x y).1 hxy

/-- Under unique component ids, the source's find-first ground test coincides
with the existence of a GROUND component owning the key's id. -/
theorem isGroundKey_iff (components : List CircuitComponent)
    (hN : (components.map (·.id)).Nodup) (q : PortKey) :
    isGroundKey components q = true ↔
      ∃ c ∈ components, c.type = GROUND ∧ c.id = q.1 := by
  unfold isGroundKey findComp
  constructor
  · intro h
    cases hf : components.find? (fun c => c.id = q.1) with
    | none => rw [hf] at h; simp at h
    | some c =>
        rw [hf] at h
        simp only [decide_eq_true_eq] at h
        refine ⟨c, List.mem_of_find?_eq_some hf, h, ?_⟩
        have := List.find?_some hf
        simpa using this
  · rintro ⟨c, hc, hgr, hid⟩
    have hex : (components.find? (fun c => c.id = q.1)).isSome := by
      rw [List.find?_isSome]
      exact ⟨c, hc, by simp [hid]⟩
    cases hf : components.find? (fun c => c.id = q.1) with
    | none => rw [hf] at hex; simp at hex
    | some c2 =>
        have hc2 : c2 ∈ components := List.mem_of_find?_eq_some hf
        have hid2 : c2.id = q.1 := by simpa using List.find?_some hf
        have : c2 = c := List.inj_on_of_nodup_map hN hc2 hc (by rw [hid2, hid])
        subst this
        simp [hgr]

/-- Without any ground test at all: a key whose group got node 0 yields a
GROUND component in the list. -/
theorem isGroundKey_exists_ground (components : List CircuitComponent) (q : PortKey)
    (h : isGroundKey components q = true) : ∃ c ∈ components, c.type = GROUND := by
  unfold isGroundKey findComp at h
  cases hf : components.find? (fun c => c.id = q.1) with
  | none => rw [hf] at h; simp at h
  | some c =>
      rw [hf] at h
      simp only [decide_eq_true_eq] at h
      exact ⟨c, List.mem_of_find?_eq_some hf, h⟩

theorem buildGraph_total (components : List CircuitComponent) (wires : List Wire) :
    ∀ c ∈ components, ∀ p ∈ validPorts c, ∃ n,
      lookupA (buildGraph components wires).portToNode p = some n ∧
      n ≤ (buildGraph components wires).numNodes := by
  intro c hc p hp
  have hdom2x : (lookupA (buildAdj components wires) p).isSome := by
    rw [isSome_buildAdj]
    exact Or.inl ⟨c, hc, hp⟩
  have hvis := buildState_covers components wires p hdom2x
  have hinv := buildState_inv components wires
  have hsome := (hinv.dom p).2 hvis
  cases hl : lookupA (buildState components wires).pm p with
  | none => rw [hl] at hsome; simp at hsome
  | some n =>
      refine ⟨n, ?_, ?_⟩
      · rw [buildGraph_eq]; exact hl
      · rcases hinv.bound p n hl with h | h
        · rw [buildGraph_eq]; omega
        · rw [buildGraph_eq]
          simp only
          omega

theorem buildGraph_chain_eq (components : List CircuitComponent) (wires : List Wire) :
    ∀ p q, chainConnected wires p q →
      lookupA (buildGraph components wires).portToNode p =
      lookupA (buildGraph components wires).portToNode q := by
  intro p q h
  rw [buildGraph_eq]
  have hinv := buildState_inv components wires
  induction h with
  | refl => rfl
  | tail hrest hstep ih =>
      rename_i b c2
      rw [ih]
      obtain ⟨w, hw, hc⟩ := hstep
      have hdomb : (lookupA (buildAdj components wires) b).isSome := by
        rw [isSome_buildAdj]
        exact Or.inr ⟨w, hw, by tauto⟩
      have hvisb := buildState_covers components wires b hdomb
      refine hinv.eqid b hvisb c2 ?_
      rw [mem_nbrs_buildAdj]
      exact ⟨w, hw, hc⟩

theorem buildGraph_ground_iff (components : List CircuitComponent) (wires : List Wire)
    (hN : (components.map (·.id)).Nodup) :
    ∀ p n, lookupA (buildGraph components wires).portToNode p = some n →
      (n = 0 ↔ ∃ q, chainConnected wires p q ∧
        ∃ c ∈ components, c.type = GROUND ∧ c.id = q.1) := by
  intro p n hl
  rw [buildGraph_eq] at hl
  have hinv := buildState_inv components wires
  have hvis : p ∈ (buildState components wires).visited :=
    (hinv.dom p).1 (by rw [hl]; simp)
  have hgr := hinv.ground p hvis
  constructor
  · intro hn
    subst hn
    obtain ⟨y, hstar, hkey⟩ := hgr.1 hl
    exact ⟨y, (chainConnected_iff_AdjStar components wires p y).2 hstar,
      (isGroundKey_iff components hN y).1 hkey⟩
  · rintro ⟨q, hchain, hc⟩
    have := hgr.2 ⟨q, (chainConnected_iff_AdjStar components wires p q).1 hchain,
      (isGroundKey_iff components hN q).2 hc⟩
    exact Option.some.inj (hl.symm.trans this)

theorem buildGraph_no_ground (components : List CircuitComponent) (wires : List Wire)
    (hng : ∀ c ∈ components, c.type ≠ GROUND) :
    ∀ p, lookupA (buildGraph components wires).portToNode p ≠ some 0 := by
  intro p hl
  rw [buildGraph_eq] at hl
  have hinv := buildState_inv components wires
  have hvis : p ∈ (buildState components wires).visited :=
    (hinv.dom p).1 (by rw [hl]; simp)
  obtain ⟨y, _, hkey⟩ := (hinv.ground p hvis).1 hl
  obtain ⟨c, hc, hgr⟩ := isGroundKey_exists_ground components y hkey
  exact hng c hc hgr

theorem buildGraph_inj (components : List CircuitComponent) (wires : List Wire) :
    ∀ p q n, lookupA (buildGraph components wires).portToNode p = some n →
      lookupA (buildGraph components wires).portToNode q = some n → n ≠ 0 →
      chainConnected wires p q := by
  intro p q n hp hq hn
  rw [buildGraph_eq] at hp hq
  have hinv := buildState_inv components wires
  exact (chainConnected_iff_AdjStar components wires p q).2 (hinv.inj p q n hp hq hn)

theorem buildGraph_bound (components : List CircuitComponent) (wires : List Wire) :
    ∀ p n, lookupA (buildGraph components wires).portToNode p = some n →
      n ≤ (buildGraph components wires).numNodes := by
  intro p n hl
  rw [buildGraph_eq] at hl ⊢
  have hinv := buildState_inv components wires
  rcases hinv.bound p n hl with h | h
  · omega
  · simp only
    omega

/-! ### MNA assembly and the three engines -/

noncomputable section

/-- `components.filter(VOLTAGE_SOURCE || AC_SOURCE)` (used by all three engines). -/
def voltageSourcesOf (components : List CircuitComponent) : List CircuitComponent :=
  components.filter (fun c => decide (c.type = VOLTAGE_SOURCE ∨ c.type = AC_SOURCE))

def ammetersOf (components : List CircuitComponent) : List CircuitComponent :=
  components.filter (fun c => decide (c.type = AMMETER))

def opampsOf (components : List CircuitComponent) : List CircuitComponent :=
  components.filter (fun c => decide (c.type = OPAMP))

def logicGatesOf (components : List CircuitComponent) : List CircuitComponent :=
  components.filter (fun c => decide (c.type = AND_GATE ∨ c.type = OR_GATE ∨
    c.type = NOT_GATE ∨ c.type = NAND_GATE ∨ c.type = NOR_GATE ∨ c.type = XOR_GATE))

/-- Number of extra MNA unknowns (source line 215). -/
def dcNumExtra (components : List CircuitComponent) : ℕ :=
  (voltageSourcesOf components).length + (logicGatesOf components).length +
    (ammetersOf components).length + (opampsOf components).length

/-- `forEach` with index. -/
def foldIdx {α σ : Type} (f : σ → ℕ → α → σ) : σ → ℕ → List α → σ
  | s, _, [] => s
  | s, i, x :: t => foldIdx f (f s i x) (i + 1) t

/-- Types skipped by the DC passive stamping loop (source line 266). -/
def dcSkip (t : ComponentType) : Prop :=
  t = VOLTAGE_SOURCE ∨ t = AC_SOURCE ∨ t = GROUND ∨ t = AND_GATE ∨ t = OR_GATE ∨
  t = NOT_GATE ∨ t = NAND_GATE ∨ t = NOR_GATE ∨ t = XOR_GATE ∨ t = AMMETER ∨ t = OPAMP

instance (t : ComponentType) : Decidable (dcSkip t) := by unfold dcSkip; infer_instance

/-- DC stamp of one passive / nonlinear two-port (source lines 265-306). -/
def dcPassiveStamp (pm : List (PortKey × ℕ)) (volt : ℕ → ℝ) (s : Mat × Vec)
    (c : CircuitComponent) : Mat × Vec :=
  if dcSkip c.type then s
  else match lookupA pm (c.id, 0), lookupA pm (c.id, 1) with
  | some n1, some n2 =>
      let ge : ℝ × ℝ :=
        if c.type = RESISTOR then (1 / max c.value 1e-6, 0)
        else if c.type = CAPACITOR then (1e-12, 0)
        else if c.type = INDUCTOR then (1e6, 0)
        else if c.type = VOLTMETER then (1e-9, 0)
        else if c.type = DIODE ∨ c.type = LED then
          (let vFwd := if c.value > 0 then c.value else 0.7
           let vD := volt n1 - volt n2
           if vD > vFwd then (0.1, 0.1 * vFwd) else (1e-9, 0))
        else (0, 0)
      let M1 := if n1 ≠ 0 then madd s.1 (n1 - 1) (n1 - 1) ge.1 else s.1
      let V1 := if n1 ≠ 0 then vadd s.2 (n1 - 1) ge.2 else s.2
      let M2 := if n2 ≠ 0 then madd M1 (n2 - 1) (n2 - 1) ge.1 else M1
      let V2 := if n2 ≠ 0 then vadd V1 (n2 - 1) (-ge.2) else V1
      let M3 := if n1 ≠ 0 ∧ n2 ≠ 0 then
          madd (madd M2 (n1 - 1) (n2 - 1) (-ge.1)) (n2 - 1) (n1 - 1) (-ge.1) else M2
      (M3, V2)
  | _, _ => s

/-- Op-amp input-impedance stamp (source lines 308-322; identical code appears
in the transient passive loop, lines 634-648). -/
def opampGinStamp (pm : List (PortKey × ℕ)) (s : Mat × Vec) (c : CircuitComponent) :
    Mat × Vec :=
  match lookupA pm (c.id, 0), lookupA pm (c.id, 1) with
  | some n1, some n2 =>
      let gin := 1 / jsOr c.inputImpedance 1e7
      let M1 := if n1 ≠ 0 then madd s.1 (n1 - 1) (n1 - 1) gin else s.1
      let M2 := if n2 ≠ 0 then madd M1 (n2 - 1) (n2 - 1) gin else M1
      let M3 := if n1 ≠ 0 ∧ n2 ≠ 0 then
          madd (madd M2 (n1 - 1) (n2 - 1) (-gin)) (n2 - 1) (n1 - 1) (-gin) else M2
      (M3, s.2)
  | _, _ => s

/-- DC value of an independent source (source lines 336-342): AC sources
contribute their dc bias only. -/
def dcSourceVal (v : CircuitComponent) : ℝ :=
  if v.type = AC_SOURCE then jsOr v.dcBias 0 else v.value

/-- Shared ±1 pattern of a voltage-source-style extra row (source lines
324-343 / 345-358), with the given RHS value. -/
def vsPattern (pm : List (PortKey × ℕ)) (idxVs : ℕ) (rhsVal : ℝ) (s : Mat × Vec)
    (cid : String) : Mat × Vec :=
  let s1 := match lookupA pm (cid, 0) with
    | some nPos =>
        if nPos ≠ 0 then (mset (mset s.1 (nPos - 1) idxVs 1) idxVs (nPos - 1) 1, s.2) else s
    | none => s
  let s2 := match lookupA pm (cid, 1) with
    | some nNeg =>
        if nNeg ≠ 0 then
          (mset (mset s1.1 (nNeg - 1) idxVs (-1)) idxVs (nNeg - 1) (-1), s1.2) else s1
    | none => s1
  (s2.1, vset s2.2 idxVs rhsVal)

def vsStamp (pm : List (PortKey × ℕ)) (numNodes : ℕ) (s : Mat × Vec) (i : ℕ)
    (v : CircuitComponent) : Mat × Vec :=
  vsPattern pm (numNodes + i) (dcSourceVal v) s v.id

def amStamp (pm : List (PortKey × ℕ)) (numNodes nVS : ℕ) (s : Mat × Vec) (i : ℕ)
    (a : CircuitComponent) : Mat × Vec :=
  vsPattern pm (numNodes + nVS + i) 0 s a.id

/-- The op-amp's target output, rails, and clamping (source lines 360-379). -/
def opampTarget (pm : List (PortKey × ℕ)) (volt : ℕ → ℝ) (op : CircuitComponent) : ℝ :=
  let Gain := if op.value > 0 then op.value else 100000
  let vPosVal := match lookupA pm (op.id, 0) with
    | some n => if n ≠ 0 then volt n else 0
    | none => 0
  let vNegVal := match lookupA pm (op.id, 1) with
    | some n => if n ≠ 0 then volt n else 0
    | none => 0
  Gain * (vPosVal - vNegVal)

/-- DC op-amp extra-row stamp with rail clamping (source lines 360-393). -/
def dcOpampStamp (pm : List (PortKey × ℕ)) (numNodes nVS nAM : ℕ) (volt : ℕ → ℝ)
    (s : Mat × Vec) (i : ℕ) (op : CircuitComponent) : Mat × Vec :=
  let idxOp := numNodes + nVS + nAM + i
  let Gain := if op.value > 0 then op.value else 100000
  let targetV := opampTarget pm volt op
  let clampedV := if targetV > 15 then (15 : ℝ) else if targetV < -15 then -15 else targetV
  let M1 := match lookupA pm (op.id, 2) with
    | some n => if n ≠ 0 then mset s.1 (n - 1) idxOp 1 else s.1
    | none => s.1
  if targetV > 15 ∨ targetV < -15 then
    let M2 := match lookupA pm (op.id, 2) with
      | some n => if n ≠ 0 then mset M1 idxOp (n - 1) 1 else M1
      | none => M1
    (M2, vset s.2 idxOp clampedV)
  else
    let M2 := match lookupA pm (op.id, 2) with
      | some n => if n ≠ 0 then mset M1 idxOp (n - 1) 1 else M1
      | none => M1
    let M3 := match lookupA pm (op.id, 0) with
      | some n => if n ≠ 0 then mset M2 idxOp (n - 1) (-Gain) else M2
      | none => M2
    let M4 := match lookupA pm (op.id, 1) with
      | some n => if n ≠ 0 then mset M3 idxOp (n - 1) Gain else M3
      | none => M3
    (M4, vset s.2 idxOp 0)

/-- Logic target of one gate from the current iterate (source lines 229-260). -/
def gateTargetOf (pm : List (PortKey × ℕ)) (volt : ℕ → ℝ) (g : CircuitComponent) : ℝ :=
  let getV := fun (idx : ℕ) => match lookupA pm (g.id, idx) with
    | none => 0
    | some n => if n = 0 then 0 else volt n
  let logicHigh := if g.value > 0 then g.value else 5
  let threshold := logicHigh / 2
  if g.type = NOT_GATE then (if getV 0 > threshold then 0 else logicHigh)
  else
    let inputs := (List.range (inputCountOr2 g)).map getV
    let allHigh := inputs.all (fun v => decide (v > threshold))
    let anyHigh := inputs.any (fun v => decide (v > threshold))
    let highCount := (inputs.filter (fun v => decide (v > threshold))).length
    if g.type = AND_GATE then (if allHigh then logicHigh else 0)
    else if g.type = OR_GATE then (if anyHigh then logicHigh else 0)
    else if g.type = NAND_GATE then (if ¬allHigh then logicHigh else 0)
    else if g.type = NOR_GATE then (if ¬anyHigh then logicHigh else 0)
    else if g.type = XOR_GATE then (if highCount % 2 ≠ 0 then logicHigh else 0)
    else 0

/-- Recomputed gate-target map (source lines 228-260; `Map.set` keyed by id). -/
def computeGateTargets (pm : List (PortKey × ℕ)) (volt : ℕ → ℝ)
    (gates : List CircuitComponent) : List (String × ℝ) :=
  gates.foldl (fun m g => setA m g.id (gateTargetOf pm volt g)) []

/-- Logic-gate extra-row stamp (source lines 395-416). -/
def gateStamp (pm : List (PortKey × ℕ)) (numNodes nVS nAM nOP : ℕ)
    (targets : List (String × ℝ)) (s : Mat × Vec) (i : ℕ) (g : CircuitComponent) :
    Mat × Vec :=
  let isNot := g.type = NOT_GATE
  let portOutIdx := if isNot then 1 else inputCountOr2 g
  let idxGate := numNodes + nVS + nAM + nOP + i
  let s1 := match lookupA pm (g.id, portOutIdx) with
    | some n =>
        if n ≠ 0 then (mset (mset s.1 (n - 1) idxGate 1) idxGate (n - 1) 1, s.2) else s
    | none => s
  let s2 := (s1.1, vset s1.2 idxGate ((lookupA targets g.id).getD 0))
  let count := if isNot then 1 else inputCountOr2 g
  ((List.range count).foldl (fun M k =>
      match lookupA pm (g.id, k) with
      | some nIn => if nIn ≠ 0 then madd M (nIn - 1) (nIn - 1) 1e-12 else M
      | none => M) s2.1, s2.2)

/-- One full DC matrix assembly (source lines 262-416), in source order:
passive loop, op-amp input impedances, voltage sources, ammeters, op-amp
extra rows, logic gates. -/
def assembleDC (components : List CircuitComponent) (pm : List (PortKey × ℕ))
    (numNodes : ℕ) (volt : ℕ → ℝ) (targets : List (String × ℝ)) : Mat × Vec :=
  let vs := voltageSourcesOf components
  let am := ammetersOf components
  let op := opampsOf components
  let gates := logicGatesOf components
  let s0 : Mat × Vec := (fun _ _ => 0, fun _ => 0)
  let s1 := components.foldl (dcPassiveStamp pm volt) s0
  let s2 := op.foldl (opampGinStamp pm) s1
  let s3 := foldIdx (vsStamp pm numNodes) s2 0 vs
  let s4 := foldIdx (amStamp pm numNodes vs.length) s3 0 am
  let s5 := foldIdx (dcOpampStamp pm numNodes vs.length am.length volt) s4 0 op
  foldIdx (gateStamp pm numNodes vs.length am.length op.length targets) s5 0 gates

/-- State of the DC fixed-point loop. -/
structure DCState where
  volt : ℕ → ℝ
  finalX : ℕ → ℝ
  converged : Bool
  iteration : ℕ

/-- One pass of the fixed-point loop (source lines 228-433). -/
def dcStep (components : List CircuitComponent) (pm : List (PortKey × ℕ))
    (numNodes size : ℕ) (s : DCState) : DCState :=
  let targets := computeGateTargets pm s.volt (logicGatesOf components)
  let sys := assembleDC components pm numNodes s.volt targets
  let x := MatrixSolver.solve size sys.1 sys.2
  let maxDiff := (List.range numNodes).foldl (fun md k => max md |x k - s.volt (k + 1)|) 0
  ⟨fun m => if 1 ≤ m ∧ m ≤ numNodes then x (m - 1) else s.volt m, x,
    decide (maxDiff < 0.01), s.iteration + 1⟩

/-- `while (iteration < 20 && !converged)`: the fuel equals the remaining
iteration budget, so running out of fuel and failing the guard coincide. -/
def dcRunAux (components : List CircuitComponent) (pm : List (PortKey × ℕ))
    (numNodes size : ℕ) : ℕ → DCState → DCState
  | 0, s => s
  | fuel + 1, s =>
      if s.iteration < 20 ∧ s.converged = false then
        dcRunAux components pm numNodes size fuel (dcStep components pm numNodes size s)
      else s

def dcInit : DCState := ⟨fun _ => 0, fun _ => 0, false, 0⟩

/-- Final state of the DC fixed-point loop for a circuit. -/
def dcState (components : List CircuitComponent) (wires : List Wire) : DCState :=
  let g := buildGraph components wires
  dcRunAux components g.portToNode g.numNodes (g.numNodes + dcNumExtra components) 20 dcInit

/-- `Array.from(portToNode.values()).includes(0)` (source line 203). -/
def hasGroundNode (components : List CircuitComponent) (wires : List Wire) : Bool :=
  (buildGraph components wires).portToNode.any (fun e => e.2 = 0)

def gndMsg : String := "No Ground (GND) found."

/-- Node → touching component ids (source lines 468-473). -/
def nodeToComponents (pm : List (PortKey × ℕ)) : List (ℕ × List String) :=
  pm.foldl (fun m e =>
    let cur := (lookupA m e.2).getD []
    if e.1.1 ∈ cur then m else setA m e.2 (cur ++ [e.1.1])) []

/-- Per-component currents harvested after the DC loop (source lines 442-466). -/
def harvestCurrents (components : List CircuitComponent) (pm : List (PortKey × ℕ))
    (numNodes : ℕ) (x : ℕ → ℝ) : List (String × ℝ) :=
  let vs := voltageSourcesOf components
  let am := ammetersOf components
  let op := opampsOf components
  let gates := logicGatesOf components
  let m1 := foldIdx (fun m i (v : CircuitComponent) =>
    setA m v.id (x (numNodes + i))) ([] : List (String × ℝ)) 0 vs
  let m2 := foldIdx (fun m i (a : CircuitComponent) =>
    setA m a.id (x (numNodes + vs.length + i))) m1 0 am
  let m3 := foldIdx (fun m i (o : CircuitComponent) =>
    setA m o.id (x (numNodes + vs.length + am.length + i))) m2 0 op
  let m4 := foldIdx (fun m i (g : CircuitComponent) =>
    setA m g.id (x (numNodes + vs.length + am.length + op.length + i))) m3 0 gates
  components.foldl (fun m c =>
    if dcSkip c.type then m
    else match lookupA pm (c.id, 0), lookupA pm (c.id, 1) with
    | some n1, some n2 =>
        let v1 : ℝ := if n1 = 0 then 0 else x (n1 - 1)
        let v2 : ℝ := if n2 = 0 then 0 else x (n2 - 1)
        let vDiff := v1 - v2
        let iVal : ℝ :=
          if c.type = RESISTOR then vDiff / c.value
          else if c.type = VOLTMETER then vDiff / 1e9
          else if c.type = DIODE ∨ c.type = LED then
            (let vFwd : ℝ := if c.value > (0 : ℝ) then c.value else 0.7
             if vDiff > vFwd then (vDiff - vFwd) / 10 else vDiff * 1e-9)
          else 0
        setA m c.id iVal
    | _, _ => m) m4

def simNodesOf (pm : List (PortKey × ℕ)) (rv : List (ℕ × (ℝ × ℝ))) : List SimNode :=
  rv.map (fun e => ⟨e.1, e.2.1, e.2.2, (lookupA (nodeToComponents pm) e.1).getD []⟩)

/-- The DC / interactive engine `solveCircuit` (source lines 200-486). -/
def CircuitSolver.solveCircuit (components : List CircuitComponent) (wires : List Wire)
    (frequency : ℝ) : SimulationResult :=
  let g := buildGraph components wires
  if hasGroundNode components wires then
    let st := dcState components wires
    let rv : List (ℕ × (ℝ × ℝ)) :=
      (0, (0, 0)) :: (List.range g.numNodes).map (fun k => (k + 1, (st.volt (k + 1), 0)))
    ⟨simNodesOf g.portToNode rv, rv,
      harvestCurrents components g.portToNode g.numNodes st.finalX,
      none, frequency, SimulationMode.INTERACTIVE, none⟩
  else
    ⟨[], [], [], some gndMsg, frequency, SimulationMode.INTERACTIVE, none⟩

end

/-! ### AC sweep engine -/

noncomputable section

def cmsub (M : CMat) (i j : ℕ) (v : Cpx) : CMat := mset M i j (Cpx.sub (M i j) v)

/-- AC passive stamp (source lines 513-553): gates, meters and sources are
skipped, op-amps stamp their input impedance, R/C/L stamp their complex
admittance, and every other two-port stamps `Complex.zero`. -/
def acPassiveStamp (pm : List (PortKey × ℕ)) (omega : ℝ) (s : CMat × CVec)
    (c : CircuitComponent) : CMat × CVec :=
  if c.type = VOLTAGE_SOURCE ∨ c.type = AC_SOURCE ∨ c.type = GROUND ∨
      c.type = VOLTMETER ∨ c.type = AMMETER then s
  else if c.type = AND_GATE ∨ c.type = OR_GATE ∨ c.type = NOT_GATE ∨
      c.type = NAND_GATE ∨ c.type = NOR_GATE ∨ c.type = XOR_GATE then s
  else if c.type = OPAMP then
    match lookupA pm (c.id, 0), lookupA pm (c.id, 1) with
    | some n1, some n2 =>
        let Yin : Cpx := ⟨1 / jsOr c.inputImpedance 1e7, 0⟩
        let M1 := if n1 ≠ 0 then cmadd s.1 (n1 - 1) (n1 - 1) Yin else s.1
        let M2 := if n2 ≠ 0 then cmadd M1 (n2 - 1) (n2 - 1) Yin else M1
        let M3 := if n1 ≠ 0 ∧ n2 ≠ 0 then
            cmsub (cmsub M2 (n1 - 1) (n2 - 1) Yin) (n2 - 1) (n1 - 1) Yin else M2
        (M3, s.2)
    | _, _ => s
  else
    match lookupA pm (c.id, 0), lookupA pm (c.id, 1) with
    | some n1, some n2 =>
        let Y : Cpx :=
          if c.type = RESISTOR then ⟨1 / c.value, 0⟩
          else if c.type = CAPACITOR then ⟨0, omega * c.value⟩
          else if c.type = INDUCTOR then ⟨0, -1 / (omega * c.value)⟩
          else ⟨0, 0⟩
        let M1 := if n1 ≠ 0 then cmadd s.1 (n1 - 1) (n1 - 1) Y else s.1
        let M2 := if n2 ≠ 0 then cmadd M1 (n2 - 1) (n2 - 1) Y else M1
        let M3 := if n1 ≠ 0 ∧ n2 ≠ 0 then
            cmsub (cmsub M2 (n1 - 1) (n2 - 1) Y) (n2 - 1) (n1 - 1) Y else M2
        (M3, s.2)
    | _, _ => s

/-- AC value of an independent source (source lines 568-572): only AC sources
drive the sweep; DC sources contribute magnitude 0. -/
def acSourceVal (v : CircuitComponent) : ℝ :=
  if v.type = AC_SOURCE then v.value else 0

/-- AC voltage-source stamp (source lines 555-573). -/
def acVsStamp (pm : List (PortKey × ℕ)) (numNodes : ℕ) (s : CMat × CVec) (i : ℕ)
    (v : CircuitComponent) : CMat × CVec :=
  let idxVs := numNodes + i
  let s1 := match lookupA pm (v.id, 0) with
    | some nPos =>
        if nPos ≠ 0 then
          (mset (mset s.1 (nPos - 1) idxVs (1 : Cpx)) idxVs (nPos - 1) (1 : Cpx), s.2)
        else s
    | none => s
  let s2 := match lookupA pm (v.id, 1) with
    | some nNeg =>
        if nNeg ≠ 0 then
          (mset (mset s1.1 (nNeg - 1) idxVs (⟨-1, 0⟩ : Cpx)) idxVs (nNeg - 1)
            (⟨-1, 0⟩ : Cpx), s1.2)
        else s1
    | none => s1
  (s2.1, vset s2.2 idxVs (⟨acSourceVal v, 0⟩ : Cpx))

/-- AC op-amp extra row (source lines 575-589): always the linear relation. -/
def acOpampStamp (pm : List (PortKey × ℕ)) (numNodes nVS : ℕ) (s : CMat × CVec) (i : ℕ)
    (op : CircuitComponent) : CMat × CVec :=
  let idxOp := numNodes + nVS + i
  let Gain := if op.value > (0 : ℝ) then op.value else 100000
  let M1 := match lookupA pm (op.id, 2) with
    | some n => if n ≠ 0 then mset s.1 (n - 1) idxOp (1 : Cpx) else s.1
    | none => s.1
  let M2 := match lookupA pm (op.id, 2) with
    | some n => if n ≠ 0 then mset M1 idxOp (n - 1) (1 : Cpx) else M1
    | none => M1
  let M3 := match lookupA pm (op.id, 0) with
    | some n => if n ≠ 0 then mset M2 idxOp (n - 1) (⟨-Gain, 0⟩ : Cpx) else M2
    | none => M2
  let M4 := match lookupA pm (op.id, 1) with
    | some n => if n ≠ 0 then mset M3 idxOp (n - 1) (⟨Gain, 0⟩ : Cpx) else M3
    | none => M3
  (M4, vset s.2 idxOp (0 : Cpx))

/-- One complex system assembly at angular frequency `omega`. -/
def assembleAC (components : List CircuitComponent) (pm : List (PortKey × ℕ))
    (numNodes : ℕ) (omega : ℝ) : CMat × CVec :=
  let vs := voltageSourcesOf components
  let op := opampsOf components
  let s0 : CMat × CVec := (fun _ _ => (0 : Cpx), fun _ => (0 : Cpx))
  let s1 := components.foldl (acPassiveStamp pm omega) s0
  let s2 := foldIdx (acVsStamp pm numNodes) s1 0 vs
  foldIdx (acOpampStamp pm numNodes vs.length) s2 0 op

/-- `parseFloat(x.toPrecision(4))`: rounding to 4 significant decimal digits. -/
def roundSig4 (x : ℝ) : ℝ :=
  if x = 0 then 0
  else
    (round (x / (10 : ℝ) ^ ((Int.floor (Real.logb 10 |x|) : ℝ) - 3)) : ℝ) *
      (10 : ℝ) ^ ((Int.floor (Real.logb 10 |x|) : ℝ) - 3)

/-- `parseFloat(x.toFixed(4))`. -/
def roundFixed4 (x : ℝ) : ℝ := (round (x * 10000) : ℝ) / 10000

/-- The i-th sweep frequency `10^(logStart + i·stepSize)` (source lines 498-507). -/
def acFreqAt (cfg : SimulationConfig) (i : ℕ) : ℝ :=
  let logStart := Real.logb 10 (max 1 cfg.startFreq)
  let logStop := Real.logb 10 cfg.stopFreq
  let stepSize := (logStop - logStart) / ((cfg.points : ℝ) - 1)
  (10 : ℝ) ^ (logStart + (i : ℝ) * stepSize)

/-- One plot point of the AC sweep (source lines 506-598). -/
def acPointAt (components : List CircuitComponent) (g : Graph) (cfg : SimulationConfig)
    (i : ℕ) : DataPoint :=
  let freq := acFreqAt cfg i
  let omega := 2 * Real.pi * freq
  let sys := assembleAC components g.portToNode g.numNodes omega
  let size := g.numNodes + (voltageSourcesOf components).length +
    (opampsOf components).length
  let sol := ComplexMatrixSolver.solve size sys.1 sys.2
  ⟨roundSig4 freq, (List.range g.numNodes).map (fun k => (k + 1, roundSig4 (sol k).magnitude))⟩

/-- The AC sweep engine `solveACSweep` (source lines 489-602). -/
def CircuitSolver.solveACSweep (components : List CircuitComponent) (wires : List Wire)
    (cfg : SimulationConfig) : SimulationResult :=
  let g := buildGraph components wires
  if g.numNodes = 0 then
    ⟨[], [], [], none, 0, SimulationMode.AC_SWEEP, some []⟩
  else
    ⟨[], [], [], none, 0, SimulationMode.AC_SWEEP,
      some ((List.range cfg.points).map (acPointAt components g cfg))⟩

/-! ### Transient engine -/

/-- JavaScript truncating `%` on reals (sign of the dividend). -/
def jsTrunc (q : ℝ) : ℤ := if q < 0 then Int.ceil q else Int.floor q

def jsMod (x y : ℝ) : ℝ := x - y * (jsTrunc (x / y) : ℝ)

/-- JavaScript `o || d` for an optional string (`undefined` and the empty
string are falsy). -/
def jsOrS (o : Option String) (d : String) : String :=
  match o with
  | none => d
  | some s => if s = "" then d else s

/-- Time-dependent value stamped for an independent source at time `t`
(source lines 699-735).  An AC source with a recognized waveform follows the
waveform formula; a missing waveform falls back to SINE via `|| 'SINE'`; a
present but unrecognized waveform name matches no switch case, so `val`
keeps its initial value `v.value`.  DC sources stay at `v.value`. -/
def transSourceVal (v : CircuitComponent) (time : ℝ) : ℝ :=
  if v.type = AC_SOURCE then
    let freq := jsOr v.frequency 60
    let bias := jsOr v.dcBias 0
    let waveform := jsOrS v.waveform "SINE"
    let period := 1 / freq
    let tMod := jsMod time period
    if waveform = "SINE" then v.value * Real.sin (2 * Real.pi * freq * time) + bias
    else if waveform = "SQUARE" then
      (if tMod < period * jsOr v.dutyCycle 0.5 then v.value else -v.value) + bias
    else if waveform = "TRIANGLE" then
      (let triPhase := tMod / period
       if triPhase < 0.25 then 4 * v.value * triPhase + bias
       else if triPhase < 0.75 then v.value * (2 - 4 * triPhase) + bias
       else v.value * (4 * triPhase - 4) + bias)
    else if waveform = "SAWTOOTH" then 2 * v.value * (tMod / period) - v.value + bias
    else if waveform = "PULSE" then
      (if tMod < period * jsOr v.dutyCycle 0.5 then v.value else 0) + bias
    else v.value
  else v.value

/-- Transient passive stamp with Backward-Euler companion models
(source lines 630-684). -/
def transPassiveStamp (pm : List (PortKey × ℕ)) (dt : ℝ) (prevV : ℕ → ℝ)
    (indCur : List (String × ℝ)) (s : Mat × Vec) (c : CircuitComponent) : Mat × Vec :=
  if c.type = VOLTAGE_SOURCE ∨ c.type = AC_SOURCE ∨ c.type = GROUND ∨
      c.type = VOLTMETER ∨ c.type = AMMETER then s
  else if c.type = AND_GATE ∨ c.type = OR_GATE ∨ c.type = NOT_GATE ∨
      c.type = NAND_GATE ∨ c.type = NOR_GATE ∨ c.type = XOR_GATE then s
  else if c.type = OPAMP then opampGinStamp pm s c
  else
    match lookupA pm (c.id, 0), lookupA pm (c.id, 1) with
    | some n1, some n2 =>
        let g_equiv : ℝ :=
          if c.type = RESISTOR then 1 / c.value
          else if c.type = CAPACITOR then c.value / dt
          else if c.type = INDUCTOR then dt / c.value
          else 0
        let i_source : ℝ := (c.value / dt) * (prevV n1 - prevV n2)
        let iOld : ℝ := (lookupA indCur c.id).getD 0
        let M1 := if n1 ≠ 0 then madd s.1 (n1 - 1) (n1 - 1) g_equiv else s.1
        let V1 := if n1 ≠ 0 then
            (if c.type = CAPACITOR then vadd s.2 (n1 - 1) i_source
             else if c.type = INDUCTOR then vadd s.2 (n1 - 1) (-iOld) else s.2)
          else s.2
        let M2 := if n2 ≠ 0 then madd M1 (n2 - 1) (n2 - 1) g_equiv else M1
        let V2 := if n2 ≠ 0 then
            (if c.type = CAPACITOR then vadd V1 (n2 - 1) (-i_source)
             else if c.type = INDUCTOR then vadd V1 (n2 - 1) iOld else V1)
          else V1
        let M3 := if n1 ≠ 0 ∧ n2 ≠ 0 then
            madd (madd M2 (n1 - 1) (n2 - 1) (-g_equiv)) (n2 - 1) (n1 - 1) (-g_equiv) else M2
        (M3, V2)
    | _, _ => s

/-- Transient voltage-source stamp (source lines 686-736). -/
def transVsStamp (pm : List (PortKey × ℕ)) (numNodes : ℕ) (time : ℝ) (s : Mat × Vec)
    (i : ℕ) (v : CircuitComponent) : Mat × Vec :=
  vsPattern pm (numNodes + i) (transSourceVal v time) s v.id

/-- Transient op-amp extra row (source lines 738-752): always linear. -/
def transOpampStamp (pm : List (PortKey × ℕ)) (numNodes nVS : ℕ) (s : Mat × Vec) (i : ℕ)
    (op : CircuitComponent) : Mat × Vec :=
  let idxOp := numNodes + nVS + i
  let Gain := if op.value > (0 : ℝ) then op.value else 100000
  let M1 := match lookupA pm (op.id, 2) with
    | some n => if n ≠ 0 then mset s.1 (n - 1) idxOp 1 else s.1
    | none => s.1
  let M2 := match lookupA pm (op.id, 2) with
    | some n => if n ≠ 0 then mset M1 idxOp (n - 1) 1 else M1
    | none => M1
  let M3 := match lookupA pm (op.id, 0) with
    | some n => if n ≠ 0 then mset M2 idxOp (n - 1) (-Gain) else M2
    | none => M2
  let M4 := match lookupA pm (op.id, 1) with
    | some n => if n ≠ 0 then mset M3 idxOp (n - 1) Gain else M3
    | none => M3
  (M4, vset s.2 idxOp 0)

/-- One transient system assembly at time `time`. -/
def assembleTransient (components : List CircuitComponent) (pm : List (PortKey × ℕ))
    (numNodes : ℕ) (dt time : ℝ) (prevV : ℕ → ℝ) (indCur : List (String × ℝ)) :
    Mat × Vec :=
  let vs := voltageSourcesOf components
  let op := opampsOf components
  let s0 : Mat × Vec := (fun _ _ => 0, fun _ => 0)
  let s1 := components.foldl (transPassiveStamp pm dt prevV indCur) s0
  let s2 := foldIdx (transVsStamp pm numNodes time) s1 0 vs
  foldIdx (transOpampStamp pm numNodes vs.length) s2 0 op

structure TransState where
  prevV : ℕ → ℝ
  indCur : List (String × ℝ)
  plot : List DataPoint
  finalV : List ℝ

def inductorsOf (components : List CircuitComponent) : List CircuitComponent :=
  components.filter (fun c => decide (c.type = INDUCTOR))

/-- One time step of the transient loop (source lines 625-783). -/
def transStep (components : List CircuitComponent) (pm : List (PortKey × ℕ))
    (numNodes size : ℕ) (dt : ℝ) (st : TransState) (step : ℕ) : TransState :=
  let time := (step : ℝ) * dt
  let sys := assembleTransient components pm numNodes dt time st.prevV st.indCur
  let sol := MatrixSolver.solve size sys.1 sys.2
  let point : DataPoint :=
    ⟨roundSig4 time, (List.range numNodes).map (fun k => (k + 1, roundFixed4 (sol k)))⟩
  let prevV2 : ℕ → ℝ := fun m => if 1 ≤ m ∧ m ≤ numNodes then sol (m - 1) else 0
  let indCur2 := (inductorsOf components).foldl (fun ic c =>
      let n1 := (lookupA pm (c.id, 0)).getD 0
      let n2 := (lookupA pm (c.id, 1)).getD 0
      let iOld : ℝ := (lookupA ic c.id).getD 0
      setA ic c.id (iOld + dt / c.value * (prevV2 n1 - prevV2 n2))) st.indCur
  ⟨prevV2, indCur2, st.plot ++ [point], (List.range numNodes).map (fun k => sol k)⟩

/-- `Math.ceil(stopTime / timeStep)`. -/
def transSteps (cfg : SimulationConfig) : ℤ := Int.ceil (cfg.stopTime / cfg.timeStep)

/-- Number of executed time steps: `for (step = 0; step <= steps; step++)`. -/
def transCount (cfg : SimulationConfig) : ℕ := (transSteps cfg + 1).toNat

/-- The transient engine `solveTransient` (source lines 605-811). -/
def CircuitSolver.solveTransient (components : List CircuitComponent) (wires : List Wire)
    (cfg : SimulationConfig) : SimulationResult :=
  let g := buildGraph components wires
  if g.numNodes = 0 then
    ⟨[], [], [], none, 0, SimulationMode.TRANSIENT, some []⟩
  else
    let size := g.numNodes + (voltageSourcesOf components).length +
      (opampsOf components).length
    let init : TransState :=
      ⟨fun _ => 0, (inductorsOf components).foldl (fun m c => setA m c.id 0) [], [],
        (List.range g.numNodes).map (fun _ => 0)⟩
    let fin := (List.range (transCount cfg)).foldl
      (transStep components g.portToNode g.numNodes size cfg.timeStep) init
    let simNodes := (List.range fin.finalV.length).map (fun i =>
      (⟨i + 1, fin.finalV.getD i 0, 0, (lookupA (nodeToComponents g.portToNode) (i + 1)).getD
        []⟩ : SimNode))
    ⟨simNodes, [], [], none, 0, SimulationMode.TRANSIENT, some fin.plot⟩

end

/-! ### Structural facts about the entry points -/

theorem setA_keys_nodup {α β : Type} [DecidableEq α] (l : List (α × β)) (k : α) (v : β)
    (h : (l.map (·.1)).Nodup) : ((setA l k v).map (·.1)).Nodup := by
  induction l with
  | nil => simp [setA]
  | cons e t ih =>
      by_cases he : e.1 = k
      · subst he
        simpa [setA] using h
      · simp only [setA, if_neg he, List.map_cons, List.nodup_cons] at h ⊢
        refine ⟨?_, ih h.2⟩
        intro hc
        have : ∀ x ∈ setA t k v, x.1 = e.1 → x.1 ∈ t.map (·.1) ∨ x.1 = k := by
          intro x hx _
          have hmem : x.1 ∈ (setA t k v).map (·.1) := List.mem_map_of_mem _ hx
          have : (lookupA (setA t k v) x.1).isSome := by
            rw [lookupA_isSome_iff_mem_keys]; exact hmem
          rw [lookupA_isSome_setA] at this
          rcases this with h2 | h2
          · exact Or.inr h2
          · rw [lookupA_isSome_iff_mem_keys] at h2
            exact Or.inl h2
        obtain ⟨x, hx, hx1⟩ := List.mem_map.1 hc
        rcases this x hx hx1 with h2 | h2
        · exact h.1 (hx1 ▸ h2)
        · exact he (hx1 ▸ h2)

theorem foldl_setA_keys_nodup (g : List PortKey) :
    ∀ (pm : List (PortKey × ℕ)) (v : ℕ), (pm.map (·.1)).Nodup →
      ((g.foldl (fun m p => setA m p v) pm).map (·.1)).Nodup := by
  induction g with
  | nil => intro pm v h; simpa using h
  | cons p t ih => intro pm v h; exact ih _ v (setA_keys_nodup pm p v h)

theorem buildState_pm_nodup (components : List CircuitComponent) (wires : List Wire) :
    (((buildState components wires).pm).map (·.1)).Nodup := by
  have key : ∀ (keys : List PortKey) (st : BuildState), (st.pm.map (·.1)).Nodup →
      (((keys.foldl (buildStep components (buildAdj components wires)) st).pm).map
        (·.1)).Nodup := by
    intro keys
    induction keys with
    | nil => intro st h; simpa using h
    | cons k t ih =>
        intro st h
        refine ih _ ?_
        unfold buildStep
        by_cases hk : k ∈ st.visited
        · simpa [hk] using h
        · by_cases hisg : (bfsAux (buildAdj components wires)
              (bfsFuel (buildAdj components wires)) (st.visited ++ [k]) [k]).1.any
              (isGroundKey components) = true
          · simpa [hk, hisg] using foldl_setA_keys_nodup _ _ 0 h
          · simpa [hk, hisg] using foldl_setA_keys_nodup _ _ st.nc h
  exact key _ _ (by simp)

theorem lookupA_eq_of_mem_nodup {α β : Type} [DecidableEq α] {l : List (α × β)} {k : α}
    {v : β} (hN : (l.map (·.1)).Nodup) (h : (k, v) ∈ l) : lookupA l k = some v := by
  induction l with
  | nil => simp at h
  | cons e t ih =>
      rcases List.mem_cons.1 h with h1 | h1
      · rw [← h1]
        simp [lookupA]
      · simp only [List.map_cons, List.nodup_cons] at hN
        have hne : ¬ e.1 = k := by
          intro hc
          exact hN.1 (hc ▸ List.mem_map_of_mem _ h1)
        simp only [lookupA, if_neg hne]
        exact ih hN.2 h1

/-- The ground check of `solveCircuit` holds exactly when some port is
assigned node 0. -/
theorem hasGroundNode_iff (components : List CircuitComponent) (wires : List Wire) :
    hasGroundNode components wires = true ↔
      ∃ p, lookupA (buildGraph components wires).portToNode p = some 0 := by
  unfold hasGroundNode
  rw [List.any_eq_true]
  constructor
  · rintro ⟨e, he, h0⟩
    refine ⟨e.1, ?_⟩
    have h2 : (e.1, (0 : ℕ)) ∈ (buildGraph components wires).portToNode := by
      have : e = (e.1, e.2) := rfl
      simp only [decide_eq_true_eq] at h0
      rw [← h0]
      exact he
    exact lookupA_eq_of_mem_nodup (by rw [buildGraph_eq]; exact buildState_pm_nodup _ _) h2
  · rintro ⟨p, hp⟩
    exact ⟨(p, 0), lookupA_mem hp, by simp⟩

/-- The main-path plot of the AC sweep. -/
theorem solveACSweep_plotData (components : List CircuitComponent) (wires : List Wire)
    (cfg : SimulationConfig) (h : (buildGraph components wires).numNodes ≠ 0) :
    (CircuitSolver.solveACSweep components wires cfg).plotData =
      some ((List.range cfg.points).map
        (acPointAt components (buildGraph components wires) cfg)) := by
  unfold CircuitSolver.solveACSweep
  simp [h]

theorem solveACSweep_plotData_empty (components : List CircuitComponent) (wires : List Wire)
    (cfg : SimulationConfig) (h : (buildGraph components wires).numNodes = 0) :
    (CircuitSolver.solveACSweep components wires cfg).plotData = some [] := by
  unfold CircuitSolver.solveACSweep
  simp [h]

theorem transStep_plot_length (components : List CircuitComponent)
    (pm : List (PortKey × ℕ)) (numNodes size : ℕ) (dt : ℝ) :
    ∀ (l : List ℕ) (st : TransState),
      ((l.foldl (transStep components pm numNodes size dt) st).plot).length =
        st.plot.length + l.length := by
  intro l
  induction l with
  | nil => intro st; simp
  | cons x t ih =>
      intro st
      rw [List.foldl_cons, ih]
      have hstep : (transStep components pm numNodes size dt st x).plot.length =
          st.plot.length + 1 := by
        simp [transStep]
      rw [hstep]
      simp only [List.length_cons]
      omega

theorem solveTransient_plotData (components : List CircuitComponent) (wires : List Wire)
    (cfg : SimulationConfig) (h : (buildGraph components wires).numNodes ≠ 0) :
    ∃ pl, (CircuitSolver.solveTransient components wires cfg).plotData = some pl ∧
      pl.length = transCount cfg := by
  unfold CircuitSolver.solveTransient
  simp only [h, if_neg, ne_eq, not_false_iff]
  refine ⟨_, rfl, ?_⟩
  rw [transStep_plot_length]
  simp

theorem solveTransient_plotData_empty (components : List CircuitComponent)
    (wires : List Wire) (cfg : SimulationConfig)
    (h : (buildGraph components wires).numNodes = 0) :
    (CircuitSolver.solveTransient components wires cfg).plotData = some [] := by
  unfold CircuitSolver.solveTransient
  simp [h]

/-! ### Concrete example circuits used by witnesses and counterexamples -/

def compR : CircuitComponent := ⟨"r1", RESISTOR, 100, none, none, none, none, none, none⟩

def compG : CircuitComponent := ⟨"g1", GROUND, 0, none, none, none, none, none, none⟩

def compV : CircuitComponent := ⟨"v1", VOLTAGE_SOURCE, 10, none, none, none, none, none, none⟩

/-- Ground wired to the resistor's second port, source across the resistor. -/
def demoComps : List CircuitComponent := [compV, compR, compG]

def demoWires : List Wire :=
  [⟨("v1", 0), ("r1", 0)⟩, ⟨("r1", 1), ("g1", 0)⟩, ⟨("v1", 1), ("g1", 0)⟩]

def cfgA : SimulationConfig := ⟨0.001, 1, 1, 10, 2⟩

/-- C9: `solveCircuit` returns an error exactly when no port maps to node 0,
that error is exactly the no-ground message, and the "Singular matrix" value
is never produced: the embedded `MatrixSolver.solve` is a total function that
skips sub-1e-12 pivots instead of throwing, so the error branch guarding the
solve call is unreachable. -/
theorem C9_solveCircuit_error_iff (components : List CircuitComponent) (wires : List Wire)
    (f : ℝ) :
    ((CircuitSolver.solveCircuit components wires f).error =
      if hasGroundNode components wires then none else some gndMsg) ∧
    ((CircuitSolver.solveCircuit components wires f).error ≠ some ("Singular matrix")) ∧
    ((CircuitSolver.solveCircuit components wires f).error.isSome ↔
      ∀ p, lookupA (buildGraph components wires).portToNode p ≠ some 0) := by
  by_cases h : hasGroundNode components wires = true
  · have herr : (CircuitSolver.solveCircuit components wires f).error = none := by
      simp [CircuitSolver.solveCircuit, h]
    refine ⟨by simp [herr, h], by simp [herr], ?_⟩
    rw [herr]
    simp only [Option.isSome_none, Bool.false_eq_true, false_iff, not_forall]
    obtain ⟨p, hp⟩ := (hasGroundNode_iff components wires).1 h
    exact ⟨p, by simp [hp]⟩
  · have herr : (CircuitSolver.solveCircuit components wires f).error = some gndMsg := by
      simp [CircuitSolver.solveCircuit, h]
    refine ⟨by simp [herr, h], by rw [herr]; simp [gndMsg], ?_⟩
    rw [herr]
    simp only [Option.isSome_some, true_iff]
    intro p hp
    exact h ((hasGroundNode_iff components wires).2 ⟨p, hp⟩)

/-- C1 (amended): for a circuit with no GROUND component, `solveCircuit`
returns exactly the no-ground error result; but `solveACSweep` and
`solveTransient` return an empty plot exactly when the circuit has no
non-ground node (`numNodes = 0`), not in every no-ground case. -/
theorem C1_no_ground_behavior (components : List CircuitComponent) (wires : List Wire)
    (f : ℝ) (cfg : SimulationConfig) (hng : ∀ c ∈ components, c.type ≠ GROUND)
    (hp : 0 < cfg.points) (ht : (0 : ℝ) ≤ cfg.stopTime / cfg.timeStep) :
    (CircuitSolver.solveCircuit components wires f =
      ⟨[], [], [], some gndMsg, f, SimulationMode.INTERACTIVE, none⟩) ∧
    ((CircuitSolver.solveACSweep components wires cfg).plotData = some [] ↔
      (buildGraph components wires).numNodes = 0) ∧
    ((CircuitSolver.solveTransient components wires cfg).plotData = some [] ↔
      (buildGraph components wires).numNodes = 0) := by
  have h0 : ∀ p, lookupA (buildGraph components wires).portToNode p ≠ some 0 :=
    buildGraph_no_ground components wires hng
  have hg : ¬ (hasGroundNode components wires = true) := by
    intro hc
    obtain ⟨p, hp2⟩ := (hasGroundNode_iff components wires).1 hc
    exact h0 p hp2
  refine ⟨by simp [CircuitSolver.solveCircuit, hg], ?_, ?_⟩
  · by_cases hn : (buildGraph components wires).numNodes = 0
    · simp [solveACSweep_plotData_empty components wires cfg hn, hn]
    · simp only [hn, iff_false]
      rw [solveACSweep_plotData components wires cfg hn]
      intro hc
      have hlen := congrArg List.length (Option.some.inj hc)
      simp only [List.length_map, List.length_range, List.length_nil] at hlen
      omega
  · by_cases hn : (buildGraph components wires).numNodes = 0
    · simp [solveTransient_plotData_empty components wires cfg hn, hn]
    · simp only [hn, iff_false]
      obtain ⟨pl, hpl, hlen⟩ := solveTransient_plotData components wires cfg hn
      rw [hpl]
      intro hc
      have := Option.some.inj hc
      rw [this] at hlen
      simp only [List.length_nil] at hlen
      have hsteps : (0 : ℤ) ≤ transSteps cfg := Int.ceil_nonneg ht
      unfold transCount at hlen
      omega

/-- C1 witness: a concrete ground-free circuit at a concrete configuration. -/
theorem C1_no_ground_behavior_witness :
    (∀ c ∈ [compR], c.type ≠ GROUND) ∧ 0 < cfgA.points ∧
    ((0 : ℝ) ≤ cfgA.stopTime / cfgA.timeStep) ∧
    ((CircuitSolver.solveCircuit [compR] [] 0 =
      ⟨[], [], [], some gndMsg, 0, SimulationMode.INTERACTIVE, none⟩) ∧
    ((CircuitSolver.solveACSweep [compR] [] cfgA).plotData = some [] ↔
      (buildGraph [compR] []).numNodes = 0) ∧
    ((CircuitSolver.solveTransient [compR] [] cfgA).plotData = some [] ↔
      (buildGraph [compR] []).numNodes = 0)) :=
  ⟨by decide, by decide, by simp only [cfgA]; norm_num,
    C1_no_ground_behavior [compR] [] 0 cfgA (by decide) (by decide)
      (by simp only [cfgA]; norm_num)⟩

/-- C1 counterexample: a ground-free circuit (one resistor, no wires) for which
`solveACSweep` does NOT return an empty plot — it has two non-ground nodes and
produces `points` plot entries, refuting the claim that the no-ground case
yields empty plot data. -/
theorem C1_counterexample :
    (∀ c ∈ [compR], c.type ≠ GROUND) ∧
    (CircuitSolver.solveACSweep [compR] [] cfgA).plotData ≠ some [] := by
  refine ⟨by decide, ?_⟩
  have h2 : (buildGraph [compR] []).numNodes ≠ 0 := by decide
  rw [solveACSweep_plotData [compR] [] cfgA h2]
  intro hc
  have hlen := congrArg List.length (Option.some.inj hc)
  simp only [List.length_map, List.length_range, List.length_nil] at hlen
  have : cfgA.points = 2 := by decide
  omega

/-- Additive evaluation of `madd`: no index substitution needed. -/
theorem madd_eval' (M : Mat) (i j a b : ℕ) (v : ℝ) :
    madd M i j v a b = M a b + (if a = i ∧ b = j then v else 0) := by
  unfold madd mset
  split_ifs with h
  · obtain ⟨rfl, rfl⟩ := h
    ring
  · ring

theorem vadd_eval' (V : Vec) (i a : ℕ) (v : ℝ) :
    vadd V i v a = V a + (if a = i then v else 0) := by
  unfold vadd vset
  split_ifs with h
  · subst h
    ring
  · ring

theorem ite_neg_zero (C : Prop) [Decidable C] (v : ℝ) :
    (if C then -v else 0) = -(if C then v else 0) := by
  split_ifs <;> ring

/-- Entrywise value of the shared two-port admittance/RHS update pattern. -/
theorem twoPortStampEval (s : Mat × Vec) (n1 n2 : ℕ) (g ie : ℝ) :
    (∀ a b,
      (if n1 ≠ 0 ∧ n2 ≠ 0 then
        madd (madd (if n2 ≠ 0 then
            madd (if n1 ≠ 0 then madd s.1 (n1 - 1) (n1 - 1) g else s.1) (n2 - 1) (n2 - 1) g
          else (if n1 ≠ 0 then madd s.1 (n1 - 1) (n1 - 1) g else s.1))
          (n1 - 1) (n2 - 1) (-g)) (n2 - 1) (n1 - 1) (-g)
      else (if n2 ≠ 0 then
            madd (if n1 ≠ 0 then madd s.1 (n1 - 1) (n1 - 1) g else s.1) (n2 - 1) (n2 - 1) g
          else (if n1 ≠ 0 then madd s.1 (n1 - 1) (n1 - 1) g else s.1))) a b =
      s.1 a b
        + (if n1 ≠ 0 ∧ a = n1 - 1 ∧ b = n1 - 1 then g else 0)
        + (if n2 ≠ 0 ∧ a = n2 - 1 ∧ b = n2 - 1 then g else 0)
        - (if n1 ≠ 0 ∧ n2 ≠ 0 ∧ a = n1 - 1 ∧ b = n2 - 1 then g else 0)
        - (if n1 ≠ 0 ∧ n2 ≠ 0 ∧ a = n2 - 1 ∧ b = n1 - 1 then g else 0)) ∧
    (∀ r,
      (if n2 ≠ 0 then
        vadd (if n1 ≠ 0 then vadd s.2 (n1 - 1) ie else s.2) (n2 - 1) (-ie)
      else (if n1 ≠ 0 then vadd s.2 (n1 - 1) ie else s.2)) r =
      s.2 r + (if n1 ≠ 0 ∧ r = n1 - 1 then ie else 0)
            - (if n2 ≠ 0 ∧ r = n2 - 1 then ie else 0)) := by
  constructor
  · intro a b
    by_cases hn1 : n1 = 0 <;> by_cases hn2 : n2 = 0 <;>
      simp only [hn1, hn2, madd_eval', ite_neg_zero, ne_eq, not_true_eq_false,
        not_false_eq_true, false_and, and_false, true_and, and_true, if_false, if_true] <;>
      ring
  · intro r
    by_cases hn1 : n1 = 0 <;> by_cases hn2 : n2 = 0 <;>
      simp only [hn1, hn2, vadd_eval', ite_neg_zero, ne_eq, not_true_eq_false,
        not_false_eq_true, false_and, and_false, true_and, and_true, if_false, if_true] <;>
      ring

/-- C5: each DC iteration stamps a DIODE or LED whose ports are mapped as a
conductance of 0.1 between its nodes plus RHS ±0.1·vFwd when the iterate's
forward voltage exceeds vFwd (= value if positive, else 0.7), and as a
conductance of 1e-9 with no RHS contribution otherwise. -/
theorem C5_diode_stamp (pm : List (PortKey × ℕ)) (volt : ℕ → ℝ) (s : Mat × Vec)
    (c : CircuitComponent) (hty : c.type = DIODE ∨ c.type = LED)
    {n1 n2 : ℕ} (h1 : lookupA pm (c.id, 0) = some n1)
    (h2 : lookupA pm (c.id, 1) = some n2) :
    (∀ a b, (dcPassiveStamp pm volt s c).1 a b =
      s.1 a b
        + (if n1 ≠ 0 ∧ a = n1 - 1 ∧ b = n1 - 1 then
            (if volt n1 - volt n2 > (if c.value > 0 then c.value else 0.7)
             then 0.1 else 1e-9) else 0)
        + (if n2 ≠ 0 ∧ a = n2 - 1 ∧ b = n2 - 1 then
            (if volt n1 - volt n2 > (if c.value > 0 then c.value else 0.7)
             then 0.1 else 1e-9) else 0)
        - (if n1 ≠ 0 ∧ n2 ≠ 0 ∧ a = n1 - 1 ∧ b = n2 - 1 then
            (if volt n1 - volt n2 > (if c.value > 0 then c.value else 0.7)
             then 0.1 else 1e-9) else 0)
        - (if n1 ≠ 0 ∧ n2 ≠ 0 ∧ a = n2 - 1 ∧ b = n1 - 1 then
            (if volt n1 - volt n2 > (if c.value > 0 then c.value else 0.7)
             then 0.1 else 1e-9) else 0)) ∧
    (∀ r, (dcPassiveStamp pm volt s c).2 r =
      s.2 r
        + (if n1 ≠ 0 ∧ r = n1 - 1 then
            (if volt n1 - volt n2 > (if c.value > 0 then c.value else 0.7)
             then 0.1 * (if c.value > 0 then c.value else 0.7) else 0) else 0)
        - (if n2 ≠ 0 ∧ r = n2 - 1 then
            (if volt n1 - volt n2 > (if c.value > 0 then c.value else 0.7)
             then 0.1 * (if c.value > 0 then c.value else 0.7) else 0) else 0)) := by
  have hskip : ¬ dcSkip c.type := by
    rcases hty with h | h <;> rw [h] <;> unfold dcSkip <;> decide
  have hR : ¬ (c.type = RESISTOR) := by rcases hty with h | h <;> rw [h] <;> decide
  have hC : ¬ (c.type = CAPACITOR) := by rcases hty with h | h <;> rw [h] <;> decide
  have hI : ¬ (c.type = INDUCTOR) := by rcases hty with h | h <;> rw [h] <;> decide
  have hV : ¬ (c.type = VOLTMETER) := by rcases hty with h | h <;> rw [h] <;> decide
  have hds : ∀ g ie : ℝ,
      (if c.type = RESISTOR then (1 / max c.value 1e-6, (0:ℝ))
        else if c.type = CAPACITOR then (1e-12, 0)
        else if c.type = INDUCTOR then (1e6, 0)
        else if c.type = VOLTMETER then (1e-9, 0)
        else if c.type = DIODE ∨ c.type = LED then
          (let vFwd := if c.value > 0 then c.value else 0.7
           let vD := volt n1 - volt n2
           if vD > vFwd then (0.1, 0.1 * vFwd) else (1e-9, 0))
        else (0, 0)) = (g, ie) →
      dcPassiveStamp pm volt s c =
      ((if n1 ≠ 0 ∧ n2 ≠ 0 then
          madd (madd (if n2 ≠ 0 then
              madd (if n1 ≠ 0 then madd s.1 (n1 - 1) (n1 - 1) g else s.1)
                (n2 - 1) (n2 - 1) g
            else (if n1 ≠ 0 then madd s.1 (n1 - 1) (n1 - 1) g else s.1))
            (n1 - 1) (n2 - 1) (-g)) (n2 - 1) (n1 - 1) (-g)
        else (if n2 ≠ 0 then
              madd (if n1 ≠ 0 then madd s.1 (n1 - 1) (n1 - 1) g else s.1)
                (n2 - 1) (n2 - 1) g
            else (if n1 ≠ 0 then madd s.1 (n1 - 1) (n1 - 1) g else s.1))),
        (if n2 ≠ 0 then
          vadd (if n1 ≠ 0 then vadd s.2 (n1 - 1) ie else s.2) (n2 - 1) (-ie)
        else (if n1 ≠ 0 then vadd s.2 (n1 - 1) ie else s.2))) := by
    intro g ie hge
    unfold dcPassiveStamp
    rw [if_neg hskip, h1, h2]
    dsimp only
    rw [hge]
  by_cases hd : volt n1 - volt n2 > (if c.value > 0 then c.value else 0.7)
  · rw [hds 0.1 (0.1 * (if c.value > 0 then c.value else 0.7))
      (by simp only [hR, hC, hI, hV, hty, if_neg, if_pos, if_true, if_false,
        not_false_iff, or_true, true_or]; rw [if_pos hd])]
    simp only [hd, if_pos]
    exact twoPortStampEval s n1 n2 0.1 (0.1 * (if c.value > 0 then c.value else 0.7))
  · rw [hds 1e-9 0
      (by simp only [hR, hC, hI, hV, hty, if_neg, if_pos, if_true, if_false,
        not_false_iff, or_true, true_or]; rw [if_neg hd])]
    simp only [hd, if_neg, if_false]
    exact twoPortStampEval s n1 n2 1e-9 0

def compD : CircuitComponent := ⟨"d1", DIODE, 0, none, none, none, none, none, none⟩

def dpm : List (PortKey × ℕ) := [(("d1", 0), 1), (("d1", 1), 2)]

noncomputable def zeroSys : Mat × Vec := (fun _ _ => 0, fun _ => 0)

noncomputable def zeroVolt : Vec := fun _ => 0

/-- C5 witness: the diode stamp characterization applied at a concrete diode,
port map, iterate and system. -/
theorem C5_diode_stamp_witness :
    (compD.type = DIODE ∨ compD.type = LED) ∧
    lookupA dpm (compD.id, 0) = some 1 ∧ lookupA dpm (compD.id, 1) = some 2 ∧
    ((∀ a b, (dcPassiveStamp dpm zeroVolt zeroSys compD).1 a b =
      zeroSys.1 a b
        + (if (1 : ℕ) ≠ 0 ∧ a = 1 - 1 ∧ b = 1 - 1 then
            (if zeroVolt 1 - zeroVolt 2 > (if compD.value > 0 then compD.value else 0.7)
             then 0.1 else 1e-9) else 0)
        + (if (2 : ℕ) ≠ 0 ∧ a = 2 - 1 ∧ b = 2 - 1 then
            (if zeroVolt 1 - zeroVolt 2 > (if compD.value > 0 then compD.value else 0.7)
             then 0.1 else 1e-9) else 0)
        - (if (1 : ℕ) ≠ 0 ∧ (2 : ℕ) ≠ 0 ∧ a = 1 - 1 ∧ b = 2 - 1 then
            (if zeroVolt 1 - zeroVolt 2 > (if compD.value > 0 then compD.value else 0.7)
             then 0.1 else 1e-9) else 0)
        - (if (1 : ℕ) ≠ 0 ∧ (2 : ℕ) ≠ 0 ∧ a = 2 - 1 ∧ b = 1 - 1 then
            (if zeroVolt 1 - zeroVolt 2 > (if compD.value > 0 then compD.value else 0.7)
             then 0.1 else 1e-9) else 0)) ∧
    (∀ r, (dcPassiveStamp dpm zeroVolt zeroSys compD).2 r =
      zeroSys.2 r
        + (if (1 : ℕ) ≠ 0 ∧ r = 1 - 1 then
            (if zeroVolt 1 - zeroVolt 2 > (if compD.value > 0 then compD.value else 0.7)
             then 0.1 * (if compD.value > 0 then compD.value else 0.7) else 0) else 0)
        - (if (2 : ℕ) ≠ 0 ∧ r = 2 - 1 then
            (if zeroVolt 1 - zeroVolt 2 > (if compD.value > 0 then compD.value else 0.7)
             then 0.1 * (if compD.value > 0 then compD.value else 0.7) else 0) else 0))) :=
  ⟨Or.inl rfl, by decide, by decide,
    C5_diode_stamp dpm zeroVolt zeroSys compD (Or.inl rfl) (by decide) (by decide)⟩

/-- C7: buildGraph assigns a node to every valid port (bounded by numNodes);
wire-chain-connected ports share a node id; a port's node id is 0 exactly when
its connected group reaches a port of a GROUND component; and non-ground node
ids are shared only within one connected group (fresh positive integers per
group). -/
theorem C7_buildGraph_nodes (components : List CircuitComponent) (wires : List Wire)
    (hN : (components.map (·.id)).Nodup) :
    (∀ c ∈ components, ∀ p ∈ validPorts c, ∃ n,
        lookupA (buildGraph components wires).portToNode p = some n ∧
        n ≤ (buildGraph components wires).numNodes) ∧
    (∀ p q, chainConnected wires p q →
        lookupA (buildGraph components wires).portToNode p =
        lookupA (buildGraph components wires).portToNode q) ∧
    (∀ p n, lookupA (buildGraph components wires).portToNode p = some n →
        (n = 0 ↔ ∃ q, chainConnected wires p q ∧
          ∃ c ∈ components, c.type = GROUND ∧ c.id = q.1)) ∧
    (∀ p q n, lookupA (buildGraph components wires).portToNode p = some n →
        lookupA (buildGraph components wires).portToNode q = some n → n ≠ 0 →
        chainConnected wires p q) :=
  ⟨buildGraph_total components wires, buildGraph_chain_eq components wires,
    buildGraph_ground_iff components wires hN, buildGraph_inj components wires⟩

/-- C7 witness: the graph claims instantiated on a concrete circuit. -/
theorem C7_buildGraph_nodes_witness :
    ((demoComps.map (·.id)).Nodup) ∧
    ((∀ c ∈ demoComps, ∀ p ∈ validPorts c, ∃ n,
        lookupA (buildGraph demoComps demoWires).portToNode p = some n ∧
        n ≤ (buildGraph demoComps demoWires).numNodes) ∧
    (∀ p q, chainConnected demoWires p q →
        lookupA (buildGraph demoComps demoWires).portToNode p =
        lookupA (buildGraph demoComps demoWires).portToNode q) ∧
    (∀ p n, lookupA (buildGraph demoComps demoWires).portToNode p = some n →
        (n = 0 ↔ ∃ q, chainConnected demoWires p q ∧
          ∃ c ∈ demoComps, c.type = GROUND ∧ c.id = q.1)) ∧
    (∀ p q n, lookupA (buildGraph demoComps demoWires).portToNode p = some n →
        lookupA (buildGraph demoComps demoWires).portToNode q = some n → n ≠ 0 →
        chainConnected demoWires p q)) :=
  ⟨by decide, C7_buildGraph_nodes demoComps demoWires (by decide)⟩

/-! ### C2: the AC frequency ladder -/

def dfltPoint : DataPoint := ⟨0, []⟩

/-- The `x` value of the i-th plot point of a result. -/
noncomputable def xAt (r : SimulationResult) (i : ℕ) : ℝ :=
  ((r.plotData.getD []).getD i dfltPoint).x

theorem acPointAt_x (components : List CircuitComponent) (g : Graph)
    (cfg : SimulationConfig) (i : ℕ) :
    (acPointAt components g cfg i).x = roundSig4 (acFreqAt cfg i) := rfl

theorem xAt_solveACSweep (components : List CircuitComponent) (wires : List Wire)
    (cfg : SimulationConfig) (h : (buildGraph components wires).numNodes ≠ 0)
    (i : ℕ) (hi : i < cfg.points) :
    xAt (CircuitSolver.solveACSweep components wires cfg) i =
      roundSig4 (acFreqAt cfg i) := by
  unfold xAt
  rw [solveACSweep_plotData components wires cfg h]
  rw [Option.getD_some, List.getD_eq_getElem?_getD, List.getElem?_map,
    List.getElem?_range hi]
  simp [acPointAt_x]

/-- Exact powers of ten are fixed by 4-significant-digit rounding. -/
theorem roundSig4_rpow_int (k : ℤ) :
    roundSig4 ((10 : ℝ) ^ ((k : ℝ))) = (10 : ℝ) ^ ((k : ℝ)) := by
  have hb0 : (0 : ℝ) < 10 := by norm_num
  have hbne : (10 : ℝ) ≠ 1 := by norm_num
  have hx : (0 : ℝ) < (10 : ℝ) ^ ((k : ℝ)) := Real.rpow_pos_of_pos hb0 _
  unfold roundSig4
  rw [if_neg hx.ne', abs_of_pos hx, Real.logb_rpow hb0 hbne, Int.floor_intCast]
  have hdiv : (10 : ℝ) ^ ((k : ℝ)) / (10 : ℝ) ^ ((k : ℝ) - 3) = (10 : ℝ) ^ (3 : ℝ) := by
    rw [← Real.rpow_sub hb0]
    ring_nf
  rw [hdiv]
  have h1000 : (10 : ℝ) ^ (3 : ℝ) = 1000 := by
    rw [show (3 : ℝ) = ((3 : ℕ) : ℝ) by norm_num, Real.rpow_natCast]
    norm_num
  rw [h1000, show (1000 : ℝ) = ((1000 : ℤ) : ℝ) by norm_num, round_intCast]
  rw [show (((1000 : ℤ) : ℝ)) = (10 : ℝ) ^ (3 : ℝ) by rw [h1000]; norm_num]
  rw [← Real.rpow_add hb0]
  ring_nf

/-- The pre-rounding sweep frequencies increase strictly when the log range
does. -/
theorem acFreqAt_strictMono (cfg : SimulationConfig) (hpts : 2 ≤ cfg.points)
    (hlog : Real.logb 10 (max 1 cfg.startFreq) < Real.logb 10 cfg.stopFreq) :
    ∀ i j : ℕ, i < j → acFreqAt cfg i < acFreqAt cfg j := by
  intro i j hij
  unfold acFreqAt
  have h10 : (1 : ℝ) < 10 := by norm_num
  rw [Real.rpow_lt_rpow_left_iff h10]
  have hden : (0 : ℝ) < (cfg.points : ℝ) - 1 := by
    have : (2 : ℝ) ≤ (cfg.points : ℝ) := by exact_mod_cast hpts
    linarith
  have hstep : 0 < (Real.logb 10 cfg.stopFreq - Real.logb 10 (max 1 cfg.startFreq)) /
      ((cfg.points : ℝ) - 1) := div_pos (by linarith) hden
  have hcast : (i : ℝ) < (j : ℝ) := by exact_mod_cast hij
  nlinarith

/-- C2 (amended): with at least two points, a non-ground node, and an
increasing log-frequency range, the AC sweep emits exactly `points` plot
entries whose x values are the 4-significant-digit roundings of the exact
ladder `10^(logStart + i·step)`, and the pre-rounding frequencies are strictly
increasing.  (The claim's "within 1e-9 relative error" and the strict increase
of the rounded x values themselves fail; see the counterexample.) -/
theorem C2_ac_frequency_ladder (components : List CircuitComponent) (wires : List Wire)
    (cfg : SimulationConfig) (hpts : 2 ≤ cfg.points)
    (hnn : (buildGraph components wires).numNodes ≠ 0)
    (hlog : Real.logb 10 (max 1 cfg.startFreq) < Real.logb 10 cfg.stopFreq) :
    ∃ pl, (CircuitSolver.solveACSweep components wires cfg).plotData = some pl ∧
      pl.length = cfg.points ∧
      (∀ i, i < cfg.points →
        xAt (CircuitSolver.solveACSweep components wires cfg) i =
          roundSig4 (acFreqAt cfg i)) ∧
      (∀ i j : ℕ, i < j → acFreqAt cfg i < acFreqAt cfg j) := by
  refine ⟨_, solveACSweep_plotData components wires cfg hnn, by simp, ?_, ?_⟩
  · intro i hi
    exact xAt_solveACSweep components wires cfg hnn i hi
  · exact acFreqAt_strictMono cfg hpts hlog

/-- C2 witness: concrete sweep from 1 Hz to 10 Hz with 2 points on a concrete
circuit with non-ground nodes. -/
theorem C2_ac_frequency_ladder_witness :
    2 ≤ cfgA.points ∧ (buildGraph [compR] []).numNodes ≠ 0 ∧
    Real.logb 10 (max 1 cfgA.startFreq) < Real.logb 10 cfgA.stopFreq ∧
    (∃ pl, (CircuitSolver.solveACSweep [compR] [] cfgA).plotData = some pl ∧
      pl.length = cfgA.points ∧
      (∀ i, i < cfgA.points →
        xAt (CircuitSolver.solveACSweep [compR] [] cfgA) i =
          roundSig4 (acFreqAt cfgA i)) ∧
      (∀ i j : ℕ, i < j → acFreqAt cfgA i < acFreqAt cfgA j)) := by
  have hlog : Real.logb 10 (max 1 cfgA.startFreq) < Real.logb 10 cfgA.stopFreq := by
    show Real.logb 10 (max 1 1) < Real.logb 10 10
    rw [max_self, Real.logb_one, Real.logb_self_eq_one (by norm_num)]
    norm_num
  exact ⟨by decide, by decide, hlog,
    C2_ac_frequency_ladder [compR] [] cfgA (by decide) (by decide) hlog⟩

def cfg2 : SimulationConfig := ⟨0.001, 1, 100, 1, 2⟩

def cfg3 : SimulationConfig := ⟨0.001, 1, 1, 1000, 3⟩

/-- C2 counterexample: with startFreq 100 > stopFreq 1 the emitted x values
decrease (100 then 1), refuting unconditional strict increase; and with the
sweep 1→1000 Hz over 3 points the middle x value is 31.62 (4 significant
digits) while 10^1.5 = 31.6227…, an error far above 1e-9 relative. -/
theorem C2_counterexample :
    (2 ≤ cfg2.points ∧ (buildGraph [compR] []).numNodes ≠ 0 ∧
      xAt (CircuitSolver.solveACSweep [compR] [] cfg2) 1 <
        xAt (CircuitSolver.solveACSweep [compR] [] cfg2) 0) ∧
    (2 ≤ cfg3.points ∧ (buildGraph [compR] []).numNodes ≠ 0 ∧
      1e-9 * |acFreqAt cfg3 1| <
        |xAt (CircuitSolver.solveACSweep [compR] [] cfg3) 1 - acFreqAt cfg3 1|) := by
  have hb0 : (0 : ℝ) < 10 := by norm_num
  have hbne : (10 : ℝ) ≠ 1 := by norm_num
  have hnn : (buildGraph [compR] []).numNodes ≠ 0 := by decide
  have hlog100 : Real.logb 10 (100 : ℝ) = 2 := by
    rw [show (100 : ℝ) = (10 : ℝ) ^ (2 : ℝ) from by
      rw [show (2 : ℝ) = ((2 : ℕ) : ℝ) from by norm_num, Real.rpow_natCast]; norm_num]
    exact Real.logb_rpow hb0 hbne
  constructor
  · refine ⟨by decide, hnn, ?_⟩
    have hx0 : xAt (CircuitSolver.solveACSweep [compR] [] cfg2) 0 = 100 := by
      rw [xAt_solveACSweep [compR] [] cfg2 hnn 0 (by decide)]
      have hfreq : acFreqAt cfg2 0 = (10 : ℝ) ^ (((2 : ℤ) : ℝ)) := by
        show (10 : ℝ) ^ (Real.logb 10 (max 1 cfg2.startFreq) + ((0 : ℕ) : ℝ) *
          ((Real.logb 10 cfg2.stopFreq - Real.logb 10 (max 1 cfg2.startFreq)) /
            ((cfg2.points : ℝ) - 1))) = _
        congr 1
        show Real.logb 10 (max 1 (100 : ℝ)) + ((0 : ℕ) : ℝ) *
          ((Real.logb 10 (1 : ℝ) - Real.logb 10 (max 1 (100 : ℝ))) /
            (((2 : ℕ) : ℝ) - 1)) = _
        rw [show max (1 : ℝ) 100 = 100 from by norm_num, hlog100, Real.logb_one]
        push_cast
        ring
      rw [hfreq, roundSig4_rpow_int 2, Real.rpow_intCast]
      norm_num
    have hx1 : xAt (CircuitSolver.solveACSweep [compR] [] cfg2) 1 = 1 := by
      rw [xAt_solveACSweep [compR] [] cfg2 hnn 1 (by decide)]
      have hfreq : acFreqAt cfg2 1 = (10 : ℝ) ^ (((0 : ℤ) : ℝ)) := by
        show (10 : ℝ) ^ (Real.logb 10 (max 1 cfg2.startFreq) + ((1 : ℕ) : ℝ) *
          ((Real.logb 10 cfg2.stopFreq - Real.logb 10 (max 1 cfg2.startFreq)) /
            ((cfg2.points : ℝ) - 1))) = _
        congr 1
        show Real.logb 10 (max 1 (100 : ℝ)) + ((1 : ℕ) : ℝ) *
          ((Real.logb 10 (1 : ℝ) - Real.logb 10 (max 1 (100 : ℝ))) /
            (((2 : ℕ) : ℝ) - 1)) = _
        rw [show max (1 : ℝ) 100 = 100 from by norm_num, hlog100, Real.logb_one]
        push_cast
        ring
      rw [hfreq, roundSig4_rpow_int 0, Real.rpow_intCast]
      norm_num
    rw [hx0, hx1]
    norm_num
  · refine ⟨by decide, hnn, ?_⟩
    have h1000 : (1000 : ℝ) = (10 : ℝ) ^ (3 : ℝ) := by
      rw [show (3 : ℝ) = ((3 : ℕ) : ℝ) from by norm_num, Real.rpow_natCast]; norm_num
    have hlog1000 : Real.logb 10 (1000 : ℝ) = 3 := by
      rw [h1000]; exact Real.logb_rpow hb0 hbne
    have hs_eq : (10 : ℝ) ^ (1.5 : ℝ) = Real.sqrt 1000 := by
      rw [Real.sqrt_eq_rpow, h1000, ← Real.rpow_mul (by norm_num : (0 : ℝ) ≤ 10)]
      norm_num
    have hsl : (31.622 : ℝ) < Real.sqrt 1000 :=
      (Real.lt_sqrt (by norm_num)).2 (by norm_num)
    have hsu : Real.sqrt 1000 < (31.623 : ℝ) :=
      (Real.sqrt_lt' (by norm_num)).2 (by norm_num)
    have hfreq3 : acFreqAt cfg3 1 = (10 : ℝ) ^ (1.5 : ℝ) := by
      show (10 : ℝ) ^ (Real.logb 10 (max 1 cfg3.startFreq) + ((1 : ℕ) : ℝ) *
        ((Real.logb 10 cfg3.stopFreq - Real.logb 10 (max 1 cfg3.startFreq)) /
          ((cfg3.points : ℝ) - 1))) = _
      congr 1
      show Real.logb 10 (max 1 (1 : ℝ)) + ((1 : ℕ) : ℝ) *
        ((Real.logb 10 (1000 : ℝ) - Real.logb 10 (max 1 (1 : ℝ))) /
          (((3 : ℕ) : ℝ) - 1)) = _
      rw [max_self, Real.logb_one, hlog1000]
      push_cast
      ring
    have hround : roundSig4 ((10 : ℝ) ^ (1.5 : ℝ)) = 31.62 := by
      have hpos : (0 : ℝ) < (10 : ℝ) ^ (1.5 : ℝ) := Real.rpow_pos_of_pos hb0 _
      unfold roundSig4
      rw [if_neg hpos.ne', abs_of_pos hpos, Real.logb_rpow hb0 hbne]
      have hfl : Int.floor (1.5 : ℝ) = 1 := by
        rw [Int.floor_eq_iff]
        norm_num
      rw [hfl]
      have hsc : (10 : ℝ) ^ (((1 : ℤ) : ℝ) - 3) = 1 / 100 := by
        rw [show (((1 : ℤ) : ℝ) - 3) = (((-2 : ℤ)) : ℝ) from by push_cast; ring,
          Real.rpow_intCast]
        norm_num
      rw [hsc]
      have hq : (10 : ℝ) ^ (1.5 : ℝ) / (1 / 100) = 100 * Real.sqrt 1000 := by
        rw [hs_eq]; ring
      rw [hq]
      have hr : round ((100 : ℝ) * Real.sqrt 1000) = 3162 := by
        rw [round_eq, Int.floor_eq_iff]
        constructor
        · push_cast; nlinarith
        · push_cast; nlinarith
      rw [hr]
      norm_num
    have hx31 : xAt (CircuitSolver.solveACSweep [compR] [] cfg3) 1 = 31.62 := by
      rw [xAt_solveACSweep [compR] [] cfg3 hnn 1 (by decide), hfreq3, hround]
    rw [hx31, hfreq3, hs_eq]
    rw [abs_of_pos (by linarith : (0 : ℝ) < Real.sqrt 1000),
      abs_of_neg (by linarith : (31.62 : ℝ) - Real.sqrt 1000 < 0)]
    linarith

/-! ### C10: linear circuits converge in at most two iterations -/

/-- The component kinds whose DC stamps read the voltage iterate. -/
def nonlinearType (t : ComponentType) : Prop :=
  t = DIODE ∨ t = LED ∨ t = OPAMP ∨ t = AND_GATE ∨ t = OR_GATE ∨ t = NOT_GATE ∨
  t = NAND_GATE ∨ t = NOR_GATE ∨ t = XOR_GATE

instance (t : ComponentType) : Decidable (nonlinearType t) := by
  unfold nonlinearType; infer_instance

theorem dcPassiveStamp_volt_indep (pm : List (PortKey × ℕ)) (volt volt' : ℕ → ℝ)
    (s : Mat × Vec) (c : CircuitComponent) (hd : ¬(c.type = DIODE ∨ c.type = LED)) :
    dcPassiveStamp pm volt s c = dcPassiveStamp pm volt' s c := by
  unfold dcPassiveStamp
  by_cases hskip : dcSkip c.type
  · simp [hskip]
  · simp only [hskip, if_neg, not_false_iff]
    cases h0 : lookupA pm (c.id, 0) <;> cases h1 : lookupA pm (c.id, 1) <;> try rfl
    simp only [if_neg hd]

theorem dcPassiveFold_volt_indep (pm : List (PortKey × ℕ)) (volt volt' : ℕ → ℝ) :
    ∀ (cs : List CircuitComponent) (s : Mat × Vec),
      (∀ c ∈ cs, ¬ nonlinearType c.type) →
      cs.foldl (dcPassiveStamp pm volt) s = cs.foldl (dcPassiveStamp pm volt') s := by
  intro cs
  induction cs with
  | nil => intro s _; rfl
  | cons c t ih =>
      intro s h
      have hc := h c (by simp)
      have hd : ¬(c.type = DIODE ∨ c.type = LED) := by
        unfold nonlinearType at hc
        tauto
      rw [List.foldl_cons, List.foldl_cons, dcPassiveStamp_volt_indep pm volt volt' s c hd]
      exact ih _ (fun c2 hc2 => h c2 (by simp [hc2]))

theorem opampsOf_nil (components : List CircuitComponent)
    (h : ∀ c ∈ components, ¬ nonlinearType c.type) : opampsOf components = [] := by
  rw [opampsOf, List.filter_eq_nil_iff]
  intro c hc
  have := h c hc
  unfold nonlinearType at this
  simp only [decide_eq_true_eq]
  tauto

theorem logicGatesOf_nil (components : List CircuitComponent)
    (h : ∀ c ∈ components, ¬ nonlinearType c.type) : logicGatesOf components = [] := by
  rw [logicGatesOf, List.filter_eq_nil_iff]
  intro c hc
  have := h c hc
  unfold nonlinearType at this
  simp only [decide_eq_true_eq]
  tauto

/-- With no nonlinear components, the assembled DC system does not depend on
the voltage iterate or the gate targets. -/
theorem assembleDC_volt_indep (components : List CircuitComponent)
    (pm : List (PortKey × ℕ)) (numNodes : ℕ)
    (h : ∀ c ∈ components, ¬ nonlinearType c.type) :
    ∀ (volt volt' : ℕ → ℝ) (targets targets' : List (String × ℝ)),
      assembleDC components pm numNodes volt targets =
      assembleDC components pm numNodes volt' targets' := by
  intro volt volt' targets targets'
  simp only [assembleDC, opampsOf_nil components h, logicGatesOf_nil components h,
    foldIdx, List.foldl_nil]
  rw [dcPassiveFold_volt_indep pm volt volt' components _ h]

theorem foldMax_zero (x v : ℕ → ℝ) :
    ∀ nn : ℕ, (∀ k, k < nn → x k = v (k + 1)) →
      (List.range nn).foldl (fun md k => max md |x k - v (k + 1)|) 0 = 0 := by
  intro nn
  induction nn with
  | zero => intro _; simp
  | succ n ih =>
      intro h
      rw [List.range_succ, List.foldl_append, ih (fun k hk => h k (by omega))]
      simp only [List.foldl_cons, List.foldl_nil]
      rw [h n (by omega)]
      simp

theorem dcRunAux_of_converged (components : List CircuitComponent)
    (pm : List (PortKey × ℕ)) (nn sz : ℕ) (fuel : ℕ) (s : DCState)
    (h : s.converged = true) : dcRunAux components pm nn sz fuel s = s := by
  cases fuel with
  | zero => rfl
  | succ f =>
      unfold dcRunAux
      rw [if_neg]
      simp [h]

theorem dcRunAux_step_eq (components : List CircuitComponent)
    (pm : List (PortKey × ℕ)) (nn sz : ℕ) (f : ℕ) (s : DCState)
    (h1 : s.iteration < 20) (h2 : s.converged = false) :
    dcRunAux components pm nn sz (f + 1) s =
      dcRunAux components pm nn sz f (dcStep components pm nn sz s) := by
  conv_lhs => rw [dcRunAux]
  rw [if_pos ⟨h1, h2⟩]

/-- C10: for a grounded circuit with no DIODE, LED, OPAMP or logic gate, the
assembled matrix and RHS do not depend on the voltage iterate, so the second
pass solves the identical system, reproduces the first solution exactly
(maxDiff = 0 < 0.01), and the fixed-point loop exits converged after at most
2 iterations. -/
theorem C10_linear_two_iterations (components : List CircuitComponent) (wires : List Wire)
    (hg : hasGroundNode components wires = true)
    (hlin : ∀ c ∈ components, ¬ nonlinearType c.type) :
    (∀ (volt volt' : ℕ → ℝ) (targets targets' : List (String × ℝ)),
      assembleDC components (buildGraph components wires).portToNode
          (buildGraph components wires).numNodes volt targets =
        assembleDC components (buildGraph components wires).portToNode
          (buildGraph components wires).numNodes volt' targets') ∧
    (dcState components wires).converged = true ∧
    (dcState components wires).iteration ≤ 2 := by
  have hasm := assembleDC_volt_indep components
    (buildGraph components wires).portToNode (buildGraph components wires).numNodes hlin
  refine ⟨hasm, ?_⟩
  unfold dcState
  set pm := (buildGraph components wires).portToNode with hpm
  set nn := (buildGraph components wires).numNodes with hnn
  set sz := (buildGraph components wires).numNodes + dcNumExtra components with hsz
  set s1 := dcStep components pm nn sz dcInit with hs1
  have hrun0 : dcRunAux components pm nn sz 20 dcInit =
      dcRunAux components pm nn sz 19 s1 :=
    dcRunAux_step_eq components pm nn sz 19 dcInit (by decide) rfl
  have hit1 : s1.iteration = 1 := rfl
  by_cases hc1 : s1.converged = true
  · rw [hrun0, dcRunAux_of_converged components pm nn sz 19 s1 hc1, hc1, hit1]
    exact ⟨rfl, by omega⟩
  · have hc1' : s1.converged = false := by
      cases h : s1.converged
      · rfl
      · exact absurd h hc1
    set s2 := dcStep components pm nn sz s1 with hs2
    have hrun1 : dcRunAux components pm nn sz 19 s1 =
        dcRunAux components pm nn sz 18 s2 :=
      dcRunAux_step_eq components pm nn sz 18 s1 (by rw [hit1]; omega) hc1'
    have hx2 : MatrixSolver.solve sz
        (assembleDC components pm nn s1.volt
          (computeGateTargets pm s1.volt (logicGatesOf components))).1
        (assembleDC components pm nn s1.volt
          (computeGateTargets pm s1.volt (logicGatesOf components))).2 = s1.finalX := by
      rw [hasm s1.volt dcInit.volt
        (computeGateTargets pm s1.volt (logicGatesOf components))
        (computeGateTargets pm dcInit.volt (logicGatesOf components))]
      rfl
    have hvolt1 : ∀ k, k < nn → s1.finalX k = s1.volt (k + 1) := by
      intro k hk
      show s1.finalX k =
        if 1 ≤ k + 1 ∧ k + 1 ≤ nn then
          MatrixSolver.solve sz
            (assembleDC components pm nn dcInit.volt
              (computeGateTargets pm dcInit.volt (logicGatesOf components))).1
            (assembleDC components pm nn dcInit.volt
              (computeGateTargets pm dcInit.volt (logicGatesOf components))).2 (k + 1 - 1)
        else dcInit.volt (k + 1)
      rw [if_pos ⟨by omega, by omega⟩]
      rfl
    have hconv2 : s2.converged = true := by
      show (decide ((List.range nn).foldl (fun md k => max md
        |MatrixSolver.solve sz
          (assembleDC components pm nn s1.volt
            (computeGateTargets pm s1.volt (logicGatesOf components))).1
          (assembleDC components pm nn s1.volt
            (computeGateTargets pm s1.volt (logicGatesOf components))).2 k
          - s1.volt (k + 1)|) 0 < 0.01)) = true
      rw [decide_eq_true_eq]
      have hzero : (List.range nn).foldl (fun md k => max md
          |MatrixSolver.solve sz
            (assembleDC components pm nn s1.volt
              (computeGateTargets pm s1.volt (logicGatesOf components))).1
            (assembleDC components pm nn s1.volt
              (computeGateTargets pm s1.volt (logicGatesOf components))).2 k
            - s1.volt (k + 1)|) 0 = 0 := by
        rw [show (fun md k => max md
          |MatrixSolver.solve sz
            (assembleDC components pm nn s1.volt
              (computeGateTargets pm s1.volt (logicGatesOf components))).1
            (assembleDC components pm nn s1.volt
              (computeGateTargets pm s1.volt (logicGatesOf components))).2 k
            - s1.volt (k + 1)|) = (fun md k => max md |s1.finalX k - s1.volt (k + 1)|) from by
          funext md k
          rw [hx2]]
        exact foldMax_zero s1.finalX s1.volt nn hvolt1
      rw [hzero]
      norm_num
    have hit2 : s2.iteration = 2 := by
      show s1.iteration + 1 = 2
      rw [hit1]
    rw [hrun0, hrun1, dcRunAux_of_converged components pm nn sz 18 s2 hconv2, hconv2, hit2]
    exact ⟨rfl, by omega⟩

/-- C10 witness: a concrete grounded linear circuit (source, resistor, ground). -/
theorem C10_linear_two_iterations_witness :
    hasGroundNode demoComps demoWires = true ∧
    (∀ c ∈ demoComps, ¬ nonlinearType c.type) ∧
    ((∀ (volt volt' : ℕ → ℝ) (targets targets' : List (String × ℝ)),
      assembleDC demoComps (buildGraph demoComps demoWires).portToNode
          (buildGraph demoComps demoWires).numNodes volt targets =
        assembleDC demoComps (buildGraph demoComps demoWires).portToNode
          (buildGraph demoComps demoWires).numNodes volt' targets') ∧
    (dcState demoComps demoWires).converged = true ∧
    (dcState demoComps demoWires).iteration ≤ 2) :=
  ⟨by decide, by decide,
    C10_linear_two_iterations demoComps demoWires (by decide) (by decide)⟩

/-! ### C6: waveform fallback in the transient engine -/

/-- The transient voltage-source row always writes the source value into the
RHS at its extra-unknown index. -/
theorem vsPattern_rhs (pm : List (PortKey × ℕ)) (idxVs : ℕ) (rhsVal : ℝ)
    (s : Mat × Vec) (cid : String) :
    (vsPattern pm idxVs rhsVal s cid).2 idxVs = rhsVal := by
  unfold vsPattern
  dsimp only
  simp [vset]

theorem transVsStamp_rhs (pm : List (PortKey × ℕ)) (numNodes : ℕ) (time : ℝ)
    (s : Mat × Vec) (i : ℕ) (v : CircuitComponent) :
    (transVsStamp pm numNodes time s i v).2 (numNodes + i) = transSourceVal v time :=
  vsPattern_rhs pm (numNodes + i) (transSourceVal v time) s v.id

/-- When the waveform field resolves to SINE (missing, empty, or literally
SINE), an AC source follows the sine formula. -/
theorem transSourceVal_sine (v : CircuitComponent) (time : ℝ)
    (hac : v.type = AC_SOURCE) (hw : jsOrS v.waveform (String.mk ['S','I','N','E']) =
      String.mk ['S','I','N','E']) :
    transSourceVal v time =
      v.value * Real.sin (2 * Real.pi * jsOr v.frequency 60 * time) + jsOr v.dcBias 0 := by
  unfold transSourceVal
  rw [if_pos hac]
  dsimp only
  have hw' : jsOrS v.waveform "SINE" = "SINE" := hw
  rw [hw', if_pos rfl]

/-- When the waveform field holds a non-empty name that matches none of the
five switch cases, the source is stamped with the constant `v.value`. -/
theorem transSourceVal_unrecognized (v : CircuitComponent) (time : ℝ)
    (hac : v.type = AC_SOURCE) (w : String) (hww : v.waveform = some w)
    (h0 : w ≠ "") (h1 : w ≠ "SINE") (h2 : w ≠ "SQUARE") (h3 : w ≠ "TRIANGLE")
    (h4 : w ≠ "SAWTOOTH") (h5 : w ≠ "PULSE") :
    transSourceVal v time = v.value := by
  have hws : jsOrS v.waveform "SINE" = w := by
    rw [hww]
    simp [jsOrS, h0]
  unfold transSourceVal
  rw [if_pos hac]
  dsimp only
  rw [hws, if_neg h1, if_neg h2, if_neg h3, if_neg h4, if_neg h5]

/-- C6: in `solveTransient`, an AC source with a missing (or empty) waveform
field is stamped with the SINE formula `value*sin(2*pi*frequency*t) + dcBias`;
but an AC source whose waveform field holds a present, non-empty, unrecognized
name matches no switch case, so its stamped RHS value is the constant
`v.value` at every time step, not the SINE formula. -/
theorem C6_unrecognized_waveform (v : CircuitComponent) (time : ℝ)
    (pm : List (PortKey × ℕ)) (numNodes i : ℕ) (s : Mat × Vec)
    (hac : v.type = AC_SOURCE) :
    (jsOrS v.waveform (String.mk ['S','I','N','E']) = String.mk ['S','I','N','E'] →
      (transVsStamp pm numNodes time s i v).2 (numNodes + i) =
        v.value * Real.sin (2 * Real.pi * jsOr v.frequency 60 * time) + jsOr v.dcBias 0) ∧
    (∀ w : String, v.waveform = some w → w ≠ "" → w ≠ "SINE" → w ≠ "SQUARE" →
      w ≠ "TRIANGLE" → w ≠ "SAWTOOTH" → w ≠ "PULSE" →
      (transVsStamp pm numNodes time s i v).2 (numNodes + i) = v.value) := by
  constructor
  · intro hw
    rw [transVsStamp_rhs]
    exact transSourceVal_sine v time hac hw
  · intro w hww h0 h1 h2 h3 h4 h5
    rw [transVsStamp_rhs]
    exact transSourceVal_unrecognized v time hac w hww h0 h1 h2 h3 h4 h5

/-- An AC source whose waveform field holds the unrecognized name COSINE. -/
def compW : CircuitComponent :=
  ⟨"w1", AC_SOURCE, 2, some 1, some (String.mk ['C','O','S','I','N','E']),
    some 1, none, none, none⟩

/-- C6 witness: the dichotomy instantiated at the COSINE source at t = 0. -/
theorem C6_unrecognized_waveform_witness :
    compW.type = AC_SOURCE ∧
    ((jsOrS compW.waveform (String.mk ['S','I','N','E']) = String.mk ['S','I','N','E'] →
      (transVsStamp [] 0 0 zeroSys 0 compW).2 (0 + 0) =
        compW.value * Real.sin (2 * Real.pi * jsOr compW.frequency 60 * 0) +
          jsOr compW.dcBias 0) ∧
    (∀ w : String, compW.waveform = some w → w ≠ "" → w ≠ "SINE" → w ≠ "SQUARE" →
      w ≠ "TRIANGLE" → w ≠ "SAWTOOTH" → w ≠ "PULSE" →
      (transVsStamp [] 0 0 zeroSys 0 compW).2 (0 + 0) = compW.value)) :=
  ⟨rfl, C6_unrecognized_waveform compW 0 [] 0 0 zeroSys rfl⟩

/-- C6 counterexample: the COSINE source is stamped with its constant value 2
at t = 0, while the SINE formula yields 2*sin(0) + 1 = 1. -/
theorem C6_counterexample :
    compW.type = AC_SOURCE ∧
    compW.waveform = some (String.mk ['C','O','S','I','N','E']) ∧
    (transVsStamp [] 0 0 zeroSys 0 compW).2 0 = 2 ∧
    compW.value * Real.sin (2 * Real.pi * jsOr compW.frequency 60 * 0) +
      jsOr compW.dcBias 0 = 1 ∧
    (2 : ℝ) ≠ 1 := by
  refine ⟨rfl, rfl, ?_, ?_, by norm_num⟩
  · have h := transVsStamp_rhs [] 0 0 zeroSys 0 compW
    norm_num at h
    rw [h, transSourceVal_unrecognized compW 0 rfl (String.mk ['C','O','S','I','N','E'])
      rfl (by decide) (by decide) (by decide) (by decide) (by decide) (by decide)]
    rfl
  · show compW.value * Real.sin (2 * Real.pi * jsOr (some (1 : ℝ)) 60 * 0) +
      jsOr (some (1 : ℝ)) 0 = 1
    norm_num [jsOr, Real.sin_zero]

/-! ### C3: extra-unknown index layout and current harvesting -/

/-- The voltage-source pattern replaces the RHS entry at its row index and
leaves every other RHS entry unchanged. -/
theorem vsPattern_rhs_eq (pm : List (PortKey × ℕ)) (idxVs : ℕ) (rhsVal : ℝ)
    (s : Mat × Vec) (cid : String) :
    (vsPattern pm idxVs rhsVal s cid).2 = vset s.2 idxVs rhsVal := by
  unfold vsPattern
  dsimp only
  cases lookupA pm (cid, 0) <;> cases lookupA pm (cid, 1) <;> dsimp only <;>
    (try split_ifs) <;> rfl

theorem vsStamp_rhs_eq (pm : List (PortKey × ℕ)) (numNodes : ℕ) :
    ∀ (s : Mat × Vec) (i : ℕ) (v : CircuitComponent),
      (vsStamp pm numNodes s i v).2 = vset s.2 (numNodes + i) (dcSourceVal v) :=
  fun s i v => vsPattern_rhs_eq pm (numNodes + i) (dcSourceVal v) s v.id

theorem amStamp_rhs_eq (pm : List (PortKey × ℕ)) (numNodes nVS : ℕ) :
    ∀ (s : Mat × Vec) (i : ℕ) (a : CircuitComponent),
      (amStamp pm numNodes nVS s i a).2 = vset s.2 (numNodes + nVS + i) 0 :=
  fun s i a => vsPattern_rhs_eq pm (numNodes + nVS + i) 0 s a.id

/-- RHS value written by the DC op-amp extra row: the clamped rail when the
target exceeds the rails, otherwise 0. -/
noncomputable def dcOpampRhsVal (pm : List (PortKey × ℕ)) (volt : ℕ → ℝ)
    (op : CircuitComponent) : ℝ :=
  if opampTarget pm volt op > 15 then 15
  else if opampTarget pm volt op < -15 then -15
  else 0

theorem dcOpampStamp_rhs_eq (pm : List (PortKey × ℕ)) (numNodes nVS nAM : ℕ)
    (volt : ℕ → ℝ) :
    ∀ (s : Mat × Vec) (i : ℕ) (op : CircuitComponent),
      (dcOpampStamp pm numNodes nVS nAM volt s i op).2 =
        vset s.2 (numNodes + nVS + nAM + i) (dcOpampRhsVal pm volt op) := by
  intro s i op
  unfold dcOpampStamp dcOpampRhsVal
  dsimp only
  split_ifs with h1 h2 h3 <;> first | rfl | tauto

theorem gateStamp_rhs_eq (pm : List (PortKey × ℕ)) (numNodes nVS nAM nOP : ℕ)
    (targets : List (String × ℝ)) :
    ∀ (s : Mat × Vec) (i : ℕ) (g : CircuitComponent),
      (gateStamp pm numNodes nVS nAM nOP targets s i g).2 =
        vset s.2 (numNodes + nVS + nAM + nOP + i) ((lookupA targets g.id).getD 0) := by
  intro s i g
  unfold gateStamp
  dsimp only
  split <;> (try split_ifs) <;> rfl

/-- A stamp family writing RHS entry `base + i` at step `i` leaves all RHS
entries below `base + i0` unchanged. -/
theorem foldIdx_rhs_lt (F : Mat × Vec → ℕ → CircuitComponent → Mat × Vec) (base : ℕ)
    (val : ℕ → CircuitComponent → ℝ)
    (hF : ∀ s i c, (F s i c).2 = vset s.2 (base + i) (val i c)) :
    ∀ (l : List CircuitComponent) (s : Mat × Vec) (i0 j : ℕ), j < base + i0 →
      (foldIdx F s i0 l).2 j = s.2 j := by
  intro l
  induction l with
  | nil => intro s i0 j _; rfl
  | cons c t ih =>
      intro s i0 j hj
      show (foldIdx F (F s i0 c) (i0 + 1) t).2 j = s.2 j
      rw [ih (F s i0 c) (i0 + 1) j (by omega), hF]
      simp only [vset]
      rw [if_neg (by omega : ¬ j = base + i0)]

/-- A stamp family writing RHS entry `base + i` at step `i` leaves the k-th
element's value in RHS entry `base + i0 + k`. -/
theorem foldIdx_rhs_get (F : Mat × Vec → ℕ → CircuitComponent → Mat × Vec) (base : ℕ)
    (val : ℕ → CircuitComponent → ℝ)
    (hF : ∀ s i c, (F s i c).2 = vset s.2 (base + i) (val i c)) :
    ∀ (l : List CircuitComponent) (s : Mat × Vec) (i0 k : ℕ) (hk : k < l.length),
      (foldIdx F s i0 l).2 (base + i0 + k) = val (i0 + k) (l.get ⟨k, hk⟩) := by
  intro l
  induction l with
  | nil => intro s i0 k hk; simp at hk
  | cons c t ih =>
      intro s i0 k hk
      cases k with
      | zero =>
          show (foldIdx F (F s i0 c) (i0 + 1) t).2 (base + i0 + 0) = val (i0 + 0) c
          rw [foldIdx_rhs_lt F base val hF t (F s i0 c) (i0 + 1) (base + i0 + 0) (by omega),
            hF]
          simp only [vset]
          rw [if_pos (by omega : base + i0 + 0 = base + i0)]
          norm_num
      | succ m =>
          have hm : m < t.length := by
            simp only [List.length_cons] at hk
            omega
          show (foldIdx F (F s i0 c) (i0 + 1) t).2 (base + i0 + (m + 1)) =
            val (i0 + (m + 1)) ((c :: t).get ⟨m + 1, hk⟩)
          rw [show base + i0 + (m + 1) = base + (i0 + 1) + m from by omega,
            show i0 + (m + 1) = (i0 + 1) + m from by omega]
          exact ih (F s i0 c) (i0 + 1) m hm

/-- The i-th voltage source's source value sits in RHS entry `numNodes + i`. -/
theorem assembleDC_rhs_vs (components : List CircuitComponent) (pm : List (PortKey × ℕ))
    (numNodes : ℕ) (volt : ℕ → ℝ) (targets : List (String × ℝ)) (i : ℕ)
    (hi : i < (voltageSourcesOf components).length) :
    (assembleDC components pm numNodes volt targets).2 (numNodes + i) =
      dcSourceVal ((voltageSourcesOf components).get ⟨i, hi⟩) := by
  unfold assembleDC
  dsimp only
  rw [foldIdx_rhs_lt
      (gateStamp pm numNodes (voltageSourcesOf components).length
        (ammetersOf components).length (opampsOf components).length targets)
      (numNodes + (voltageSourcesOf components).length + (ammetersOf components).length +
        (opampsOf components).length)
      (fun _ g => (lookupA targets g.id).getD 0)
      (gateStamp_rhs_eq pm numNodes (voltageSourcesOf components).length
        (ammetersOf components).length (opampsOf components).length targets)
      (logicGatesOf components) _ 0 (numNodes + i) (by omega)]
  rw [foldIdx_rhs_lt
      (dcOpampStamp pm numNodes (voltageSourcesOf components).length
        (ammetersOf components).length volt)
      (numNodes + (voltageSourcesOf components).length + (ammetersOf components).length)
      (fun _ op => dcOpampRhsVal pm volt op)
      (dcOpampStamp_rhs_eq pm numNodes (voltageSourcesOf components).length
        (ammetersOf components).length volt)
      (opampsOf components) _ 0 (numNodes + i) (by omega)]
  rw [foldIdx_rhs_lt
      (amStamp pm numNodes (voltageSourcesOf components).length)
      (numNodes + (voltageSourcesOf components).length)
      (fun _ _ => 0)
      (amStamp_rhs_eq pm numNodes (voltageSourcesOf components).length)
      (ammetersOf components) _ 0 (numNodes + i) (by omega)]
  rw [show numNodes + i = numNodes + 0 + i from by omega]
  rw [foldIdx_rhs_get (vsStamp pm numNodes) numNodes (fun _ v => dcSourceVal v)
      (vsStamp_rhs_eq pm numNodes) (voltageSourcesOf components) _ 0 i hi]

/-- The i-th ammeter's extra-row RHS entry is 0. -/
theorem assembleDC_rhs_am (components : List CircuitComponent) (pm : List (PortKey × ℕ))
    (numNodes : ℕ) (volt : ℕ → ℝ) (targets : List (String × ℝ)) (i : ℕ)
    (hi : i < (ammetersOf components).length) :
    (assembleDC components pm numNodes volt targets).2
      (numNodes + (voltageSourcesOf components).length + i) = 0 := by
  unfold assembleDC
  dsimp only
  rw [foldIdx_rhs_lt
      (gateStamp pm numNodes (voltageSourcesOf components).length
        (ammetersOf components).length (opampsOf components).length targets)
      (numNodes + (voltageSourcesOf components).length + (ammetersOf components).length +
        (opampsOf components).length)
      (fun _ g => (lookupA targets g.id).getD 0)
      (gateStamp_rhs_eq pm numNodes (voltageSourcesOf components).length
        (ammetersOf components).length (opampsOf components).length targets)
      (logicGatesOf components) _ 0
      (numNodes + (voltageSourcesOf components).length + i) (by omega)]
  rw [foldIdx_rhs_lt
      (dcOpampStamp pm numNodes (voltageSourcesOf components).length
        (ammetersOf components).length volt)
      (numNodes + (voltageSourcesOf components).length + (ammetersOf components).length)
      (fun _ op => dcOpampRhsVal pm volt op)
      (dcOpampStamp_rhs_eq pm numNodes (voltageSourcesOf components).length
        (ammetersOf components).length volt)
      (opampsOf components) _ 0
      (numNodes + (voltageSourcesOf components).length + i) (by omega)]
  rw [show numNodes + (voltageSourcesOf components).length + i =
      numNodes + (voltageSourcesOf components).length + 0 + i from by omega]
  rw [foldIdx_rhs_get (amStamp pm numNodes (voltageSourcesOf components).length)
      (numNodes + (voltageSourcesOf components).length) (fun _ _ => 0)
      (amStamp_rhs_eq pm numNodes (voltageSourcesOf components).length)
      (ammetersOf components) _ 0 i hi]

/-- The i-th op-amp's extra-row RHS entry is its clamped rail value or 0. -/
theorem assembleDC_rhs_op (components : List CircuitComponent) (pm : List (PortKey × ℕ))
    (numNodes : ℕ) (volt : ℕ → ℝ) (targets : List (String × ℝ)) (i : ℕ)
    (hi : i < (opampsOf components).length) :
    (assembleDC components pm numNodes volt targets).2
      (numNodes + (voltageSourcesOf components).length +
        (ammetersOf components).length + i) =
      dcOpampRhsVal pm volt ((opampsOf components).get ⟨i, hi⟩) := by
  unfold assembleDC
  dsimp only
  rw [foldIdx_rhs_lt
      (gateStamp pm numNodes (voltageSourcesOf components).length
        (ammetersOf components).length (opampsOf components).length targets)
      (numNodes + (voltageSourcesOf components).length + (ammetersOf components).length +
        (opampsOf components).length)
      (fun _ g => (lookupA targets g.id).getD 0)
      (gateStamp_rhs_eq pm numNodes (voltageSourcesOf components).length
        (ammetersOf components).length (opampsOf components).length targets)
      (logicGatesOf components) _ 0
      (numNodes + (voltageSourcesOf components).length +
        (ammetersOf components).length + i) (by omega)]
  rw [show numNodes + (voltageSourcesOf components).length +
        (ammetersOf components).length + i =
      numNodes + (voltageSourcesOf components).length +
        (ammetersOf components).length + 0 + i from by omega]
  rw [foldIdx_rhs_get
      (dcOpampStamp pm numNodes (voltageSourcesOf components).length
        (ammetersOf components).length volt)
      (numNodes + (voltageSourcesOf components).length + (ammetersOf components).length)
      (fun _ op => dcOpampRhsVal pm volt op)
      (dcOpampStamp_rhs_eq pm numNodes (voltageSourcesOf components).length
        (ammetersOf components).length volt)
      (opampsOf components) _ 0 i hi]

/-- The i-th logic gate's extra-row RHS entry is its target value. -/
theorem assembleDC_rhs_gate (components : List CircuitComponent) (pm : List (PortKey × ℕ))
    (numNodes : ℕ) (volt : ℕ → ℝ) (targets : List (String × ℝ)) (i : ℕ)
    (hi : i < (logicGatesOf components).length) :
    (assembleDC components pm numNodes volt targets).2
      (numNodes + (voltageSourcesOf components).length +
        (ammetersOf components).length + (opampsOf components).length + i) =
      (lookupA targets ((logicGatesOf components).get ⟨i, hi⟩).id).getD 0 := by
  unfold assembleDC
  dsimp only
  rw [show numNodes + (voltageSourcesOf components).length +
        (ammetersOf components).length + (opampsOf components).length + i =
      numNodes + (voltageSourcesOf components).length +
        (ammetersOf components).length + (opampsOf components).length + 0 + i
      from by omega]
  rw [foldIdx_rhs_get
      (gateStamp pm numNodes (voltageSourcesOf components).length
        (ammetersOf components).length (opampsOf components).length targets)
      (numNodes + (voltageSourcesOf components).length + (ammetersOf components).length +
        (opampsOf components).length)
      (fun _ g => (lookupA targets g.id).getD 0)
      (gateStamp_rhs_eq pm numNodes (voltageSourcesOf components).length
        (ammetersOf components).length (opampsOf components).length targets)
      (logicGatesOf components) _ 0 i hi]

/-- A `forEach`-with-index of `setA` writes leave keys outside the list alone. -/
theorem foldIdx_setA_lookup_ne (g : ℕ → CircuitComponent → ℝ) :
    ∀ (l : List CircuitComponent) (m : List (String × ℝ)) (i0 : ℕ) (key : String),
      (∀ c ∈ l, c.id ≠ key) →
      lookupA (foldIdx (fun m i c => setA m c.id (g i c)) m i0 l) key = lookupA m key := by
  intro l
  induction l with
  | nil => intro m i0 key _; rfl
  | cons c t ih =>
      intro m i0 key h
      show lookupA (foldIdx _ (setA m c.id (g i0 c)) (i0 + 1) t) key = lookupA m key
      rw [ih (setA m c.id (g i0 c)) (i0 + 1) key
          (fun d hd => h d (List.mem_cons_of_mem c hd)),
        lookupA_setA_ne m (g i0 c) (Ne.symm (h c (by simp)))]

/-- Under distinct ids, a `forEach`-with-index of `setA` maps the k-th
element's id to the k-th written value. -/
theorem foldIdx_setA_lookup_get (g : ℕ → CircuitComponent → ℝ) :
    ∀ (l : List CircuitComponent) (m : List (String × ℝ)) (i0 k : ℕ) (hk : k < l.length),
      (l.map (fun c => c.id)).Nodup →
      lookupA (foldIdx (fun m i c => setA m c.id (g i c)) m i0 l) ((l.get ⟨k, hk⟩).id) =
        some (g (i0 + k) (l.get ⟨k, hk⟩)) := by
  intro l
  induction l with
  | nil => intro m i0 k hk; simp at hk
  | cons c t ih =>
      intro m i0 k hk hN
      have hcN : c.id ∉ t.map (fun c => c.id) := by
        simp only [List.map_cons, List.nodup_cons] at hN
        exact hN.1
      cases k with
      | zero =>
          show lookupA (foldIdx _ (setA m c.id (g i0 c)) (i0 + 1) t) c.id =
            some (g (i0 + 0) c)
          rw [foldIdx_setA_lookup_ne g t (setA m c.id (g i0 c)) (i0 + 1) c.id
            (fun d hd he => hcN (he ▸ List.mem_map_of_mem (fun c => c.id) hd)),
            lookupA_setA_self]
          norm_num
      | succ j =>
          have hj : j < t.length := by
            simp only [List.length_cons] at hk
            omega
          have htN : (t.map (fun c => c.id)).Nodup := by
            simp only [List.map_cons, List.nodup_cons] at hN
            exact hN.2
          show lookupA (foldIdx _ (setA m c.id (g i0 c)) (i0 + 1) t)
            ((t.get ⟨j, hj⟩).id) = some (g (i0 + (j + 1)) (t.get ⟨j, hj⟩))
          rw [show i0 + (j + 1) = (i0 + 1) + j from by omega]
          exact ih (setA m c.id (g i0 c)) (i0 + 1) j hj htN

/-- The final harvesting loop over all components only writes ids of
components that are not skipped by the DC passive loop. -/
theorem harvestFold_lookup_ne (pm : List (PortKey × ℕ)) (f : CircuitComponent → ℕ → ℕ → ℝ) :
    ∀ (l : List CircuitComponent) (m : List (String × ℝ)) (key : String),
      (∀ c ∈ l, ¬ dcSkip c.type → c.id ≠ key) →
      lookupA (l.foldl (fun m c =>
        if dcSkip c.type then m
        else match lookupA pm (c.id, 0), lookupA pm (c.id, 1) with
        | some n1, some n2 => setA m c.id (f c n1 n2)
        | _, _ => m) m) key = lookupA m key := by
  intro l
  induction l with
  | nil => intro m key _; rfl
  | cons c t ih =>
      intro m key h
      rw [List.foldl_cons, ih _ key (fun d hd => h d (List.mem_cons_of_mem c hd))]
      by_cases hsk : dcSkip c.type
      · rw [if_pos hsk]
      · rw [if_neg hsk]
        cases lookupA pm (c.id, 0) <;> cases lookupA pm (c.id, 1) <;> dsimp only <;>
          first
          | rfl
          | rw [lookupA_setA_ne m _ (Ne.symm (h c (by simp) hsk))]

/-- Distinct ids identify components. -/
theorem id_unique (components : List CircuitComponent)
    (hN : (components.map (fun c => c.id)).Nodup) {c d : CircuitComponent}
    (hc : c ∈ components) (hd : d ∈ components) (h : c.id = d.id) : c = d :=
  List.inj_on_of_nodup_map hN hc hd h

theorem filter_ids_nodup (components : List CircuitComponent)
    (hN : (components.map (fun c => c.id)).Nodup) (p : CircuitComponent → Bool) :
    ((components.filter p).map (fun c => c.id)).Nodup :=
  List.Nodup.sublist (List.Sublist.map (fun c => c.id) (List.filter_sublist components)) hN

/-- Two inner components of disjoint filters never collide on ids under
distinct ids. -/
theorem filter_key_ne (components : List CircuitComponent)
    (hN : (components.map (fun c => c.id)).Nodup) (p q : CircuitComponent → Bool)
    {tc : CircuitComponent} (htc : tc ∈ components.filter p)
    (hpq : ∀ c : CircuitComponent, ¬(p c = true ∧ q c = true)) :
    ∀ d ∈ components.filter q, d.id ≠ tc.id := by
  intro d hd he
  have hdc := List.mem_of_mem_filter hd
  have htcc := List.mem_of_mem_filter htc
  have hde : d = tc := id_unique components hN hdc htcc he
  subst hde
  exact hpq d ⟨(List.mem_filter.mp htc).2, (List.mem_filter.mp hd).2⟩

theorem passive_key_ne (components : List CircuitComponent)
    (hN : (components.map (fun c => c.id)).Nodup) {tc : CircuitComponent}
    (htcc : tc ∈ components) (htsk : dcSkip tc.type) :
    ∀ c ∈ components, ¬ dcSkip c.type → c.id ≠ tc.id := by
  intro c hc hns he
  have hce : c = tc := id_unique components hN hc htcc he
  rw [hce] at hns
  exact hns htsk

theorem disj_vs_am : ∀ c : CircuitComponent,
    ¬(decide (c.type = VOLTAGE_SOURCE ∨ c.type = AC_SOURCE) = true ∧
      decide (c.type = AMMETER) = true) := by
  intro c h
  rcases h with ⟨h1, h2⟩
  cases ht : c.type <;> rw [ht] at h1 h2 <;> simp_all

theorem disj_vs_op : ∀ c : CircuitComponent,
    ¬(decide (c.type = VOLTAGE_SOURCE ∨ c.type = AC_SOURCE) = true ∧
      decide (c.type = OPAMP) = true) := by
  intro c h
  rcases h with ⟨h1, h2⟩
  cases ht : c.type <;> rw [ht] at h1 h2 <;> simp_all

theorem disj_vs_gate : ∀ c : CircuitComponent,
    ¬(decide (c.type = VOLTAGE_SOURCE ∨ c.type = AC_SOURCE) = true ∧
      decide (c.type = AND_GATE ∨ c.type = OR_GATE ∨ c.type = NOT_GATE ∨
        c.type = NAND_GATE ∨ c.type = NOR_GATE ∨ c.type = XOR_GATE) = true) := by
  intro c h
  rcases h with ⟨h1, h2⟩
  cases ht : c.type <;> rw [ht] at h1 h2 <;> simp_all

theorem disj_am_op : ∀ c : CircuitComponent,
    ¬(decide (c.type = AMMETER) = true ∧ decide (c.type = OPAMP) = true) := by
  intro c h
  rcases h with ⟨h1, h2⟩
  cases ht : c.type <;> rw [ht] at h1 h2 <;> simp_all

theorem disj_am_gate : ∀ c : CircuitComponent,
    ¬(decide (c.type = AMMETER) = true ∧
      decide (c.type = AND_GATE ∨ c.type = OR_GATE ∨ c.type = NOT_GATE ∨
        c.type = NAND_GATE ∨ c.type = NOR_GATE ∨ c.type = XOR_GATE) = true) := by
  intro c h
  rcases h with ⟨h1, h2⟩
  cases ht : c.type <;> rw [ht] at h1 h2 <;> simp_all

theorem disj_op_gate : ∀ c : CircuitComponent,
    ¬(decide (c.type = OPAMP) = true ∧
      decide (c.type = AND_GATE ∨ c.type = OR_GATE ∨ c.type = NOT_GATE ∨
        c.type = NAND_GATE ∨ c.type = NOR_GATE ∨ c.type = XOR_GATE) = true) := by
  intro c h
  rcases h with ⟨h1, h2⟩
  cases ht : c.type <;> rw [ht] at h1 h2 <;> simp_all

/-- The harvested current of the i-th voltage source reads `x (numNodes+i)`. -/
theorem harvest_lookup_vs (components : List CircuitComponent) (pm : List (PortKey × ℕ))
    (numNodes : ℕ) (x : ℕ → ℝ) (hN : (components.map (fun c => c.id)).Nodup)
    (i : ℕ) (hi : i < (voltageSourcesOf components).length) :
    lookupA (harvestCurrents components pm numNodes x)
      ((voltageSourcesOf components).get ⟨i, hi⟩).id = some (x (numNodes + i)) := by
  have htc : (voltageSourcesOf components).get ⟨i, hi⟩ ∈
      components.filter (fun c => decide (c.type = VOLTAGE_SOURCE ∨ c.type = AC_SOURCE)) :=
    List.get_mem (voltageSourcesOf components) i hi
  have htcc := List.mem_of_mem_filter htc
  have htsk : dcSkip ((voltageSourcesOf components).get ⟨i, hi⟩).type := by
    have := of_decide_eq_true (List.mem_filter.mp htc).2
    unfold dcSkip
    tauto
  unfold harvestCurrents
  dsimp only
  rw [harvestFold_lookup_ne pm _ components _ _ (passive_key_ne components hN htcc htsk)]
  rw [foldIdx_setA_lookup_ne _ (logicGatesOf components) _ _ _
    (filter_key_ne components hN _ _ htc disj_vs_gate)]
  rw [foldIdx_setA_lookup_ne _ (opampsOf components) _ _ _
    (filter_key_ne components hN _ _ htc disj_vs_op)]
  rw [foldIdx_setA_lookup_ne _ (ammetersOf components) _ _ _
    (filter_key_ne components hN _ _ htc disj_vs_am)]
  rw [foldIdx_setA_lookup_get _ (voltageSourcesOf components) _ 0 i hi
    (filter_ids_nodup components hN _)]
  simp only [Nat.zero_add]

/-- The harvested current of the i-th ammeter reads `x (numNodes+#vs+i)`. -/
theorem harvest_lookup_am (components : List CircuitComponent) (pm : List (PortKey × ℕ))
    (numNodes : ℕ) (x : ℕ → ℝ) (hN : (components.map (fun c => c.id)).Nodup)
    (i : ℕ) (hi : i < (ammetersOf components).length) :
    lookupA (harvestCurrents components pm numNodes x)
      ((ammetersOf components).get ⟨i, hi⟩).id =
      some (x (numNodes + (voltageSourcesOf components).length + i)) := by
  have htc : (ammetersOf components).get ⟨i, hi⟩ ∈
      components.filter (fun c => decide (c.type = AMMETER)) :=
    List.get_mem (ammetersOf components) i hi
  have htcc := List.mem_of_mem_filter htc
  have htsk : dcSkip ((ammetersOf components).get ⟨i, hi⟩).type := by
    have := of_decide_eq_true (List.mem_filter.mp htc).2
    unfold dcSkip
    tauto
  unfold harvestCurrents
  dsimp only
  rw [harvestFold_lookup_ne pm _ components _ _ (passive_key_ne components hN htcc htsk)]
  rw [foldIdx_setA_lookup_ne _ (logicGatesOf components) _ _ _
    (filter_key_ne components hN _ _ htc disj_am_gate)]
  rw [foldIdx_setA_lookup_ne _ (opampsOf components) _ _ _
    (filter_key_ne components hN _ _ htc disj_am_op)]
  rw [foldIdx_setA_lookup_get _ (ammetersOf components) _ 0 i hi
    (filter_ids_nodup components hN _)]
  simp only [Nat.zero_add]

/-- The harvested current of the i-th op-amp reads `x (numNodes+#vs+#am+i)`. -/
theorem harvest_lookup_op (components : List CircuitComponent) (pm : List (PortKey × ℕ))
    (numNodes : ℕ) (x : ℕ → ℝ) (hN : (components.map (fun c => c.id)).Nodup)
    (i : ℕ) (hi : i < (opampsOf components).length) :
    lookupA (harvestCurrents components pm numNodes x)
      ((opampsOf components).get ⟨i, hi⟩).id =
      some (x (numNodes + (voltageSourcesOf components).length +
        (ammetersOf components).length + i)) := by
  have htc : (opampsOf components).get ⟨i, hi⟩ ∈
      components.filter (fun c => decide (c.type = OPAMP)) :=
    List.get_mem (opampsOf components) i hi
  have htcc := List.mem_of_mem_filter htc
  have htsk : dcSkip ((opampsOf components).get ⟨i, hi⟩).type := by
    have := of_decide_eq_true (List.mem_filter.mp htc).2
    unfold dcSkip
    tauto
  unfold harvestCurrents
  dsimp only
  rw [harvestFold_lookup_ne pm _ components _ _ (passive_key_ne components hN htcc htsk)]
  rw [foldIdx_setA_lookup_ne _ (logicGatesOf components) _ _ _
    (filter_key_ne components hN _ _ htc disj_op_gate)]
  rw [foldIdx_setA_lookup_get _ (opampsOf components) _ 0 i hi
    (filter_ids_nodup components hN _)]
  simp only [Nat.zero_add]

/-- The harvested current of the i-th logic gate reads
`x (numNodes+#vs+#am+#op+i)`. -/
theorem harvest_lookup_gate (components : List CircuitComponent) (pm : List (PortKey × ℕ))
    (numNodes : ℕ) (x : ℕ → ℝ) (hN : (components.map (fun c => c.id)).Nodup)
    (i : ℕ) (hi : i < (logicGatesOf components).length) :
    lookupA (harvestCurrents components pm numNodes x)
      ((logicGatesOf components).get ⟨i, hi⟩).id =
      some (x (numNodes + (voltageSourcesOf components).length +
        (ammetersOf components).length + (opampsOf components).length + i)) := by
  have htc : (logicGatesOf components).get ⟨i, hi⟩ ∈
      components.filter (fun c => decide (c.type = AND_GATE ∨ c.type = OR_GATE ∨
        c.type = NOT_GATE ∨ c.type = NAND_GATE ∨ c.type = NOR_GATE ∨
        c.type = XOR_GATE)) :=
    List.get_mem (logicGatesOf components) i hi
  have htcc := List.mem_of_mem_filter htc
  have htsk : dcSkip ((logicGatesOf components).get ⟨i, hi⟩).type := by
    have := of_decide_eq_true (List.mem_filter.mp htc).2
    unfold dcSkip
    tauto
  unfold harvestCurrents
  dsimp only
  rw [harvestFold_lookup_ne pm _ components _ _ (passive_key_ne components hN htcc htsk)]
  rw [foldIdx_setA_lookup_get _ (logicGatesOf components) _ 0 i hi
    (filter_ids_nodup components hN _)]
  simp only [Nat.zero_add]

/-- C3: in solveCircuit the extra MNA unknowns follow the node unknowns in the
fixed order voltage sources, ammeters, op-amps, logic gates: the i-th member
of each family has its extra-equation RHS stamped at exactly the index
numNodes+i, numNodes+#vs+i, numNodes+#vs+#am+i, numNodes+#vs+#am+#op+i
respectively, in every assembled system; and under distinct component ids the
harvested componentCurrents entry of that member reads the solution vector at
exactly that same index. -/
theorem C3_extra_index_order (components : List CircuitComponent) (wires : List Wire)
    (frequency : ℝ) (hN : (components.map (fun c => c.id)).Nodup)
    (hg : hasGroundNode components wires = true) :
    ((CircuitSolver.solveCircuit components wires frequency).componentCurrents =
      harvestCurrents components (buildGraph components wires).portToNode
        (buildGraph components wires).numNodes (dcState components wires).finalX) ∧
    (∀ (volt : ℕ → ℝ) (targets : List (String × ℝ)) (x : ℕ → ℝ) (i : ℕ)
       (hi : i < (voltageSourcesOf components).length),
      (assembleDC components (buildGraph components wires).portToNode
          (buildGraph components wires).numNodes volt targets).2
        ((buildGraph components wires).numNodes + i) =
        dcSourceVal ((voltageSourcesOf components).get ⟨i, hi⟩) ∧
      lookupA (harvestCurrents components (buildGraph components wires).portToNode
          (buildGraph components wires).numNodes x)
        ((voltageSourcesOf components).get ⟨i, hi⟩).id =
        some (x ((buildGraph components wires).numNodes + i))) ∧
    (∀ (volt : ℕ → ℝ) (targets : List (String × ℝ)) (x : ℕ → ℝ) (i : ℕ)
       (hi : i < (ammetersOf components).length),
      (assembleDC components (buildGraph components wires).portToNode
          (buildGraph components wires).numNodes volt targets).2
        ((buildGraph components wires).numNodes +
          (voltageSourcesOf components).length + i) = 0 ∧
      lookupA (harvestCurrents components (buildGraph components wires).portToNode
          (buildGraph components wires).numNodes x)
        ((ammetersOf components).get ⟨i, hi⟩).id =
        some (x ((buildGraph components wires).numNodes +
          (voltageSourcesOf components).length + i))) ∧
    (∀ (volt : ℕ → ℝ) (targets : List (String × ℝ)) (x : ℕ → ℝ) (i : ℕ)
       (hi : i < (opampsOf components).length),
      (assembleDC components (buildGraph components wires).portToNode
          (buildGraph components wires).numNodes volt targets).2
        ((buildGraph components wires).numNodes +
          (voltageSourcesOf components).length + (ammetersOf components).length + i) =
        dcOpampRhsVal (buildGraph components wires).portToNode volt
          ((opampsOf components).get ⟨i, hi⟩) ∧
      lookupA (harvestCurrents components (buildGraph components wires).portToNode
          (buildGraph components wires).numNodes x)
        ((opampsOf components).get ⟨i, hi⟩).id =
        some (x ((buildGraph components wires).numNodes +
          (voltageSourcesOf components).length + (ammetersOf components).length + i))) ∧
    (∀ (volt : ℕ → ℝ) (targets : List (String × ℝ)) (x : ℕ → ℝ) (i : ℕ)
       (hi : i < (logicGatesOf components).length),
      (assembleDC components (buildGraph components wires).portToNode
          (buildGraph components wires).numNodes volt targets).2
        ((buildGraph components wires).numNodes +
          (voltageSourcesOf components).length + (ammetersOf components).length +
          (opampsOf components).length + i) =
        (lookupA targets ((logicGatesOf components).get ⟨i, hi⟩).id).getD 0 ∧
      lookupA (harvestCurrents components (buildGraph components wires).portToNode
          (buildGraph components wires).numNodes x)
        ((logicGatesOf components).get ⟨i, hi⟩).id =
        some (x ((buildGraph components wires).numNodes +
          (voltageSourcesOf components).length + (ammetersOf components).length +
          (opampsOf components).length + i))) := by
  refine ⟨?_, ?_, ?_, ?_, ?_⟩
  · unfold CircuitSolver.solveCircuit
    rw [hg]
    rfl
  · intro volt targets x i hi
    exact ⟨assembleDC_rhs_vs components _ _ volt targets i hi,
      harvest_lookup_vs components _ _ x hN i hi⟩
  · intro volt targets x i hi
    exact ⟨assembleDC_rhs_am components _ _ volt targets i hi,
      harvest_lookup_am components _ _ x hN i hi⟩
  · intro volt targets x i hi
    exact ⟨assembleDC_rhs_op components _ _ volt targets i hi,
      harvest_lookup_op components _ _ x hN i hi⟩
  · intro volt targets x i hi
    exact ⟨assembleDC_rhs_gate components _ _ volt targets i hi,
      harvest_lookup_gate components _ _ x hN i hi⟩

/-- C3 witness: the index layout and harvest alignment at the concrete
grounded demo circuit. -/
theorem C3_extra_index_order_witness :
    (demoComps.map (fun c => c.id)).Nodup ∧
    hasGroundNode demoComps demoWires = true ∧
    (((CircuitSolver.solveCircuit demoComps demoWires 0).componentCurrents =
      harvestCurrents demoComps (buildGraph demoComps demoWires).portToNode
        (buildGraph demoComps demoWires).numNodes (dcState demoComps demoWires).finalX) ∧
    (∀ (volt : ℕ → ℝ) (targets : List (String × ℝ)) (x : ℕ → ℝ) (i : ℕ)
       (hi : i < (voltageSourcesOf demoComps).length),
      (assembleDC demoComps (buildGraph demoComps demoWires).portToNode
          (buildGraph demoComps demoWires).numNodes volt targets).2
        ((buildGraph demoComps demoWires).numNodes + i) =
        dcSourceVal ((voltageSourcesOf demoComps).get ⟨i, hi⟩) ∧
      lookupA (harvestCurrents demoComps (buildGraph demoComps demoWires).portToNode
          (buildGraph demoComps demoWires).numNodes x)
        ((voltageSourcesOf demoComps).get ⟨i, hi⟩).id =
        some (x ((buildGraph demoComps demoWires).numNodes + i))) ∧
    (∀ (volt : ℕ → ℝ) (targets : List (String × ℝ)) (x : ℕ → ℝ) (i : ℕ)
       (hi : i < (ammetersOf demoComps).length),
      (assembleDC demoComps (buildGraph demoComps demoWires).portToNode
          (buildGraph demoComps demoWires).numNodes volt targets).2
        ((buildGraph demoComps demoWires).numNodes +
          (voltageSourcesOf demoComps).length + i) = 0 ∧
      lookupA (harvestCurrents demoComps (buildGraph demoComps demoWires).portToNode
          (buildGraph demoComps demoWires).numNodes x)
        ((ammetersOf demoComps).get ⟨i, hi⟩).id =
        some (x ((buildGraph demoComps demoWires).numNodes +
          (voltageSourcesOf demoComps).length + i))) ∧
    (∀ (volt : ℕ → ℝ) (targets : List (String × ℝ)) (x : ℕ → ℝ) (i : ℕ)
       (hi : i < (opampsOf demoComps).length),
      (assembleDC demoComps (buildGraph demoComps demoWires).portToNode
          (buildGraph demoComps demoWires).numNodes volt targets).2
        ((buildGraph demoComps demoWires).numNodes +
          (voltageSourcesOf demoComps).length + (ammetersOf demoComps).length + i) =
        dcOpampRhsVal (buildGraph demoComps demoWires).portToNode volt
          ((opampsOf demoComps).get ⟨i, hi⟩) ∧
      lookupA (harvestCurrents demoComps (buildGraph demoComps demoWires).portToNode
          (buildGraph demoComps demoWires).numNodes x)
        ((opampsOf demoComps).get ⟨i, hi⟩).id =
        some (x ((buildGraph demoComps demoWires).numNodes +
          (voltageSourcesOf demoComps).length + (ammetersOf demoComps).length + i))) ∧
    (∀ (volt : ℕ → ℝ) (targets : List (String × ℝ)) (x : ℕ → ℝ) (i : ℕ)
       (hi : i < (logicGatesOf demoComps).length),
      (assembleDC demoComps (buildGraph demoComps demoWires).portToNode
          (buildGraph demoComps demoWires).numNodes volt targets).2
        ((buildGraph demoComps demoWires).numNodes +
          (voltageSourcesOf demoComps).length + (ammetersOf demoComps).length +
          (opampsOf demoComps).length + i) =
        (lookupA targets ((logicGatesOf demoComps).get ⟨i, hi⟩).id).getD 0 ∧
      lookupA (harvestCurrents demoComps (buildGraph demoComps demoWires).portToNode
          (buildGraph demoComps demoWires).numNodes x)
        ((logicGatesOf demoComps).get ⟨i, hi⟩).id =
        some (x ((buildGraph demoComps demoWires).numNodes +
          (voltageSourcesOf demoComps).length + (ammetersOf demoComps).length +
          (opampsOf demoComps).length + i)))) :=
  ⟨by decide, by decide,
    C3_extra_index_order demoComps demoWires 0 (by decide) (by decide)⟩

/-! ### C4: op-amp extra-row semantics -/

/-- The dot product of matrix row `r` with `x` over columns `0..n-1`:
the left-hand side of the r-th assembled equation. -/
noncomputable def rowSum (M : Mat) (r : ℕ) (x : ℕ → ℝ) (n : ℕ) : ℝ :=
  (List.range n).foldl (fun acc j => acc + M r j * x j) 0

theorem foldl_range_add (f : ℕ → ℝ) :
    ∀ n : ℕ, (List.range n).foldl (fun acc j => acc + f j) 0 =
      ∑ j ∈ Finset.range n, f j := by
  intro n
  induction n with
  | zero => simp
  | succ m ih =>
      rw [List.range_succ, List.foldl_append]
      simp only [List.foldl_cons, List.foldl_nil]
      rw [ih, Finset.sum_range_succ]

/-- A row supported on one column below `n` dots to a single term. -/
theorem rowSum_one (v1 : ℝ) (a n : ℕ) (x : ℕ → ℝ) (ha : a < n) (M : Mat) (r : ℕ)
    (hM : ∀ j, M r j = if j = a then v1 else 0) :
    rowSum M r x n = v1 * x a := by
  unfold rowSum
  rw [foldl_range_add (fun j => M r j * x j) n]
  have hcong : ∀ j ∈ Finset.range n, M r j * x j = if j = a then v1 * x j else 0 := by
    intro j _
    rw [hM j]
    by_cases hja : j = a
    · rw [if_pos hja, if_pos hja]
    · rw [if_neg hja, if_neg hja, zero_mul]
  rw [Finset.sum_congr rfl hcong, Finset.sum_ite_eq' (Finset.range n) a (fun j => v1 * x j),
    if_pos (Finset.mem_range.mpr ha)]

/-- A row supported on three pairwise-distinct columns below `n` dots to the
three corresponding terms. -/
theorem rowSum_three (v1 v2 v3 : ℝ) (a b c n : ℕ) (x : ℕ → ℝ)
    (ha : a < n) (hb : b < n) (hc : c < n)
    (hab : a ≠ b) (hac : a ≠ c) (hbc : b ≠ c) (M : Mat) (r : ℕ)
    (hM : ∀ j, M r j = if j = a then v1 else if j = b then v2 else
      if j = c then v3 else 0) :
    rowSum M r x n = v1 * x a + v2 * x b + v3 * x c := by
  unfold rowSum
  rw [foldl_range_add (fun j => M r j * x j) n]
  have hcong : ∀ j ∈ Finset.range n, M r j * x j =
      (if j = a then v1 * x j else 0) + ((if j = b then v2 * x j else 0) +
        (if j = c then v3 * x j else 0)) := by
    intro j _
    rw [hM j]
    by_cases hja : j = a
    · subst hja
      rw [if_pos rfl, if_pos rfl, if_neg hab, if_neg hac]
      ring
    · rw [if_neg hja, if_neg hja]
      by_cases hjb : j = b
      · subst hjb
        rw [if_pos rfl, if_pos rfl, if_neg hbc]
        ring
      · rw [if_neg hjb, if_neg hjb]
        by_cases hjc : j = c
        · subst hjc
          rw [if_pos rfl, if_pos rfl]
          ring
        · rw [if_neg hjc, if_neg hjc, zero_mul]
          ring
  rw [Finset.sum_congr rfl hcong, Finset.sum_add_distrib, Finset.sum_add_distrib,
    Finset.sum_ite_eq' (Finset.range n) a (fun j => v1 * x j),
    Finset.sum_ite_eq' (Finset.range n) b (fun j => v2 * x j),
    Finset.sum_ite_eq' (Finset.range n) c (fun j => v3 * x j),
    if_pos (Finset.mem_range.mpr ha), if_pos (Finset.mem_range.mpr hb),
    if_pos (Finset.mem_range.mpr hc)]
  ring

/-- The DC op-amp extra row in the linear (unclamped) case: assignment order
`out := 1`, `pos := -Gain`, `neg := Gain` with the last write winning. -/
theorem dcOpampStamp_row_linear (pm : List (PortKey × ℕ)) (numNodes nVS nAM : ℕ)
    (volt : ℕ → ℝ) (s : Mat × Vec) (i : ℕ) (op : CircuitComponent)
    (nPos nNeg nOut : ℕ)
    (h0 : lookupA pm (op.id, 0) = some nPos) (h1 : lookupA pm (op.id, 1) = some nNeg)
    (h2 : lookupA pm (op.id, 2) = some nOut)
    (hp : nPos ≠ 0) (hn : nNeg ≠ 0) (ho : nOut ≠ 0)
    (hnc : ¬(opampTarget pm volt op > 15 ∨ opampTarget pm volt op < -15))
    (hrow : ∀ j, s.1 (numNodes + nVS + nAM + i) j = 0)
    (hOutIdx : nOut - 1 ≠ numNodes + nVS + nAM + i) :
    ∀ j, (dcOpampStamp pm numNodes nVS nAM volt s i op).1 (numNodes + nVS + nAM + i) j =
      if j = nNeg - 1 then (if op.value > 0 then op.value else 100000)
      else if j = nPos - 1 then -(if op.value > 0 then op.value else 100000)
      else if j = nOut - 1 then 1 else 0 := by
  intro j
  unfold dcOpampStamp
  rw [h0, h1, h2]
  dsimp only
  rw [if_neg hnc, if_pos ho, if_pos ho, if_pos hp, if_pos hn]
  dsimp only
  have hfa : (numNodes + nVS + nAM + i = nOut - 1) = False :=
    eq_false (fun h => hOutIdx h.symm)
  simp only [mset_eval, eq_self_iff_true, true_and, hfa, false_and, if_false, hrow]

/-- The DC op-amp extra row in the clamped case: only the output column is
written; the RHS holds the clamped rail. -/
theorem dcOpampStamp_row_clamp (pm : List (PortKey × ℕ)) (numNodes nVS nAM : ℕ)
    (volt : ℕ → ℝ) (s : Mat × Vec) (i : ℕ) (op : CircuitComponent) (nOut : ℕ)
    (h2 : lookupA pm (op.id, 2) = some nOut) (ho : nOut ≠ 0)
    (hc : opampTarget pm volt op > 15 ∨ opampTarget pm volt op < -15)
    (hrow : ∀ j, s.1 (numNodes + nVS + nAM + i) j = 0)
    (hOutIdx : nOut - 1 ≠ numNodes + nVS + nAM + i) :
    ∀ j, (dcOpampStamp pm numNodes nVS nAM volt s i op).1 (numNodes + nVS + nAM + i) j =
      if j = nOut - 1 then 1 else 0 := by
  intro j
  unfold dcOpampStamp
  rw [h2]
  dsimp only
  rw [if_pos hc, if_pos ho, if_pos ho]
  dsimp only
  have hfa : (numNodes + nVS + nAM + i = nOut - 1) = False :=
    eq_false (fun h => hOutIdx h.symm)
  simp only [mset_eval, eq_self_iff_true, true_and, hfa, false_and, if_false, hrow]

/-- The transient op-amp extra row: always the linear pattern. -/
theorem transOpampStamp_row (pm : List (PortKey × ℕ)) (numNodes nVS : ℕ)
    (s : Mat × Vec) (i : ℕ) (op : CircuitComponent) (nPos nNeg nOut : ℕ)
    (h0 : lookupA pm (op.id, 0) = some nPos) (h1 : lookupA pm (op.id, 1) = some nNeg)
    (h2 : lookupA pm (op.id, 2) = some nOut)
    (hp : nPos ≠ 0) (hn : nNeg ≠ 0) (ho : nOut ≠ 0)
    (hrow : ∀ j, s.1 (numNodes + nVS + i) j = 0)
    (hOutIdx : nOut - 1 ≠ numNodes + nVS + i) :
    ∀ j, (transOpampStamp pm numNodes nVS s i op).1 (numNodes + nVS + i) j =
      if j = nNeg - 1 then (if op.value > 0 then op.value else 100000)
      else if j = nPos - 1 then -(if op.value > 0 then op.value else 100000)
      else if j = nOut - 1 then 1 else 0 := by
  intro j
  unfold transOpampStamp
  rw [h0, h1, h2]
  dsimp only
  rw [if_pos ho, if_pos ho, if_pos hp, if_pos hn]
  have hfa : (numNodes + nVS + i = nOut - 1) = False :=
    eq_false (fun h => hOutIdx h.symm)
  simp only [mset_eval, eq_self_iff_true, true_and, hfa, false_and, if_false, hrow]

theorem transOpampStamp_rhs (pm : List (PortKey × ℕ)) (numNodes nVS : ℕ)
    (s : Mat × Vec) (i : ℕ) (op : CircuitComponent) :
    (transOpampStamp pm numNodes nVS s i op).2 = vset s.2 (numNodes + nVS + i) 0 := rfl

/-- The AC op-amp extra row: always the linear pattern, stamped as complex
values with zero imaginary part. -/
theorem acOpampStamp_row (pm : List (PortKey × ℕ)) (numNodes nVS : ℕ)
    (s : CMat × CVec) (i : ℕ) (op : CircuitComponent) (nPos nNeg nOut : ℕ)
    (h0 : lookupA pm (op.id, 0) = some nPos) (h1 : lookupA pm (op.id, 1) = some nNeg)
    (h2 : lookupA pm (op.id, 2) = some nOut)
    (hp : nPos ≠ 0) (hn : nNeg ≠ 0) (ho : nOut ≠ 0)
    (hrow : ∀ j, s.1 (numNodes + nVS + i) j = (0 : Cpx))
    (hOutIdx : nOut - 1 ≠ numNodes + nVS + i) :
    ∀ j, (acOpampStamp pm numNodes nVS s i op).1 (numNodes + nVS + i) j =
      if j = nNeg - 1 then (⟨if op.value > 0 then op.value else 100000, 0⟩ : Cpx)
      else if j = nPos - 1 then (⟨-(if op.value > 0 then op.value else 100000), 0⟩ : Cpx)
      else if j = nOut - 1 then (1 : Cpx) else (0 : Cpx) := by
  intro j
  unfold acOpampStamp
  rw [h0, h1, h2]
  dsimp only
  rw [if_pos ho, if_pos ho, if_pos hp, if_pos hn]
  have hfa : (numNodes + nVS + i = nOut - 1) = False :=
    eq_false (fun h => hOutIdx h.symm)
  simp only [mset_eval, eq_self_iff_true, true_and, hfa, false_and, if_false, hrow]

theorem acOpampStamp_rhs (pm : List (PortKey × ℕ)) (numNodes nVS : ℕ)
    (s : CMat × CVec) (i : ℕ) (op : CircuitComponent) :
    (acOpampStamp pm numNodes nVS s i op).2 = vset s.2 (numNodes + nVS + i) (0 : Cpx) :=
  rfl

/-- C4 (amended): for an op-amp whose +, -, out ports map to pairwise-distinct
non-ground nodes: in solveCircuit, when the target output
gain*(V(+) - V(-)) (gain = value if value > 0 else 1e5) exceeds the ±15 V
rails the extra row reads x(out) = clamped rail; otherwise it reads
x(out) - gain*x(+) + gain*x(-) = 0; and in solveTransient and solveACSweep
the linear relation is always stamped with no clamping. Distinctness is
essential: the stamps assign (not add) the coefficients, so aliased ports
overwrite each other (see the counterexample). -/
theorem C4_opamp_row (pm : List (PortKey × ℕ)) (volt : ℕ → ℝ) (op : CircuitComponent)
    (nPos nNeg nOut : ℕ)
    (h0 : lookupA pm (op.id, 0) = some nPos) (h1 : lookupA pm (op.id, 1) = some nNeg)
    (h2 : lookupA pm (op.id, 2) = some nOut)
    (hp : nPos ≠ 0) (hn : nNeg ≠ 0) (ho : nOut ≠ 0)
    (hpn : nPos ≠ nNeg) (hpo : nPos ≠ nOut) (hno : nNeg ≠ nOut) :
    (∀ (nn nVS nAM i n : ℕ) (s : Mat × Vec) (x : ℕ → ℝ),
      (∀ j, s.1 (nn + nVS + nAM + i) j = 0) → nOut - 1 ≠ nn + nVS + nAM + i →
      nOut - 1 < n →
      (opampTarget pm volt op > 15 ∨ opampTarget pm volt op < -15) →
      rowSum (dcOpampStamp pm nn nVS nAM volt s i op).1 (nn + nVS + nAM + i) x n =
        x (nOut - 1) ∧
      (dcOpampStamp pm nn nVS nAM volt s i op).2 (nn + nVS + nAM + i) =
        (if opampTarget pm volt op > 15 then 15 else -15)) ∧
    (∀ (nn nVS nAM i n : ℕ) (s : Mat × Vec) (x : ℕ → ℝ),
      (∀ j, s.1 (nn + nVS + nAM + i) j = 0) → nOut - 1 ≠ nn + nVS + nAM + i →
      nPos - 1 < n → nNeg - 1 < n → nOut - 1 < n →
      ¬(opampTarget pm volt op > 15 ∨ opampTarget pm volt op < -15) →
      rowSum (dcOpampStamp pm nn nVS nAM volt s i op).1 (nn + nVS + nAM + i) x n =
        x (nOut - 1) - (if op.value > 0 then op.value else 100000) * x (nPos - 1) +
          (if op.value > 0 then op.value else 100000) * x (nNeg - 1) ∧
      (dcOpampStamp pm nn nVS nAM volt s i op).2 (nn + nVS + nAM + i) = 0) ∧
    (∀ (nn nVS i n : ℕ) (s : Mat × Vec) (x : ℕ → ℝ),
      (∀ j, s.1 (nn + nVS + i) j = 0) → nOut - 1 ≠ nn + nVS + i →
      nPos - 1 < n → nNeg - 1 < n → nOut - 1 < n →
      rowSum (transOpampStamp pm nn nVS s i op).1 (nn + nVS + i) x n =
        x (nOut - 1) - (if op.value > 0 then op.value else 100000) * x (nPos - 1) +
          (if op.value > 0 then op.value else 100000) * x (nNeg - 1) ∧
      (transOpampStamp pm nn nVS s i op).2 (nn + nVS + i) = 0) ∧
    (∀ (nn nVS i : ℕ) (s : CMat × CVec),
      (∀ j, s.1 (nn + nVS + i) j = (0 : Cpx)) → nOut - 1 ≠ nn + nVS + i →
      (∀ j, (acOpampStamp pm nn nVS s i op).1 (nn + nVS + i) j =
        if j = nNeg - 1 then (⟨if op.value > 0 then op.value else 100000, 0⟩ : Cpx)
        else if j = nPos - 1 then
          (⟨-(if op.value > 0 then op.value else 100000), 0⟩ : Cpx)
        else if j = nOut - 1 then (1 : Cpx) else (0 : Cpx)) ∧
      (acOpampStamp pm nn nVS s i op).2 (nn + nVS + i) = (0 : Cpx)) := by
  have hab : nNeg - 1 ≠ nPos - 1 := by omega
  have hac : nNeg - 1 ≠ nOut - 1 := by omega
  have hbc : nPos - 1 ≠ nOut - 1 := by omega
  refine ⟨?_, ?_, ?_, ?_⟩
  · intro nn nVS nAM i n s x hrow hOutIdx hbound hc
    constructor
    · rw [rowSum_one 1 (nOut - 1) n x hbound
        (dcOpampStamp pm nn nVS nAM volt s i op).1 (nn + nVS + nAM + i)
        (dcOpampStamp_row_clamp pm nn nVS nAM volt s i op nOut h2 ho hc hrow hOutIdx)]
      ring
    · rw [dcOpampStamp_rhs_eq pm nn nVS nAM volt s i op, vset_eval, if_pos rfl]
      unfold dcOpampRhsVal
      rcases hc with h | h
      · rw [if_pos h, if_pos h]
      · have h15 : ¬ opampTarget pm volt op > 15 := by linarith
        rw [if_neg h15, if_neg h15, if_pos h]
  · intro nn nVS nAM i n s x hrow hOutIdx hb1 hb2 hb3 hnc
    constructor
    · rw [rowSum_three (if op.value > 0 then op.value else 100000)
        (-(if op.value > 0 then op.value else 100000)) 1
        (nNeg - 1) (nPos - 1) (nOut - 1) n x hb2 hb1 hb3 hab hac hbc
        (dcOpampStamp pm nn nVS nAM volt s i op).1 (nn + nVS + nAM + i)
        (dcOpampStamp_row_linear pm nn nVS nAM volt s i op nPos nNeg nOut
          h0 h1 h2 hp hn ho hnc hrow hOutIdx)]
      ring
    · rw [dcOpampStamp_rhs_eq pm nn nVS nAM volt s i op, vset_eval, if_pos rfl]
      unfold dcOpampRhsVal
      push_neg at hnc
      rw [if_neg (by linarith [hnc.1] : ¬ opampTarget pm volt op > 15),
        if_neg (by linarith [hnc.2] : ¬ opampTarget pm volt op < -15)]
  · intro nn nVS i n s x hrow hOutIdx hb1 hb2 hb3
    constructor
    · rw [rowSum_three (if op.value > 0 then op.value else 100000)
        (-(if op.value > 0 then op.value else 100000)) 1
        (nNeg - 1) (nPos - 1) (nOut - 1) n x hb2 hb1 hb3 hab hac hbc
        (transOpampStamp pm nn nVS s i op).1 (nn + nVS + i)
        (transOpampStamp_row pm nn nVS s i op nPos nNeg nOut
          h0 h1 h2 hp hn ho hrow hOutIdx)]
      ring
    · rw [transOpampStamp_rhs pm nn nVS s i op, vset_eval, if_pos rfl]
  · intro nn nVS i s hrow hOutIdx
    exact ⟨acOpampStamp_row pm nn nVS s i op nPos nNeg nOut h0 h1 h2 hp hn ho hrow hOutIdx,
      by rw [acOpampStamp_rhs pm nn nVS s i op, vset_eval, if_pos rfl]⟩

/-- An op-amp with gain 2. -/
def opA : CircuitComponent := ⟨"a", OPAMP, 2, none, none, none, none, none, none⟩

/-- Aliased port map: + and - both on node 1, out on node 2. -/
def pmA : List (PortKey × ℕ) := [(("a", 0), 1), (("a", 1), 1), (("a", 2), 2)]

/-- Distinct port map: +, -, out on nodes 1, 2, 3. -/
def pmB : List (PortKey × ℕ) := [(("a", 0), 1), (("a", 1), 2), (("a", 2), 3)]

/-- A candidate solution vector. -/
noncomputable def xA : ℕ → ℝ := fun j => if j = 0 then 1 else if j = 1 then -2 else 0

/-- C4 counterexample: with + and - wired to the same non-ground node, the
assignments overwrite each other, so the unclamped extra row reads
x(out) + gain*x(n) = 0 instead of the claimed x(out) - gain*x(+) +
gain*x(-) = 0: the vector (1, -2) satisfies the stamped row while the claimed
relation evaluates to -2. -/
theorem C4_counterexample :
    lookupA pmA (opA.id, 0) = some 1 ∧ lookupA pmA (opA.id, 1) = some 1 ∧
    lookupA pmA (opA.id, 2) = some 2 ∧
    ¬(opampTarget pmA zeroVolt opA > 15 ∨ opampTarget pmA zeroVolt opA < -15) ∧
    rowSum (dcOpampStamp pmA 2 0 0 zeroVolt zeroSys 0 opA).1 (2 + 0 + 0 + 0) xA 3 =
      (dcOpampStamp pmA 2 0 0 zeroVolt zeroSys 0 opA).2 (2 + 0 + 0 + 0) ∧
    xA (2 - 1) - (if opA.value > 0 then opA.value else 100000) * xA (1 - 1) +
      (if opA.value > 0 then opA.value else 100000) * xA (1 - 1) ≠ 0 := by
  have e0 : lookupA pmA (opA.id, 0) = some 1 := by decide
  have e1 : lookupA pmA (opA.id, 1) = some 1 := by decide
  have e2 : lookupA pmA (opA.id, 2) = some 2 := by decide
  have ht : opampTarget pmA zeroVolt opA = 0 := by
    unfold opampTarget
    rw [e0, e1]
    norm_num [zeroVolt]
  have hnc : ¬(opampTarget pmA zeroVolt opA > 15 ∨ opampTarget pmA zeroVolt opA < -15) := by
    rw [ht]
    norm_num
  have hrow : ∀ j, zeroSys.1 (2 + 0 + 0 + 0) j = 0 := fun _ => rfl
  have hr := dcOpampStamp_row_linear pmA 2 0 0 zeroVolt zeroSys 0 opA 1 1 2 e0 e1 e2
    (by decide) (by decide) (by decide) hnc hrow (by decide)
  have hrs : rowSum (dcOpampStamp pmA 2 0 0 zeroVolt zeroSys 0 opA).1 (2 + 0 + 0 + 0)
      xA 3 = 0 := by
    unfold rowSum
    rw [show List.range 3 = [0, 1, 2] from rfl]
    simp only [List.foldl_cons, List.foldl_nil]
    rw [hr 0, hr 1, hr 2]
    norm_num [xA, opA]
  have hrhs : (dcOpampStamp pmA 2 0 0 zeroVolt zeroSys 0 opA).2 (2 + 0 + 0 + 0) = 0 := by
    rw [dcOpampStamp_rhs_eq pmA 2 0 0 zeroVolt zeroSys 0 opA, vset_eval, if_pos rfl]
    unfold dcOpampRhsVal
    rw [ht]
    norm_num
  refine ⟨e0, e1, e2, hnc, ?_, ?_⟩
  · rw [hrs, hrhs]
  · norm_num [xA, opA]

/-- C4 witness: the row semantics instantiated at a gain-2 op-amp on distinct
non-ground nodes 1, 2, 3. -/
theorem C4_opamp_row_witness :
    lookupA pmB (opA.id, 0) = some 1 ∧ lookupA pmB (opA.id, 1) = some 2 ∧
    lookupA pmB (opA.id, 2) = some 3 ∧
    ((∀ (nn nVS nAM i n : ℕ) (s : Mat × Vec) (x : ℕ → ℝ),
      (∀ j, s.1 (nn + nVS + nAM + i) j = 0) → 3 - 1 ≠ nn + nVS + nAM + i →
      3 - 1 < n →
      (opampTarget pmB zeroVolt opA > 15 ∨ opampTarget pmB zeroVolt opA < -15) →
      rowSum (dcOpampStamp pmB nn nVS nAM zeroVolt s i opA).1 (nn + nVS + nAM + i) x n =
        x (3 - 1) ∧
      (dcOpampStamp pmB nn nVS nAM zeroVolt s i opA).2 (nn + nVS + nAM + i) =
        (if opampTarget pmB zeroVolt opA > 15 then 15 else -15)) ∧
    (∀ (nn nVS nAM i n : ℕ) (s : Mat × Vec) (x : ℕ → ℝ),
      (∀ j, s.1 (nn + nVS + nAM + i) j = 0) → 3 - 1 ≠ nn + nVS + nAM + i →
      1 - 1 < n → 2 - 1 < n → 3 - 1 < n →
      ¬(opampTarget pmB zeroVolt opA > 15 ∨ opampTarget pmB zeroVolt opA < -15) →
      rowSum (dcOpampStamp pmB nn nVS nAM zeroVolt s i opA).1 (nn + nVS + nAM + i) x n =
        x (3 - 1) - (if opA.value > 0 then opA.value else 100000) * x (1 - 1) +
          (if opA.value > 0 then opA.value else 100000) * x (2 - 1) ∧
      (dcOpampStamp pmB nn nVS nAM zeroVolt s i opA).2 (nn + nVS + nAM + i) = 0) ∧
    (∀ (nn nVS i n : ℕ) (s : Mat × Vec) (x : ℕ → ℝ),
      (∀ j, s.1 (nn + nVS + i) j = 0) → 3 - 1 ≠ nn + nVS + i →
      1 - 1 < n → 2 - 1 < n → 3 - 1 < n →
      rowSum (transOpampStamp pmB nn nVS s i opA).1 (nn + nVS + i) x n =
        x (3 - 1) - (if opA.value > 0 then opA.value else 100000) * x (1 - 1) +
          (if opA.value > 0 then opA.value else 100000) * x (2 - 1) ∧
      (transOpampStamp pmB nn nVS s i opA).2 (nn + nVS + i) = 0) ∧
    (∀ (nn nVS i : ℕ) (s : CMat × CVec),
      (∀ j, s.1 (nn + nVS + i) j = (0 : Cpx)) → 3 - 1 ≠ nn + nVS + i →
      (∀ j, (acOpampStamp pmB nn nVS s i opA).1 (nn + nVS + i) j =
        if j = 2 - 1 then (⟨if opA.value > 0 then opA.value else 100000, 0⟩ : Cpx)
        else if j = 1 - 1 then
          (⟨-(if opA.value > 0 then opA.value else 100000), 0⟩ : Cpx)
        else if j = 3 - 1 then (1 : Cpx) else (0 : Cpx)) ∧
      (acOpampStamp pmB nn nVS s i opA).2 (nn + nVS + i) = (0 : Cpx))) :=
  ⟨by decide, by decide, by decide,
    C4_opamp_row pmB zeroVolt opA 1 2 3 (by decide) (by decide) (by decide)
      (by decide) (by decide) (by decide) (by decide) (by decide) (by decide)⟩
